import Mathlib

/-!
# NebulaFinger: a shallow embedding of the scanning engine

Go strings are modelled as lists of Unicode characters (`GoString`): every
string the engine handles comes from JSON decoding, a URL or a lower-cased
response, and the operations used on them (prefix, suffix, substring, trim,
replace of ASCII patterns) agree on bytes and on characters for valid UTF-8.

`float64` confidences are modelled as rationals: the engine only copies and
compares them, it never does arithmetic on them.
-/

/-- A Go `string`, as its sequence of characters. -/
abbrev GoString := List Char

namespace unicode

/-- Go `unicode.IsSpace`: the Latin-1 white space characters, and above
Latin-1 the code points of the `White_Space` table. -/
def IsSpace (r : Char) : Bool :=
  let n := r.toNat
  if n ≤ 0xFF then
    n == 0x09 || n == 0x0A || n == 0x0B || n == 0x0C || n == 0x0D || n == 0x20
      || n == 0x85 || n == 0xA0
  else
    n == 0x1680 || (0x2000 ≤ n && n ≤ 0x200A) || n == 0x2028 || n == 0x2029
      || n == 0x202F || n == 0x205F || n == 0x3000

end unicode

namespace strings

/-- Go `strings.TrimSpace`: the leading and the trailing white space are cut. -/
def TrimSpace (s : GoString) : GoString :=
  (s.dropWhile unicode.IsSpace).rdropWhile unicode.IsSpace

/-- The scan of Go `strings.ReplaceAll` for a non-empty `old`: occurrences are
found from left to right and do not overlap. The counter is the number of
characters of the occurrence just replaced that are still to be skipped. -/
def ReplaceAll.go (old new : GoString) : Nat → GoString → GoString
  | _, [] => []
  | k + 1, _ :: cs => ReplaceAll.go old new k cs
  | 0, c :: cs =>
    if old.isPrefixOf (c :: cs) then new ++ ReplaceAll.go old new (old.length - 1) cs
    else c :: ReplaceAll.go old new 0 cs

/-- Go `strings.ReplaceAll(s, old, new)` for a non-empty `old`. -/
def ReplaceAll (s old new : GoString) : GoString := ReplaceAll.go old new 0 s

/-- Go `strings.HasPrefix`. -/
def HasPrefix (s pre : GoString) : Bool := pre.isPrefixOf s

/-- Go `strings.HasSuffix`. -/
def HasSuffix (s suf : GoString) : Bool := suf.isSuffixOf s

/-- Go `strings.Contains`: `substr` occurs in `s` as a contiguous block. -/
def Contains : GoString → GoString → Bool
  | [], substr => substr.isEmpty
  | c :: cs, substr => substr.isPrefixOf (c :: cs) || Contains cs substr

/-- Go `strings.Split` for a separator of one character. -/
def Split (s : GoString) (sep : Char) : List GoString := s.splitOn sep

end strings

namespace strconv

/-- The decimal digits of `n`, most significant first; `fuel` bounds their
number and `n + 1` is always enough. -/
def natDigits : Nat → Nat → GoString
  | 0, _ => []
  | fuel + 1, n =>
    if n < 10 then [Nat.digitChar n] else natDigits fuel (n / 10) ++ [Nat.digitChar (n % 10)]

/-- Go `strconv.Itoa`: the decimal text of an integer. -/
def Itoa (n : Int) : GoString :=
  if n < 0 then '-' :: natDigits (n.natAbs + 1) n.natAbs else natDigits (n.toNat + 1) n.toNat

/-- The number written by a string of decimal digits. -/
def digitsValue (s : GoString) : Nat := s.foldl (fun acc c => acc * 10 + (c.toNat - 48)) 0

/-- A non-empty string of decimal digits. -/
def isDigits (s : GoString) : Bool := !s.isEmpty && s.all fun c => decide ('0' ≤ c ∧ c ≤ '9')

/-- Go `strconv.Atoi`: an optional sign and decimal digits, within the range
of a 64-bit `int`; `none` stands for the error result. -/
def Atoi (s : GoString) : Option Int :=
  match s with
  | '-' :: ds =>
    if isDigits ds && decide (digitsValue ds ≤ 2 ^ 63) then some (-(digitsValue ds : Int)) else none
  | '+' :: ds =>
    if isDigits ds && decide (digitsValue ds < 2 ^ 63) then some (digitsValue ds : Int) else none
  | ds =>
    if isDigits ds && decide (digitsValue ds < 2 ^ 63) then some (digitsValue ds : Int) else none

end strconv

/-! ## The fingerprint model (`internal/type.go`) and the library boundary -/

namespace regexp

/-- A compiled Go regular expression, as the two methods the engine calls. -/
structure Regexp where
  MatchString : GoString → Bool
  FindStringSubmatch : GoString → List GoString

end regexp

/-- The library functions the engine relies on and this development does not
define: Unicode lower-casing and the regular-expression compiler
(`none` is a compile error). The theorems quantify over the library. -/
structure Lib where
  ToLower : GoString → GoString
  Compile : GoString → Option regexp.Regexp

/-- A library for evaluating examples: ASCII lower-casing, and a compiler
that rejects every pattern. -/
def asciiLib : Lib :=
  { ToLower := fun s => s.map Char.toLower, Compile := fun _ => none }

namespace internal

/-- The struct `Matchers`; the field `Type` is written `Type_`. -/
structure Matchers where
  Name : GoString := []
  Type_ : GoString
  Regex : List GoString := []
  Part : GoString := []
  Favicon_hash : List GoString := []
  Words : List GoString := []
  Status : List Int := []
  CaseInsensitive : Bool := false
  Negative : Bool := false
  Condition : GoString := []
  Match_all : Bool := false

/-- The struct `Extractors`; the field `Type` is written `Type_`. -/
structure Extractors where
  Name : GoString := []
  Type_ : GoString
  Regex : List GoString := []

/-- The field of the struct `Metadata` that the clusterer reads. -/
structure Metadata where
  Rarity : Int := 0

/-- The fields of the struct `Info` that the scanner and the clusterer read. -/
structure Info where
  Name : GoString := []
  Tags : GoString := []
  Metadata : Metadata := {}

/-- The struct `MatcherWeights`; a Go map read at a missing key gives 0, so
the two maps are total functions. -/
structure MatcherWeights where
  Favicon : ℚ
  Regex : GoString → ℚ
  Word : GoString → ℚ

/-- The fields of the struct `ConfidenceConfig` that the scanner reads. -/
structure ConfidenceConfig where
  MatcherWeights : MatcherWeights
  MinConfidence : ℚ
  MaxConfidence : ℚ

end internal

namespace cluster

/-- The struct `ClusteredFingerprint`. -/
structure ClusteredFingerprint where
  ID : GoString
  Info : internal.Info := {}
  Matchers : List internal.Matchers := []
  Extractors : List internal.Extractors := []

/-- The struct `ClusterExecute`. -/
structure ClusterExecute where
  Path : GoString := []
  Method : GoString := []
  Rarity : Int := 0
  Port : GoString := []
  Operators : List ClusteredFingerprint := []

end cluster

namespace strings

/-- Go `strings.TrimRight(s, "\r")`: every carriage return at the end is cut. -/
def TrimRightCR (s : GoString) : GoString := s.rdropWhile fun c => c == '\r'

end strings

/-- Go's conversion `string(n)` of an integer: the character with that code
point, U+FFFD when there is none. -/
def runeString (n : Int) : GoString :=
  if 0 ≤ n ∧ (n < 0xD800 ∨ (0xE000 ≤ n ∧ n ≤ 0x10FFFF)) then [Char.ofNat n.toNat]
  else [Char.ofNat 0xFFFD]

/-- The path placeholder of the fingerprint corpus, `{{BaseURL}}`. -/
def baseURL : GoString := "\x7b\x7bBaseURL\x7d\x7d".toList

/-- Two opening braces, the start of a placeholder. -/
def openBraces : GoString := "\x7b\x7b".toList

/-- Every `{{` of `p` starts a `{{BaseURL}}` placeholder. -/
def bracesOpenPlaceholder (p : GoString) : Bool :=
  p.tails.all fun u => !openBraces.isPrefixOf u || baseURL.isPrefixOf u

/-- The third statement of `normalizePath`: a path that does not start with
`/` gets one in front. -/
def ensureLeadingSlash (path : GoString) : GoString :=
  if !strings.HasPrefix path "/".toList then "/".toList ++ path else path

/-- The last statement of `normalizePath`: one `/` at the end of a path longer
than one character is cut off. -/
def dropTrailingSlash (path : GoString) : GoString :=
  if path.length > 1 && strings.HasSuffix path "/".toList then path.take (path.length - 1)
  else path

/-- The path ends with `/` and the character before it is white space. -/
def endsSpaceSlash (path : GoString) : Bool :=
  match path.reverse with
  | '/' :: c :: _ => unicode.IsSpace c
  | _ => false

namespace cluster

/-- The function `normalizePath` of `internal/cluster/cluster.go`. Go compares
the byte length with 1; next to `HasSuffix(path, "/")` this is the same test
as on the number of characters. -/
def normalizePath (path : GoString) : GoString :=
  let path := strings.ReplaceAll path baseURL []
  let path := strings.TrimSpace path
  let path := if !strings.HasPrefix path "/".toList then "/".toList ++ path else path
  let path :=
    if path.length > 1 && strings.HasSuffix path "/".toList then path.take (path.length - 1)
    else path
  path

end cluster

namespace cluster

/-- The struct `PortRangeSet`: an inclusive range of `uint16` ports. The
fields hold values below 65536 (`PortRange.WF`). -/
structure PortRangeSet where
  Start : Nat
  End : Nat
deriving DecidableEq

/-- The struct `PortRange`: single ports and port ranges. -/
structure PortRange where
  Single : List Nat
  Range : List PortRangeSet
deriving DecidableEq

/-- Every port of the set is a `uint16`. -/
def PortRange.WF (pr : PortRange) : Prop :=
  (∀ p ∈ pr.Single, p < 65536) ∧ ∀ r ∈ pr.Range, r.Start < 65536 ∧ r.End < 65536

/-- The method `Contains` of `PortRange`. -/
def PortRange.Contains (pr : PortRange) (port : Nat) : Bool :=
  pr.Single.any (fun p => p == port)
    || pr.Range.any (fun r => decide (port ≥ r.Start) && decide (port ≤ r.End))

/-- The loop `for p := r.Start; p <= r.End; p++` of `GetAllPorts`, whose
counter is a `uint16`: `p++` wraps around at 65536. The loop is run for at
most `fuel` tests of its condition; `none` means it has not ended by then. -/
def GetAllPorts.rangeLoop : Nat → Nat → Nat → List Nat → Option (List Nat)
  | 0, _, _, _ => none
  | fuel + 1, p, e, result =>
    if p ≤ e then GetAllPorts.rangeLoop fuel ((p + 1) % 65536) e (result ++ [p])
    else some result

/-- The body of the loop over `pr.Range` in `GetAllPorts`. The size
`r.End - r.Start + 1` is computed in `uint16` and then widened to `int`. -/
def GetAllPorts.addRange (fuel : Nat) (maxRangeSize : Int) (result : List Nat)
    (r : PortRangeSet) : Option (List Nat) :=
  let size : Int := (((r.End + 65536 - r.Start + 1) % 65536 : Nat) : Int)
  if size > maxRangeSize then
    some (result ++ (List.range maxRangeSize.toNat).map fun i => (r.Start + i % 65536) % 65536)
  else GetAllPorts.rangeLoop fuel r.Start r.End result

/-- The loop over `pr.Range` in `GetAllPorts`. -/
def GetAllPorts.ranges (fuel : Nat) (maxRangeSize : Int) :
    List PortRangeSet → List Nat → Option (List Nat)
  | [], result => some result
  | r :: rest, result =>
    match GetAllPorts.addRange fuel maxRangeSize result r with
    | none => none
    | some result => GetAllPorts.ranges fuel maxRangeSize rest result

/-- The method `GetAllPorts` of `PortRange`; each inner loop may test its
condition `fuel` times. -/
def PortRange.GetAllPorts (fuel : Nat) (pr : PortRange) (maxRangeSize : Int) :
    Option (List Nat) :=
  GetAllPorts.ranges fuel maxRangeSize pr.Range pr.Single

/-- The port set made of the one range `0-65535`. -/
def allPorts : PortRange := { Single := [], Range := [{ Start := 0, End := 65535 }] }

end cluster

namespace matcher

/-- The function `normalizePath` of `internal/matcher/matcher.go`: as in the
clusterer, without the `TrimSpace`. -/
def normalizePath (path : GoString) : GoString :=
  let path := strings.ReplaceAll path baseURL []
  let path := if !strings.HasPrefix path "/".toList then "/".toList ++ path else path
  let path :=
    if path.length > 1 && strings.HasSuffix path "/".toList then path.take (path.length - 1)
    else path
  path

/-- The struct `HTTPResponse` of `internal/matcher/matcher.go`. The header
map is a list of names with their values, in the order in which the map is
iterated. -/
structure HTTPResponse where
  URL : GoString := []
  Path : GoString := []
  StatusCode : Int := 0
  Headers : List (GoString × List GoString) := []
  Body : GoString := []
  FaviconHash : GoString := []

/-- The struct `TCPResponse` of `internal/matcher/matcher.go`. -/
structure TCPResponse where
  Host : GoString := []
  Port : GoString := []
  Response : GoString := []

/-- The header lines `name: value\n` written by `matchWords` and `matchRegex`
for the parts `header`, `all` and `response`. -/
def headerLines (headers : List (GoString × List GoString)) : GoString :=
  headers.flatMap fun h => h.2.flatMap fun value => h.1 ++ ": ".toList ++ value ++ "\n".toList

/-- The text built for the parts `all` and `response`: the status line with
`string(resp.StatusCode)`, the header lines, an empty line and the body. -/
def fullResponse (resp : HTTPResponse) : GoString :=
  "HTTP/1.1 ".toList ++ runeString resp.StatusCode ++ "\n".toList ++ headerLines resp.Headers
    ++ "\n".toList ++ resp.Body

/-- The loop of `matchWords` and `matchWordsTCP` over `matcher.Words`: `i` is
the index of the next word and `matchedWords` the number of words found so
far. -/
def matchWords.loop (matcher : internal.Matchers) (content : GoString) :
    List GoString → Nat → Nat → Bool
  | [], _, matchedWords =>
    if matchedWords > 0 && matcher.Match_all then !matcher.Negative else matcher.Negative
  | word :: rest, i, matchedWords =>
    if strings.Contains content word then
      if matcher.Condition = "or".toList && !matcher.Match_all then !matcher.Negative
      else if i = matcher.Words.length - 1 && !matcher.Match_all then !matcher.Negative
      else matchWords.loop matcher content rest (i + 1) (matchedWords + 1)
    else if matcher.Condition = "and".toList then matcher.Negative
    else matchWords.loop matcher content rest (i + 1) matchedWords

/-- The function `matchWords`. -/
def matchWords (L : Lib) (matcher : internal.Matchers) (resp : HTTPResponse) : Bool :=
  let part := L.ToLower matcher.Part
  let part := if part = [] then "body".toList else part
  let content : Option GoString :=
    if part = "body".toList then some resp.Body
    else if part = "header".toList then some (headerLines resp.Headers)
    else if part = "all".toList ∨ part = "response".toList then some (fullResponse resp)
    else
      match resp.Headers.lookup part with
      | some headerValues => some (headerValues.flatMap fun value => value ++ "\n".toList)
      | none => none
  match content with
  | none => matcher.Negative
  | some content =>
    let content := if matcher.CaseInsensitive then L.ToLower content else content
    matchWords.loop matcher content matcher.Words 0 0

/-- The loop of `matchRegex` and `matchRegexTCP` over `matcher.Regex`:
`matched` counts the patterns that compiled and matched. -/
def matchRegex.loop (L : Lib) (matcher : internal.Matchers) (content : GoString) :
    List GoString → Nat → Bool
  | [], matched =>
    if matcher.Match_all && matched == matcher.Regex.length then !matcher.Negative
    else decide (matched > 0) && !matcher.Negative
  | regexStr :: rest, matched =>
    let regexStr := if matcher.CaseInsensitive then "(?i)".toList ++ regexStr else regexStr
    match L.Compile regexStr with
    | none => matchRegex.loop L matcher content rest matched
    | some regex =>
      if regex.MatchString content then
        if matcher.Condition = "or".toList && !matcher.Match_all then !matcher.Negative
        else matchRegex.loop L matcher content rest (matched + 1)
      else if matcher.Condition = "and".toList then matcher.Negative
      else matchRegex.loop L matcher content rest matched

/-- The function `matchRegex`. -/
def matchRegex (L : Lib) (matcher : internal.Matchers) (resp : HTTPResponse) : Bool :=
  let part := L.ToLower matcher.Part
  let part := if part = [] then "body".toList else part
  let content : Option GoString :=
    if part = "body".toList then some resp.Body
    else if part = "header".toList then some (headerLines resp.Headers)
    else if part = "all".toList ∨ part = "response".toList then some (fullResponse resp)
    else none
  match content with
  | none => false
  | some content =>
    let content := if matcher.CaseInsensitive then L.ToLower content else content
    matchRegex.loop L matcher content matcher.Regex 0

/-- The function `matchStatus`. -/
def matchStatus (matcher : internal.Matchers) (resp : HTTPResponse) : Bool :=
  if matcher.Status.any (fun status => status == resp.StatusCode) then !matcher.Negative
  else matcher.Negative

/-- The function `matchFavicon`. -/
def matchFavicon (matcher : internal.Matchers) (resp : HTTPResponse) : Bool :=
  if resp.FaviconHash = [] then false
  else if matcher.Favicon_hash.any (fun hash => hash == resp.FaviconHash) then !matcher.Negative
  else matcher.Negative

/-- The function `matchWordsTCP`. -/
def matchWordsTCP (L : Lib) (matcher : internal.Matchers) (resp : TCPResponse) : Bool :=
  let content := if matcher.CaseInsensitive then L.ToLower resp.Response else resp.Response
  matchWords.loop matcher content matcher.Words 0 0

/-- The function `matchRegexTCP`. -/
def matchRegexTCP (L : Lib) (matcher : internal.Matchers) (resp : TCPResponse) : Bool :=
  let content := if matcher.CaseInsensitive then L.ToLower resp.Response else resp.Response
  matchRegex.loop L matcher content matcher.Regex 0

/-- One sub-clause block of `isMatcherHit` and `isMatcherHitTCP`, entered when
the sub-clause has needles: `.inl b` is `return b`, `.inr r` goes on to the
next block with `result = r`. -/
def isMatcherHit.block (condition : GoString) (negative hit result : Bool) : Bool ⊕ Bool :=
  if hit then
    if condition = "or".toList then .inl (!negative) else .inr true
  else if condition = "and".toList then .inl negative
  else .inr result

/-- The function `isMatcherHit`. -/
def isMatcherHit (L : Lib) (matcher : internal.Matchers) (resp : HTTPResponse) : Bool :=
  let condition := if matcher.Condition = [] then "or".toList else matcher.Condition
  let hasMatchers := matcher.Favicon_hash.length > 0 || matcher.Words.length > 0
    || matcher.Regex.length > 0 || matcher.Status.length > 0
  let blockIf (present : Bool) (hit : Unit → Bool) (result : Bool) : Bool ⊕ Bool :=
    if present then isMatcherHit.block condition matcher.Negative (hit ()) result
    else .inr result
  match blockIf (matcher.Favicon_hash.length > 0) (fun _ => matchFavicon matcher resp) false with
  | .inl b => b
  | .inr result =>
  match blockIf (matcher.Words.length > 0) (fun _ => matchWords L matcher resp) result with
  | .inl b => b
  | .inr result =>
  match blockIf (matcher.Regex.length > 0) (fun _ => matchRegex L matcher resp) result with
  | .inl b => b
  | .inr result =>
  match blockIf (matcher.Status.length > 0) (fun _ => matchStatus matcher resp) result with
  | .inl b => b
  | .inr result => if !hasMatchers then false else result != matcher.Negative

/-- The function `isMatcherHitTCP`. -/
def isMatcherHitTCP (L : Lib) (matcher : internal.Matchers) (resp : TCPResponse) : Bool :=
  let condition := if matcher.Condition = [] then "or".toList else matcher.Condition
  let hasMatchers := matcher.Words.length > 0 || matcher.Regex.length > 0
  let blockIf (present : Bool) (hit : Unit → Bool) (result : Bool) : Bool ⊕ Bool :=
    if present then isMatcherHit.block condition matcher.Negative (hit ()) result
    else .inr result
  match blockIf (matcher.Words.length > 0) (fun _ => matchWordsTCP L matcher resp) false with
  | .inl b => b
  | .inr result =>
  match blockIf (matcher.Regex.length > 0) (fun _ => matchRegexTCP L matcher resp) result with
  | .inl b => b
  | .inr result => if !hasMatchers then false else result != matcher.Negative

/-- The struct `MatchResult` of `internal/matcher/matcher.go`. The map
`Details` is kept as an association list. -/
structure MatchResult where
  ID : GoString
  Name : GoString
  Confidence : ℚ
  Details : List (GoString × GoString)
  Tags : List GoString
deriving DecidableEq

end matcher

namespace scanner

open matcher

/-- The ID of the pseudo-result that reports a reachable but unidentified
endpoint. -/
def statusID : GoString := "http-status-code".toList

/-- The search loop of `deletehttpstatuscode`: the index of the first result
whose ID is `http-status-code` (`statusIndex`), `none` when `hasstatus` stays
false. -/
def findStatusIndex : List MatchResult → Nat → Option Nat
  | [], _ => none
  | r :: rest, i => if r.ID = statusID then some i else findStatusIndex rest (i + 1)

/-- The function `deletehttpstatuscode` of `internal/scanner/core.go`: with at
least two results, the first `http-status-code` entry is cut out
(`append(results[:statusIndex], results[statusIndex+1:]...)`). -/
def deletehttpstatuscode (results : List MatchResult) : List MatchResult :=
  if results.length ≥ 2 then
    match findStatusIndex results 0 with
    | some statusIndex => results.take statusIndex ++ results.drop (statusIndex + 1)
    | none => results
  else results

/-- One iteration of the loop of `UniqueResults`: the state is the key set of
the map `seen` and the slice `unique`. -/
def UniqueResults.step (st : List GoString × List MatchResult) (result : MatchResult) :
    List GoString × List MatchResult :=
  if st.1.contains result.ID then st else (result.ID :: st.1, st.2 ++ [result])

/-- The function `UniqueResults` of `internal/scanner/core.go`. -/
def UniqueResults (results : List MatchResult) : List MatchResult :=
  (results.foldl UniqueResults.step ([], [])).2

/-- The claim's wording of `UniqueResults`: keep, in order, the elements of
`xs` that have no earlier element of `xs` with the same ID. -/
def firstOccurrences (xs : List MatchResult) : List MatchResult :=
  (xs.enum.filter fun p => (xs.take p.1).all fun y => decide (y.ID ≠ p.2.ID)).map Prod.snd

/-- The function `isValidPort` of `internal/scanner/tcp.go`. Once every
character is a digit the byte length is the number of characters. -/
def isValidPort (port : GoString) : Bool :=
  if port.any (fun ch => decide (ch < '0') || decide (ch > '9')) then false
  else if port = [] then false
  else if port.length > 5 then false
  else true

/-- The loop `for port := start; port <= end; port++` of `extractValidPorts`. -/
def extractValidPorts.portsBetween (start endPort : Int) : List GoString :=
  (List.range (endPort + 1 - start).toNat).map fun (i : Nat) => strconv.Itoa (start + (i : Int))

/-- The body of the loop of `extractValidPorts` over the comma-separated
parts: the ports that one part adds to `result`. The errors of `Atoi` are
dropped by the source; after `isValidPort` there are none. -/
def extractValidPorts.part (part : GoString) : List GoString :=
  if strings.Contains part "-".toList then
    match strings.Split part '-' with
    | [a, b] =>
      if isValidPort a && isValidPort b then
        let start := (strconv.Atoi a).getD 0
        let endPort := (strconv.Atoi b).getD 0
        let endPort := if endPort - start > 20 then start + 20 else endPort
        extractValidPorts.portsBetween start endPort
      else []
    | _ => []
  else if isValidPort part then [part]
  else []

/-- The function `extractValidPorts` of `internal/scanner/tcp.go`. -/
def extractValidPorts (portsStr : GoString) : List GoString :=
  (strings.Split portsStr ',').flatMap extractValidPorts.part

/-- One item of a port expression: an integer, or an inclusive range `a-b`. -/
inductive PortItem where
  | single (n : Nat)
  | range (a b : Nat)
deriving DecidableEq

/-- The text of an item. -/
def PortItem.text : PortItem → GoString
  | .single n => strconv.Itoa n
  | .range a b => strconv.Itoa a ++ '-' :: strconv.Itoa b

/-- The numbers of the item have at most five digits. -/
def PortItem.Short : PortItem → Prop
  | .single n => n < 100000
  | .range a b => a < 100000 ∧ b < 100000

/-- The text of a port expression: its items, separated by commas. -/
def portExprText (items : List PortItem) : GoString :=
  [','].intercalate (items.map PortItem.text)

/-- The decimal text of a port number. -/
def portText (n : Nat) : GoString := strconv.Itoa (n : Int)

/-- The ports an item stands for in `extractValidPorts`, in ascending order: a
range `a-b` is cut after `a + 20`. -/
def PortItem.listed : PortItem → List Nat
  | .single n => [n]
  | .range a b => List.range' a (min b (a + 20) + 1 - a)

/-- The function `headerContains` of `internal/scanner/http.go`. -/
def headerContains (L : Lib) (headers : List (GoString × List GoString)) (substr : GoString) :
    Bool :=
  headers.any fun h =>
    strings.Contains (L.ToLower h.1) (L.ToLower substr)
      || h.2.any fun value =>
        strings.Contains (L.ToLower h.1 ++ ": ".toList ++ L.ToLower value) (L.ToLower substr)

/-- Writing `details[key] = value` into a Go map. -/
def setDetail (details : List (GoString × GoString)) (key value : GoString) :
    List (GoString × GoString) :=
  details.filter (fun kv => kv.1 != key) ++ [(key, value)]

/-- The pattern of the page title in `probeHttpService`. -/
def titlePattern : GoString := "(?i)<title[^>]*>(.*?)</title>".toList

/-- The title block of `probeHttpService`: `details["title"]` is set when the
title pattern has a first group in the body. -/
def addTitle (L : Lib) (body : GoString) (details : List (GoString × GoString)) :
    List (GoString × GoString) :=
  match L.Compile titlePattern with
  | none => details
  | some titleRegex =>
    match titleRegex.FindStringSubmatch body with
    | _ :: title :: _ => setDetail details "title".toList (strings.TrimSpace title)
    | _ => details

/-- The loop over the lines of the response in the extractor block: the value
of the first line on which the pattern matches, group 1 if there is one. -/
def extractFromLines (regex : regexp.Regexp) : List GoString → Option GoString
  | [] => none
  | line :: rest =>
    match regex.FindStringSubmatch (strings.TrimRightCR line) with
    | [] => extractFromLines regex rest
    | [whole] => some whole
    | _ :: group :: _ => some group

/-- The extractor block of `probeHttpService`, `probeTCPService` and
`probeTCPServiceNull`: the details the extractors add for the text `content`. -/
def addExtracted (L : Lib) (content : GoString) :
    List internal.Extractors → List (GoString × GoString) → List (GoString × GoString)
  | [], details => details
  | extractor :: rest, details =>
    if extractor.Type_ = "regex".toList ∧ extractor.Regex.length > 0 then
      match L.Compile (extractor.Regex.headD []) with
      | none => addExtracted L content rest details
      | some regex =>
        match extractFromLines regex (strings.Split content '\n') with
        | some value => addExtracted L content rest (setDetail details extractor.Name value)
        | none => addExtracted L content rest details
    else if extractor.Type_ = "word".toList ∧ extractor.Regex.length > 0 then
      if strings.Contains content (extractor.Regex.headD []) then
        addExtracted L content rest (setDetail details extractor.Name (extractor.Regex.headD []))
      else addExtracted L content rest details
    else addExtracted L content rest details

/-- The test `probeHttpService` applies to one word of a word matcher: the word
occurs in the body or in the headers. -/
def probeHttpService.wordHit (L : Lib) (httpResp : HTTPResponse) (word : GoString) : Bool :=
  strings.Contains httpResp.Body word || headerContains L httpResp.Headers word

/-- The word block of `probeHttpService` for a matcher with at least one word:
the value it leaves in `matched`. -/
def probeHttpService.wordBlock (L : Lib) (matcher : internal.Matchers)
    (httpResp : HTTPResponse) : Bool :=
  if matcher.Words.length > 1 then
    if matcher.Condition = "and".toList then
      matcher.Words.all (probeHttpService.wordHit L httpResp)
    else if matcher.Condition = "or".toList ∨ matcher.Condition = [] then
      matcher.Words.any (probeHttpService.wordHit L httpResp)
    else false
  else probeHttpService.wordHit L httpResp (matcher.Words.headD [])

/-- The regex loop shared by `probeHttpService`, `probeTCPService` and
`probeTCPServiceNull`: a pattern that does not compile is skipped; before
each test the carriage returns at the end of the stored text are cut. The
result is `matched` and the stored text. -/
def probeRegexLoop (L : Lib) : List GoString → GoString → Bool × GoString
  | [], content => (false, content)
  | regexStr :: rest, content =>
    match L.Compile regexStr with
    | none => probeRegexLoop L rest content
    | some regex =>
      if regex.MatchString (strings.TrimRightCR content) then (true, strings.TrimRightCR content)
      else probeRegexLoop L rest (strings.TrimRightCR content)

/-- The body of the loop of `probeHttpService` over the matchers of one
fingerprint, entered with `matched = false`: the value of `matched` and the
response with its stored body. A matcher has one type, so at most one of the
two blocks runs. -/
def probeHttpService.matcherStep (L : Lib) (matcher : internal.Matchers)
    (httpResp : HTTPResponse) : Bool × HTTPResponse :=
  if matcher.Type_ = "word".toList ∧ matcher.Words.length > 0 then
    (probeHttpService.wordBlock L matcher httpResp, httpResp)
  else if matcher.Type_ = "regex".toList ∧ matcher.Regex.length > 0 then
    ((probeRegexLoop L matcher.Regex httpResp.Body).1,
      { httpResp with Body := (probeRegexLoop L matcher.Regex httpResp.Body).2 })
  else (false, httpResp)

/-- The loop of `probeHttpService` over the matchers of one fingerprint: it
stops at the first matcher that sets `matched`. -/
def probeHttpService.matchFingerprint (L : Lib) :
    List internal.Matchers → HTTPResponse → Bool × HTTPResponse
  | [], httpResp => (false, httpResp)
  | matcher :: rest, httpResp =>
    if (probeHttpService.matcherStep L matcher httpResp).1 then
      (true, (probeHttpService.matcherStep L matcher httpResp).2)
    else probeHttpService.matchFingerprint L rest (probeHttpService.matcherStep L matcher httpResp).2

/-- The inner loop of the confidence block of `probeHttpService` over the
words or patterns of one matcher. -/
def probeHttpService.special (L : Lib) (weights : GoString → ℚ) (confidence : ℚ) :
    List GoString → ℚ
  | [] => confidence
  | needle :: rest =>
    if strings.Contains (L.ToLower needle) "server:".toList then weights "server".toList
    else if strings.Contains (L.ToLower needle) "<title".toList
        || strings.Contains (L.ToLower needle) "title>".toList then weights "title".toList
    else probeHttpService.special L weights confidence rest

/-- The body of the loop of the confidence block of `probeHttpService` over
the matchers of the fingerprint. -/
def probeHttpService.confidenceStep (L : Lib) (cfg : internal.ConfidenceConfig)
    (confidence : ℚ) (m : internal.Matchers) : ℚ :=
  if m.Type_ = "word".toList then
    if probeHttpService.special L cfg.MatcherWeights.Word confidence m.Words = 0 then
      cfg.MatcherWeights.Word "default".toList
    else probeHttpService.special L cfg.MatcherWeights.Word confidence m.Words
  else if m.Type_ = "regex".toList then
    if probeHttpService.special L cfg.MatcherWeights.Regex confidence m.Regex = 0 then
      cfg.MatcherWeights.Regex "default".toList
    else probeHttpService.special L cfg.MatcherWeights.Regex confidence m.Regex
  else confidence

/-- The confidence block of `probeHttpService`, with its floor at
`MinConfidence`. -/
def probeHttpService.confidence (L : Lib) (cfg : internal.ConfidenceConfig)
    (matchers : List internal.Matchers) : ℚ :=
  if matchers.foldl (probeHttpService.confidenceStep L cfg) 0 < cfg.MinConfidence then
    cfg.MinConfidence
  else matchers.foldl (probeHttpService.confidenceStep L cfg) 0

/-- The result `probeHttpService` builds for a matched fingerprint. -/
def probeHttpService.ruleResult (L : Lib) (cfg : internal.ConfidenceConfig)
    (fingerprint : cluster.ClusteredFingerprint) (httpResp : HTTPResponse) : MatchResult :=
  { ID := fingerprint.ID
    Name := fingerprint.Info.Name
    Confidence := probeHttpService.confidence L cfg fingerprint.Matchers
    Details := addExtracted L httpResp.Body fingerprint.Extractors
      (addTitle L httpResp.Body
        [("url".toList, httpResp.URL),
          ("status_code".toList, strconv.Itoa httpResp.StatusCode)])
    Tags := [fingerprint.Info.Tags] }

/-- The pseudo-result `probeHttpService` builds for a response that matched
no fingerprint. -/
def probeHttpService.statusResult (L : Lib) (cfg : internal.ConfidenceConfig)
    (httpResp : HTTPResponse) : MatchResult :=
  { ID := statusID
    Name := statusID
    Confidence := cfg.MatcherWeights.Favicon
    Details := addTitle L httpResp.Body
      [("url".toList, httpResp.URL), ("status_code".toList, strconv.Itoa httpResp.StatusCode)]
    Tags := [] }

/-- The result `probeHttpService` builds for a fingerprint matched by the
favicon hash. -/
def probeHttpService.faviconResult (cfg : internal.ConfidenceConfig)
    (fingerprint : cluster.ClusteredFingerprint) (faviconHash : GoString) : MatchResult :=
  { ID := fingerprint.ID
    Name := fingerprint.Info.Name
    Confidence := cfg.MatcherWeights.Favicon
    Details := [("favicon_match".toList, "true".toList), ("favicon_hash".toList, faviconHash)]
    Tags := [fingerprint.Info.Tags] }

/-- The loop of `probeHttpService` over the fingerprints of the matching
clusters for one response: the state is the response, with its stored body,
and `allResults`. -/
def probeHttpService.operators (L : Lib) (cfg : internal.ConfidenceConfig) :
    List cluster.ClusteredFingerprint → HTTPResponse → List MatchResult →
      HTTPResponse × List MatchResult
  | [], httpResp, allResults => (httpResp, allResults)
  | fingerprint :: rest, httpResp, allResults =>
    if (probeHttpService.matchFingerprint L fingerprint.Matchers httpResp).1 then
      probeHttpService.operators L cfg rest
        (probeHttpService.matchFingerprint L fingerprint.Matchers httpResp).2
        (allResults ++ [probeHttpService.ruleResult L cfg fingerprint
          (probeHttpService.matchFingerprint L fingerprint.Matchers httpResp).2])
    else
      probeHttpService.operators L cfg rest
        (probeHttpService.matchFingerprint L fingerprint.Matchers httpResp).2 allResults

/-- The body of the loop of `probeHttpService` over the path clusters, for the
response to one request; `none` is a request that failed (`continue`). -/
def probeHttpService.path (L : Lib) (cfg : internal.ConfidenceConfig) (bpStat : Bool)
    (matchingClusters : List cluster.ClusterExecute) (allResults : List MatchResult)
    (response : Option HTTPResponse) : List MatchResult :=
  match response with
  | none => allResults
  | some httpResp =>
    let st := probeHttpService.operators L cfg
      (matchingClusters.flatMap fun c => c.Operators) httpResp allResults
    if st.2.length = 0 ∧ st.1.StatusCode ≠ 0 then
      if bpStat then st.2 else st.2 ++ [probeHttpService.statusResult L cfg st.1]
    else st.2

/-- The favicon test of `probeHttpService` on one fingerprint. -/
def probeHttpService.faviconMatched (fingerprint : cluster.ClusteredFingerprint)
    (faviconHash : GoString) : Bool :=
  fingerprint.Matchers.any fun matcher =>
    decide (matcher.Type_ = "favicon".toList) && decide (matcher.Favicon_hash.length > 0)
      && matcher.Favicon_hash.any fun hash => hash == faviconHash

/-- The function `probeHttpService` of `internal/scanner/http.go`, from the
responses on: `responses` holds, for each path cluster in turn, the response
object built from the reply, and `faviconHash` is the hash fetched before the
loop (empty when disabled or not found). -/
def probeHttpService (L : Lib) (cfg : internal.ConfidenceConfig) (bpStat enableFavicon : Bool)
    (faviconHash : GoString) (responses : List (Option HTTPResponse))
    (matchingClusters faviconClusters : List cluster.ClusterExecute) :
    Bool × List MatchResult :=
  let allResults := responses.foldl (probeHttpService.path L cfg bpStat matchingClusters) []
  let allResults :=
    if enableFavicon ∧ faviconHash ≠ [] then
      allResults ++ ((faviconClusters.flatMap fun c => c.Operators).filter fun fingerprint =>
        probeHttpService.faviconMatched fingerprint faviconHash).map fun fingerprint =>
          probeHttpService.faviconResult cfg fingerprint faviconHash
    else allResults
  if allResults.length > 0 then (true, allResults) else (false, [])

/-- The body of the loop of `probeTCPService` and `probeTCPServiceNull` over
the extractors of one fingerprint, entered with `matched = false`: the value
of `matched` and the stored banner. -/
def probeTCPService.extractorStep (L : Lib) (extractor : internal.Extractors)
    (response : GoString) : Bool × GoString :=
  if extractor.Type_ = "word".toList ∧ extractor.Regex.length > 0 then
    (strings.Contains response (extractor.Regex.headD []), response)
  else if extractor.Type_ = "regex".toList ∧ extractor.Regex.length > 0 then
    probeRegexLoop L extractor.Regex response
  else (false, response)

/-- The loop of `probeTCPService` and `probeTCPServiceNull` over the
extractors of one fingerprint. -/
def probeTCPService.matchFingerprint (L : Lib) :
    List internal.Extractors → GoString → Bool × GoString
  | [], response => (false, response)
  | extractor :: rest, response =>
    if (probeTCPService.extractorStep L extractor response).1 then
      (true, (probeTCPService.extractorStep L extractor response).2)
    else
      probeTCPService.matchFingerprint L rest (probeTCPService.extractorStep L extractor response).2

/-- The inner loop of the confidence block of the TCP probes. -/
def probeTCPService.special (L : Lib) (weights : GoString → ℚ) (confidence : ℚ) :
    List GoString → ℚ
  | [] => confidence
  | needle :: rest =>
    if strings.Contains (L.ToLower needle) "server:".toList then weights "server".toList
    else probeTCPService.special L weights confidence rest

/-- The body of the loop of the confidence block of the TCP probes over the
extractors of the fingerprint. -/
def probeTCPService.confidenceStep (L : Lib) (cfg : internal.ConfidenceConfig)
    (confidence : ℚ) (extractor : internal.Extractors) : ℚ :=
  if extractor.Type_ = "word".toList then
    if probeTCPService.special L cfg.MatcherWeights.Word confidence extractor.Regex = 0 then
      cfg.MatcherWeights.Word "default".toList
    else probeTCPService.special L cfg.MatcherWeights.Word confidence extractor.Regex
  else if extractor.Type_ = "regex".toList then
    if probeTCPService.special L cfg.MatcherWeights.Regex confidence extractor.Regex = 0 then
      cfg.MatcherWeights.Regex "default".toList
    else probeTCPService.special L cfg.MatcherWeights.Regex confidence extractor.Regex
  else confidence

/-- The confidence block of the TCP probes, with its floor at `MinConfidence`. -/
def probeTCPService.confidence (L : Lib) (cfg : internal.ConfidenceConfig)
    (extractors : List internal.Extractors) : ℚ :=
  if extractors.foldl (probeTCPService.confidenceStep L cfg) 0 < cfg.MinConfidence then
    cfg.MinConfidence
  else extractors.foldl (probeTCPService.confidenceStep L cfg) 0

/-- The result the TCP probes build for a matched fingerprint. -/
def probeTCPService.ruleResult (L : Lib) (cfg : internal.ConfidenceConfig)
    (fingerprint : cluster.ClusteredFingerprint) (tcpResp : TCPResponse) : MatchResult :=
  { ID := fingerprint.ID
    Name := fingerprint.Info.Name
    Confidence := probeTCPService.confidence L cfg fingerprint.Extractors
    Details := addExtracted L tcpResp.Response fingerprint.Extractors
      [("host".toList, tcpResp.Host), ("port".toList, tcpResp.Port)]
    Tags := [fingerprint.Info.Tags] }

/-- The loop of the TCP probes over the fingerprints of the matching clusters:
the first fingerprint that matches is returned alone. -/
def probeTCPService.operators (L : Lib) (cfg : internal.ConfidenceConfig) :
    List cluster.ClusteredFingerprint → TCPResponse → Bool × List MatchResult
  | [], _ => (false, [])
  | fingerprint :: rest, tcpResp =>
    if (probeTCPService.matchFingerprint L fingerprint.Extractors tcpResp.Response).1 then
      (true, [probeTCPService.ruleResult L cfg fingerprint
        { tcpResp with Response :=
          (probeTCPService.matchFingerprint L fingerprint.Extractors tcpResp.Response).2 }])
    else
      probeTCPService.operators L cfg rest
        { tcpResp with Response :=
          (probeTCPService.matchFingerprint L fingerprint.Extractors tcpResp.Response).2 }

/-- The function `probeTCPService` of `internal/scanner/tcp.go`, from the
banner on: `tcpResp` is the response object built from the bytes read. -/
def probeTCPService (L : Lib) (cfg : internal.ConfidenceConfig) (tcpResp : TCPResponse)
    (matchingClusters : List cluster.ClusterExecute) : Bool × List MatchResult :=
  probeTCPService.operators L cfg (matchingClusters.flatMap fun c => c.Operators) tcpResp

/-- The function `probeTCPServiceNull` of `internal/scanner/tcp.go`, from the
banner on: its matching loop is the one of `probeTCPService`. -/
def probeTCPServiceNull (L : Lib) (cfg : internal.ConfidenceConfig) (tcpResp : TCPResponse)
    (matchingClusters : List cluster.ClusterExecute) : Bool × List MatchResult :=
  probeTCPService.operators L cfg (matchingClusters.flatMap fun c => c.Operators) tcpResp

/-- A result with the given ID and name, confidence 0.9, no details, no tags. -/
def sampleResult (id : String) : MatchResult :=
  { ID := id.toList, Name := id.toList, Confidence := 9 / 10, Details := [], Tags := [] }

/-- The default weight table of `NewScanner`, with `max_confidence` lowered
to 0.5 in the weights file. -/
def cappedWeights : internal.ConfidenceConfig :=
  { MatcherWeights :=
      { Favicon := 9 / 10
        Regex := fun k =>
          if k = "default".toList then 6 / 10 else if k = "server".toList then 8 / 10
          else if k = "title".toList then 7 / 10 else 0
        Word := fun k =>
          if k = "default".toList then 4 / 10 else if k = "server".toList then 65 / 100
          else if k = "title".toList then 55 / 100 else 0 }
    MinConfidence := 1 / 10
    MaxConfidence := 1 / 2 }

/-- A reply with status 200 and the nginx welcome page, lower-cased. -/
def nginxReply : HTTPResponse :=
  { URL := "http://example.test/".toList
    Path := "/".toList
    StatusCode := 200
    Body := "<html><title>welcome to nginx!</title></html>".toList }

/-- A rule with one word matcher on the nginx page title. -/
def nginxRule : cluster.ClusteredFingerprint :=
  { ID := "nginx".toList
    Matchers := [{ Type_ := "word".toList, Words := ["<title>welcome to nginx!</title>".toList] }] }

/-- A rule with one favicon matcher. -/
def faviconRule : cluster.ClusteredFingerprint :=
  { ID := "fav".toList
    Matchers := [{ Type_ := "favicon".toList,
                   Favicon_hash := ["d41d8cd98f00b204e9800998ecf8427e".toList] }] }

/-- A matcher on the status code 200. -/
def statusMatcher : internal.Matchers := { Type_ := "status".toList, Status := [200] }

/-- An SSH rule whose only content is a word extractor. -/
def sshWithExtractor : cluster.ClusteredFingerprint :=
  { ID := "ssh".toList
    Extractors := [{ Name := "version".toList, Type_ := "word".toList, Regex := ["SSH-".toList] }] }

/-- The same SSH rule without the extractor. -/
def sshBare : cluster.ClusteredFingerprint := { ID := "ssh".toList }

/-- The banner of an OpenSSH server on port 22. -/
def sshBanner : TCPResponse :=
  { Host := "host".toList, Port := "22".toList, Response := "SSH-2.0-OpenSSH_8.9\r\n".toList }

/-- The nginx rule with a version extractor added. -/
def nginxRuleWithExtractor : cluster.ClusteredFingerprint :=
  { nginxRule with
    Extractors := [{ Name := "version".toList, Type_ := "word".toList, Regex := ["nginx".toList] }] }

/-- The function `matchHttpPortFingerprints` of `internal/scanner/http.go`,
from the replies on: the results of `matchHttpDefault` (the probe run on the
`WebDefault` clusters) followed by those of `matchHttpOther` (the probe run on
the `WebOther` clusters); each run sends its own requests. -/
def matchHttpPortFingerprints (L : Lib) (cfg : internal.ConfidenceConfig)
    (bpStat enableFavicon : Bool) (faviconHash : GoString)
    (repliesDefault repliesOther : List (Option HTTPResponse))
    (webDefault webOther webFavicon : List cluster.ClusterExecute) : List MatchResult × Bool :=
  let httpDefault :=
    probeHttpService L cfg bpStat enableFavicon faviconHash repliesDefault webDefault webFavicon
  let httpOther :=
    probeHttpService L cfg bpStat enableFavicon faviconHash repliesOther webOther webFavicon
  let results :=
    (if httpDefault.1 then httpDefault.2 else []) ++ (if httpOther.1 then httpOther.2 else [])
  if results.length > 0 then (results, true) else ([], false)

/-- A reply 403 on the root path. -/
def forbiddenReply : HTTPResponse :=
  { URL := "http://example.test/".toList
    Path := "/".toList
    StatusCode := 403
    Body := "<html>forbidden</html>".toList }

/-- A reply 200 on the login path of a blog served by nginx. -/
def loginReply : HTTPResponse :=
  { URL := "http://example.test/wp-login.php".toList
    Path := "/wp-login.php".toList
    StatusCode := 200
    Body := "<html><link href=/wp-content/a.css><hr><center>nginx</center></html>".toList }

/-- A rule of the `WebDefault` cluster: the word `nginx`. -/
def nginxWordRule : cluster.ClusteredFingerprint :=
  { ID := "nginx".toList
    Matchers := [{ Type_ := "word".toList, Words := ["<center>nginx</center>".toList] }] }

/-- A rule of a `WebOther` cluster: the word `wp-content`. -/
def wordpressRule : cluster.ClusteredFingerprint :=
  { ID := "wordpress".toList
    Matchers := [{ Type_ := "word".toList, Words := ["/wp-content/".toList] }] }

/-- Results of one HTTP scan in which two probed paths each produced first the
pseudo-result and then a real match (`matchHttpDefault` followed by
`matchHttpOther`). -/
def twoStatusResults : List MatchResult :=
  [sampleResult "http-status-code", sampleResult "nginx",
   sampleResult "http-status-code", sampleResult "wordpress"]

end scanner

namespace scanner

open matcher

/-- A matcher without needles, with every flag set. -/
def emptyMatcher : internal.Matchers :=
  { Type_ := "word".toList, CaseInsensitive := true, Negative := true,
    Condition := "and".toList, Match_all := true }

/-- Results of one HTTP scan in which no rule matched: the pseudo-result of
`matchHttpDefault` followed by the pseudo-result of `matchHttpOther`. -/
def onlyStatusResults : List MatchResult :=
  [sampleResult "http-status-code", sampleResult "http-status-code"]

end scanner

/-- Go's `sort.Slice` called with the comparison `key(i) < key(j)` on an
integer key: the result is a rearrangement of the slice in which the keys
never decrease. The order among equal keys is left to the library. -/
structure SliceSort where
  sortBy : {α : Type} → (α → Int) → List α → List α
  perm : ∀ {α : Type} (key : α → Int) (l : List α), (sortBy key l).Perm l
  sorted : ∀ {α : Type} (key : α → Int) (l : List α),
    (sortBy key l).Pairwise fun a b => key a ≤ key b

/-- A `sort.Slice` for evaluating examples: insertion sort, which is what the
Go library runs on slices of at most twelve elements. -/
def insertionSliceSort : SliceSort :=
  { sortBy := fun key l => l.insertionSort fun a b => key a ≤ key b
    perm := fun key l => List.perm_insertionSort (fun a b => key a ≤ key b) l
    sorted := fun key l =>
      @List.sorted_insertionSort _ (fun a b => key a ≤ key b) _
        ⟨fun a b => le_total (key a) (key b)⟩ ⟨fun _ _ _ h1 h2 => le_trans h1 h2⟩ l }

namespace strings

/-- Go `strings.SplitN(s, sep, 2)` for a separator of one character: the text
before the first separator and the text after it, or `s` alone when it has no
separator. -/
def SplitN2 (s : GoString) (sep : Char) : List GoString :=
  if sep ∈ s then [s.takeWhile (fun c => c != sep), (s.dropWhile (fun c => c != sep)).drop 1]
  else [s]

/-- Go `strings.Join`. -/
def Join (elems : List GoString) (sep : GoString) : GoString := sep.intercalate elems

end strings

namespace cluster

/-- The body of the inner loop of `mergePorts` over the comma-separated parts
of one port string: the state is `singlePorts` and `rangePorts`. -/
def mergePorts.partStep (st : List Int × List (Int × Int)) (p : GoString) :
    List Int × List (Int × Int) :=
  if strings.Contains (strings.TrimSpace p) "-".toList then
    match strings.SplitN2 (strings.TrimSpace p) '-' with
    | [a, b] =>
      match strconv.Atoi a, strconv.Atoi b with
      | some start, some endPort => (st.1, st.2 ++ [(start, endPort)])
      | _, _ => st
    | _ => st
  else
    match strconv.Atoi (strings.TrimSpace p) with
    | some singlePort => (st.1 ++ [singlePort], st.2)
    | none => st

/-- The collecting loop of `mergePorts`: `singlePorts` and `rangePorts` after
all port strings have been read. -/
def mergePorts.collect (ports : List GoString) : List Int × List (Int × Int) :=
  ports.foldl (fun st port => (strings.Split port ',').foldl mergePorts.partStep st) ([], [])

/-- The loop of `mergePorts` that builds `uniqueSinglePorts`: a port is kept
when it is the first one or differs from the port before it. -/
def mergePorts.uniqueLoop : Option Int → List Int → List Int
  | _, [] => []
  | prev, port :: rest =>
    if prev = some port then mergePorts.uniqueLoop (some port) rest
    else port :: mergePorts.uniqueLoop (some port) rest

/-- The slice `uniqueSinglePorts` of `mergePorts`: the single ports after
`sort.Ints` and the removal of repeated neighbours. -/
def mergePorts.singles (ports : List GoString) : List Int :=
  mergePorts.uniqueLoop none ((mergePorts.collect ports).1.insertionSort fun a b => a ≤ b)

/-- The slice `rangePorts` of `mergePorts` after `sort.Slice` by start; the
overlapping ranges are not merged (the source leaves this as a TODO). -/
def mergePorts.ranges (S : SliceSort) (ports : List GoString) : List (Int × Int) :=
  if (mergePorts.collect ports).2.length > 0 then
    S.sortBy (fun r => r.1) (mergePorts.collect ports).2
  else (mergePorts.collect ports).2

/-- The text `fmt.Sprintf("%d-%d", r.start, r.end)`. -/
def mergePorts.rangeText (r : Int × Int) : GoString :=
  strconv.Itoa r.1 ++ '-' :: strconv.Itoa r.2

/-- The function `mergePorts` of `internal/cluster/cluster.go`. -/
def mergePorts (S : SliceSort) (ports : List GoString) : GoString :=
  match ports with
  | [] => []
  | [port] => port
  | _ =>
    strings.Join ((mergePorts.singles ports).map strconv.Itoa
      ++ (mergePorts.ranges S ports).map mergePorts.rangeText) ",".toList

end cluster

namespace internal

/-- The struct `HTTPRequest`: one HTTP probe of a fingerprint. -/
structure HTTPRequest where
  Method : GoString := []
  Path : List GoString := []
  Matchers : List Matchers := []
  Extractors : List Extractors := []

/-- The fields of the struct `TCPRequest` that the clusterer and the feature
builder read: one TCP probe of a fingerprint. -/
structure TCPRequest where
  Name : GoString := []
  Port : GoString := []
  Matchers : List Matchers := []
  Extractors : List Extractors := []

/-- The struct `Fingerprint`. -/
structure Fingerprint where
  ID : GoString
  Info : Info := {}
  HTTP : List HTTPRequest := []
  TCP : List TCPRequest := []

end internal

/-- The order in which a `for ... range` loop visits the entries of a Go map:
the language leaves it open, so it is some rearrangement of the entries. -/
structure MapRange where
  order : {α : Type} → List α → List α
  perm : ∀ {α : Type} (l : List α), (order l).Perm l

/-- The iteration that visits the entries of a map in the order in which
their keys were first written. -/
def insertionMapRange : MapRange where
  order := fun l => l
  perm := fun l => List.Perm.refl l

/-- The statement `groups[key] = append(groups[key], v)` on a Go map from keys
to slices. The map is kept as the list of its keys with their slices, in the
order in which the keys were first written. -/
def appendGroup {K V : Type} [DecidableEq K] : List (K × List V) → K → V → List (K × List V)
  | [], key, v => [(key, [v])]
  | (k, vs) :: rest, key, v =>
    if k = key then (k, vs ++ [v]) :: rest else (k, vs) :: appendGroup rest key v

/-- The slice stored under `key` in a Go map from keys to slices (`nil` when
the key is absent). -/
def groupOf {K V : Type} [DecidableEq K] : List (K × List V) → K → List V
  | [], _ => []
  | (k, vs) :: rest, key => if k = key then vs else groupOf rest key

/-- A map from keys to slices filled by appending the values of `items` one by
one under their keys. -/
def buildGroups {K V : Type} [DecidableEq K] (groups : List (K × List V))
    (items : List (K × V)) : List (K × List V) :=
  items.foldl (fun g kv => appendGroup g kv.1 kv.2) groups

namespace cluster

/-- The function `hasFaviconMatcher`. -/
def hasFaviconMatcher (matchers : List internal.Matchers) : Bool :=
  matchers.any fun matcher =>
    decide (matcher.Type_ = "favicon".toList) || decide (matcher.Favicon_hash.length > 0)

/-- The function `isDefaultRootPath`. -/
def isDefaultRootPath (path : GoString) : Bool := decide (path = "/".toList)

/-- The function `isGetOrHeadMethod`. -/
def isGetOrHeadMethod (method : GoString) : Bool :=
  decide (method = "GET".toList) || decide (method = "HEAD".toList)

/-- The three maps `defaultPathGroups`, `faviconPathGroups` and
`otherPathGroups` of `createHTTPClusters`. -/
structure createHTTPClusters.Groups where
  defaultPathGroups : List (GoString × List ClusteredFingerprint) := []
  faviconPathGroups : List (GoString × List ClusteredFingerprint) := []
  otherPathGroups : List (GoString × List ClusteredFingerprint) := []

/-- The entry `clustered` that `createHTTPClusters` builds for a probe. -/
def createHTTPClusters.clustered (fp : internal.Fingerprint) (http : internal.HTTPRequest) :
    ClusteredFingerprint :=
  { ID := fp.ID, Info := fp.Info, Matchers := http.Matchers, Extractors := http.Extractors }

/-- The map key of `createHTTPClusters`: method, a colon and the normalized
path. -/
def createHTTPClusters.key (http : internal.HTTPRequest) (path : GoString) : GoString :=
  http.Method ++ ":".toList ++ normalizePath path

/-- The body of the innermost loop of `createHTTPClusters`, for one path of
one probe. -/
def createHTTPClusters.pathStep (fp : internal.Fingerprint) (http : internal.HTTPRequest)
    (g : createHTTPClusters.Groups) (path : GoString) : createHTTPClusters.Groups :=
  let g1 : createHTTPClusters.Groups :=
    if normalizePath path = "/favicon.ico".toList ∨ hasFaviconMatcher http.Matchers = true then
      { g with faviconPathGroups := (appendGroup g.faviconPathGroups
          (createHTTPClusters.key http path) (createHTTPClusters.clustered fp http)) }
    else g
  if (isDefaultRootPath (normalizePath path) && isGetOrHeadMethod http.Method) = true then
    { g1 with defaultPathGroups := (appendGroup g1.defaultPathGroups
        (createHTTPClusters.key http path) (createHTTPClusters.clustered fp http)) }
  else
    { g1 with otherPathGroups := (appendGroup g1.otherPathGroups
        (createHTTPClusters.key http path) (createHTTPClusters.clustered fp http)) }

/-- The first loop of `createHTTPClusters`, over the fingerprints, their HTTP
probes and the paths of each probe. -/
def createHTTPClusters.groups (fingerprints : List internal.Fingerprint) :
    createHTTPClusters.Groups :=
  fingerprints.foldl
    (fun g fp => fp.HTTP.foldl
      (fun g http => http.Path.foldl (createHTTPClusters.pathStep fp http) g) g) {}

/-- The loops of `createHTTPClusters` that turn a map into clusters: the key
is split at its first colon into method and path. The order of the clusters
is the iteration order of the map. -/
def createHTTPClusters.toClusters (R : MapRange)
    (groups : List (GoString × List ClusteredFingerprint)) : List ClusterExecute :=
  (R.order groups).map fun kv =>
    { Path := (strings.SplitN2 kv.1 ':').getD 1 []
      Method := (strings.SplitN2 kv.1 ':').getD 0 []
      Rarity := 0
      Operators := kv.2 }

/-- The function `createHTTPClusters`: `webDefault`, `webFavicon` and
`webOther`. -/
def createHTTPClusters (R : MapRange) (fingerprints : List internal.Fingerprint) :
    List ClusterExecute × List ClusterExecute × List ClusterExecute :=
  (createHTTPClusters.toClusters R (createHTTPClusters.groups fingerprints).defaultPathGroups,
    createHTTPClusters.toClusters R (createHTTPClusters.groups fingerprints).faviconPathGroups,
    createHTTPClusters.toClusters R (createHTTPClusters.groups fingerprints).otherPathGroups)

/-- The probe paths of a corpus in corpus order: by fingerprint, then by
probe, then by path. -/
def httpEntries (fingerprints : List internal.Fingerprint) :
    List (internal.Fingerprint × internal.HTTPRequest × GoString) :=
  fingerprints.flatMap fun fp => fp.HTTP.flatMap fun http => http.Path.map fun path =>
    (fp, http, path)

/-- The entry that `createHTTPClusters` appends for a probe path. -/
def httpEntryClustered (e : internal.Fingerprint × internal.HTTPRequest × GoString) :
    ClusteredFingerprint :=
  createHTTPClusters.clustered e.1 e.2.1

/-- The test of `createHTTPClusters` for the default bucket. -/
def httpEntryDefault (e : internal.Fingerprint × internal.HTTPRequest × GoString) : Bool :=
  isDefaultRootPath (normalizePath e.2.2) && isGetOrHeadMethod e.2.1.Method

/-- The test of `createHTTPClusters` for the favicon bucket. -/
def httpEntryFavicon (e : internal.Fingerprint × internal.HTTPRequest × GoString) : Bool :=
  decide (normalizePath e.2.2 = "/favicon.ico".toList) || hasFaviconMatcher e.2.1.Matchers

/-- A corpus of three rules: nginx on `/` by GET, a login page on
`/wp-login.php` by POST, and a favicon rule on `/favicon.ico`. -/
def sampleWebCorpus : List internal.Fingerprint :=
  [{ ID := "nginx".toList
     HTTP := [{ Method := "GET".toList, Path := ["\x7b\x7bBaseURL\x7d\x7d/".toList],
                Matchers := [{ Type_ := "word".toList, Words := ["nginx".toList] }] }] },
   { ID := "wordpress".toList
     HTTP := [{ Method := "POST".toList,
                Path := ["\x7b\x7bBaseURL\x7d\x7d/wp-login.php".toList,
                         "\x7b\x7bBaseURL\x7d\x7d/".toList],
                Matchers := [{ Type_ := "word".toList, Words := ["wordpress".toList] }] }] },
   { ID := "fav".toList
     HTTP := [{ Method := "GET".toList, Path := ["\x7b\x7bBaseURL\x7d\x7d/favicon.ico".toList],
                Matchers := [{ Type_ := "favicon".toList,
                               Favicon_hash := ["d41d8cd98f00b204e9800998ecf8427e".toList] }] }] }]

/-- A corpus of one rule on `/` whose word matcher also carries a hash list. -/
def hashOnlyCorpus : List internal.Fingerprint :=
  [{ ID := "app".toList
     HTTP := [{ Method := "GET".toList, Path := ["\x7b\x7bBaseURL\x7d\x7d/".toList],
                Matchers := [{ Type_ := "word".toList, Words := ["app".toList],
                               Favicon_hash := ["d41d8cd98f00b204e9800998ecf8427e".toList] }] }] }]

/-- A corpus of one rule whose method contains a colon. -/
def colonMethodCorpus : List internal.Fingerprint :=
  [{ ID := "odd".toList
     HTTP := [{ Method := "A:B".toList, Path := ["/x".toList] }] }]

end cluster

namespace cluster

/-- The map key under which `createHTTPClusters` files a probe path. -/
def httpEntryKey (e : internal.Fingerprint × internal.HTTPRequest × GoString) : GoString :=
  createHTTPClusters.key e.2.1 e.2.2

/-- The operators that a cluster of a bucket is expected to hold: the entries
of the probe paths of the corpus that pass the test `inBucket` of the bucket
and whose method and normalized path are the cluster's `Method` and `Path`, in
corpus order. -/
def expectedOperators (inBucket : internal.Fingerprint × internal.HTTPRequest × GoString → Bool)
    (fingerprints : List internal.Fingerprint) (c : ClusterExecute) : List ClusteredFingerprint :=
  ((httpEntries fingerprints).filter fun e =>
    inBucket e && decide (e.2.1.Method = c.Method) && decide (normalizePath e.2.2 = c.Path)).map
    httpEntryClustered

end cluster

namespace cluster

/-- The state of the first loop of `createTCPClusters`: the map
`servicePortGroups`, whose key is the struct of a service name and a port
expression, and the slice `nullNameFingerprints`. -/
structure createTCPClusters.Stage1 where
  servicePortGroups : List ((GoString × GoString) × List ClusteredFingerprint) := []
  nullNameFingerprints : List (ClusteredFingerprint × GoString) := []

/-- The entry `clustered` that `createTCPClusters` builds for a probe. -/
def createTCPClusters.clustered (fp : internal.Fingerprint) (tcp : internal.TCPRequest) :
    ClusteredFingerprint :=
  { ID := fp.ID, Info := fp.Info, Matchers := tcp.Matchers, Extractors := tcp.Extractors }

/-- The body of the first loop of `createTCPClusters`, for one TCP probe. -/
def createTCPClusters.probeStep (fp : internal.Fingerprint) (s : createTCPClusters.Stage1)
    (tcp : internal.TCPRequest) : createTCPClusters.Stage1 :=
  if tcp.Name = "null".toList then
    { s with nullNameFingerprints :=
        s.nullNameFingerprints ++ [(createTCPClusters.clustered fp tcp, tcp.Port)] }
  else
    { s with servicePortGroups :=
        (appendGroup s.servicePortGroups (fp.Info.Name, tcp.Port)
          (createTCPClusters.clustered fp tcp)) }

/-- The first loop of `createTCPClusters`. -/
def createTCPClusters.stage1 (fingerprints : List internal.Fingerprint) :
    createTCPClusters.Stage1 :=
  fingerprints.foldl (fun s fp => fp.TCP.foldl (createTCPClusters.probeStep fp) s) {}

/-- The body of the second loop of `createTCPClusters`: the group of the
service name gets the fingerprints and the port of one entry of
`servicePortGroups`. A group is the pair of its `fingerprints` and `ports`. -/
def createTCPClusters.addService :
    List (GoString × List ClusteredFingerprint × List GoString) → GoString →
      List ClusteredFingerprint → GoString →
      List (GoString × List ClusteredFingerprint × List GoString)
  | [], serviceName, fingerprints, port => [(serviceName, fingerprints, [port])]
  | (n, group) :: rest, serviceName, fingerprints, port =>
    if n = serviceName then (n, group.1 ++ fingerprints, group.2 ++ [port]) :: rest
    else (n, group) :: createTCPClusters.addService rest serviceName fingerprints port

/-- The group stored under a service name in the map `serviceGroups` (the
empty group when the name is absent). -/
def createTCPClusters.groupOfService :
    List (GoString × List ClusteredFingerprint × List GoString) → GoString →
      List ClusteredFingerprint × List GoString
  | [], _ => ([], [])
  | (n, group) :: rest, serviceName =>
    if n = serviceName then group else createTCPClusters.groupOfService rest serviceName

/-- The second loop of `createTCPClusters`, over the map `servicePortGroups`. -/
def createTCPClusters.serviceGroups (R : MapRange)
    (servicePortGroups : List ((GoString × GoString) × List ClusteredFingerprint)) :
    List (GoString × List ClusteredFingerprint × List GoString) :=
  (R.order servicePortGroups).foldl
    (fun g kv => createTCPClusters.addService g kv.1.1 kv.2 kv.1.2) []

/-- The rarity that `createTCPClusters` gives a cluster: that of the first
fingerprint, or 0 for an empty slice. -/
def createTCPClusters.rarity : List ClusteredFingerprint → Int
  | [] => 0
  | f :: _ => f.Info.Metadata.Rarity

/-- The function `createTCPClusters`: the map `TCPOtherclusters`, as the list
of its keys with their clusters, and the slice `tcpNullClusters`. -/
def createTCPClusters (R : MapRange) (S : SliceSort) (fingerprints : List internal.Fingerprint) :
    List (GoString × ClusterExecute) × List ClusterExecute :=
  let s := createTCPClusters.stage1 fingerprints
  let serviceGroups := createTCPClusters.serviceGroups R s.servicePortGroups
  let TCPOtherclusters : List (GoString × ClusterExecute) :=
    (R.order serviceGroups).map fun ng =>
      (ng.1, { Port := mergePorts S ng.2.2
               Rarity := createTCPClusters.rarity ng.2.1
               Operators := ng.2.1 })
  let nullPortGroups := buildGroups [] (s.nullNameFingerprints.map fun item => (item.2, item.1))
  let tcpNullClusters : List ClusterExecute :=
    (R.order nullPortGroups).map fun kv =>
      { Port := kv.1, Rarity := createTCPClusters.rarity kv.2, Operators := kv.2 }
  (TCPOtherclusters, tcpNullClusters)

/-- The TCP probes of a corpus in corpus order: by fingerprint, then by probe. -/
def tcpEntries (fingerprints : List internal.Fingerprint) :
    List (internal.Fingerprint × internal.TCPRequest) :=
  fingerprints.flatMap fun fp => fp.TCP.map fun tcp => (fp, tcp)

/-- The entry that `createTCPClusters` appends for a TCP probe. -/
def tcpEntryClustered (e : internal.Fingerprint × internal.TCPRequest) : ClusteredFingerprint :=
  createTCPClusters.clustered e.1 e.2

/-- The test of `createTCPClusters` for a probe named `null`. -/
def tcpEntryNull (e : internal.Fingerprint × internal.TCPRequest) : Bool :=
  decide (e.2.Name = "null".toList)

/-- A corpus of one rule: the fingerprint is called `OpenSSH` in its info block
and its TCP probe is named `ssh`, on port 22. -/
def sshCorpus : List internal.Fingerprint :=
  [{ ID := "openssh".toList
     Info := { Name := "OpenSSH".toList }
     TCP := [{ Name := "ssh".toList, Port := "22".toList }] }]

end cluster

namespace scanner

/-- The struct `ClusterInfo` of `internal/scanner/tcp.go`. -/
structure ClusterInfo where
  Name : GoString
  Cluster : cluster.ClusterExecute
  Rarity : Int

/-- The body of the loop of `matchTCPOther` over the map `TCPOther`, for one
cluster: the entries it appends to `matchingClusters`, one for each element of
`extractValidPorts(clusterExec.Port)` that equals the text of the port. -/
def matchTCPOther.clusterStep (port : Nat) (nc : GoString × cluster.ClusterExecute) :
    List ClusterInfo :=
  let portStr := strconv.Itoa (port : Int)
  if nc.2.Port ≠ [] then
    (extractValidPorts nc.2.Port).flatMap fun p =>
      if p = portStr then [{ Name := nc.1, Cluster := nc.2, Rarity := nc.2.Rarity }] else []
  else []

/-- The first loop of `matchTCPOther`: the slice `matchingClusters` before it
is sorted. -/
def matchTCPOther.collect (R : MapRange) (TCPOther : List (GoString × cluster.ClusterExecute))
    (port : Nat) : List ClusterInfo :=
  (R.order TCPOther).flatMap (matchTCPOther.clusterStep port)

/-- A service cluster on the port expression `1000-2000`. -/
def wideRangeCluster : GoString × cluster.ClusterExecute :=
  ("svc".toList, { Port := "1000-2000".toList })

/-- A service cluster on the port expression `22,20-25`, the merge of the
expressions `22` and `20-25`. -/
def overlapCluster : GoString × cluster.ClusterExecute :=
  ("ssh".toList, { Port := "22,20-25".toList })

end scanner

namespace strconv

/-- Go `strconv.ParseUint(s, 10, 16)`: decimal digits only, with a value below
65536; `none` stands for the error result. -/
def ParseUint16 (s : GoString) : Option Nat :=
  if isDigits s ∧ digitsValue s < 65536 then some (digitsValue s) else none

end strconv

namespace cluster

/-- The fields of the struct `ClusterType` that the scanner reads; the map
`TCPOther` is the list of its keys with their clusters. -/
structure ClusterType where
  WebDefault : List ClusterExecute := []
  WebFavicon : List ClusterExecute := []
  WebOther : List ClusterExecute := []
  TCPNull : List ClusterExecute := []
  TCPOther : List (GoString × ClusterExecute) := []

end cluster

namespace scanner

open matcher

/-- The fields of the struct `Config` of `internal/scanner/core.go` that the
precise matching reads. -/
structure Config where
  EnableFavicon : Bool := false
  DefaultTCPPorts : List Nat := []
  BPStat : Bool := false

/-- The struct `Scanner`, as far as the precise matching reads it, with the
library functions, the iteration order of its maps and the sorting routine it
runs on. -/
structure Scanner where
  Config : Config := {}
  WebCluster : cluster.ClusterType := {}
  ConfidenceConfig : internal.ConfidenceConfig
  lib : Lib
  mapRange : MapRange
  sliceSort : SliceSort

/-- The target of a scan as the scanner sees it: for each port, the response
objects built from the replies to the requests of the probe run on the
`WebDefault` clusters and of the run on the `WebOther` clusters, the hash of
the icon fetched (empty when none), and the response object built from the
bytes read on the connection opened for the `TCPOther` clusters and on the one
opened for the `TCPNull` clusters (`none` when the connection fails or
nothing is read). -/
structure Target where
  httpDefault : Nat → List (Option HTTPResponse)
  httpOther : Nat → List (Option HTTPResponse)
  faviconHash : Nat → GoString
  tcpOther : Nat → Option TCPResponse
  tcpNull : Nat → Option TCPResponse

namespace Scanner

/-- The method `probeHttpService` with its parameter `candidates`, on the
responses of the target: the body is the one of `scanner.probeHttpService`,
which has no statement that reads `candidates`. -/
def probeHttpService (s : Scanner) (t : Target) (port : Nat)
    (responses : List (Option HTTPResponse)) (matchingClusters : List cluster.ClusterExecute)
    (candidates : List GoString) (faviconClusters : List cluster.ClusterExecute) :
    Bool × List MatchResult :=
  let _ := candidates
  scanner.probeHttpService s.lib s.ConfidenceConfig s.Config.BPStat s.Config.EnableFavicon
    (t.faviconHash port) responses matchingClusters faviconClusters

/-- The method `matchHttpDefault`. -/
def matchHttpDefault (s : Scanner) (t : Target) (port : Nat) (candidates : List GoString) :
    List MatchResult :=
  let r := s.probeHttpService t port (t.httpDefault port) s.WebCluster.WebDefault candidates
    s.WebCluster.WebFavicon
  if r.1 then r.2 else []

/-- The method `matchHttpOther`. -/
def matchHttpOther (s : Scanner) (t : Target) (port : Nat) (candidates : List GoString) :
    List MatchResult :=
  let r := s.probeHttpService t port (t.httpOther port) s.WebCluster.WebOther candidates
    s.WebCluster.WebFavicon
  if r.1 then r.2 else []

/-- The method `matchHttpPortFingerprints`. -/
def matchHttpPortFingerprints (s : Scanner) (t : Target) (port : Nat)
    (candidates : List GoString) : List MatchResult × Bool :=
  let results := s.matchHttpDefault t port candidates ++ s.matchHttpOther t port candidates
  if results.length > 0 then (results, true) else ([], false)

/-- The ports that `preciseHTTPMatch` probes: `urlPort` is the port text of
the target URL, empty when the URL has none. -/
def preciseHTTPMatch.targetPorts (urlPort scheme : GoString) : List Nat :=
  if urlPort ≠ [] then
    match strconv.ParseUint16 urlPort with
    | some port => [port]
    | none => []
  else if scheme = "http".toList then [80]
  else if scheme = "https".toList then [443]
  else []

/-- The method `preciseHTTPMatch`. -/
def preciseHTTPMatch (s : Scanner) (t : Target) (urlPort scheme : GoString)
    (candidates : List GoString) : List MatchResult :=
  (preciseHTTPMatch.targetPorts urlPort scheme).foldl
    (fun results port =>
      let r := s.matchHttpPortFingerprints t port candidates
      if r.2 then results ++ r.1 else results) []

/-- The method `probeTCPService` with its parameter `candidates`: no result
when the connection gave nothing, and otherwise the body of
`scanner.probeTCPService`, which has no statement that reads `candidates`. -/
def probeTCPService (s : Scanner) (tcpResp : Option TCPResponse)
    (matchingClusters : List ClusterInfo) (candidates : List GoString) :
    Bool × List MatchResult :=
  let _ := candidates
  match tcpResp with
  | none => (false, [])
  | some tcpResp =>
    scanner.probeTCPService s.lib s.ConfidenceConfig tcpResp
      (matchingClusters.map fun info => info.Cluster)

/-- The method `probeTCPServiceNull` with its parameter `candidates`. -/
def probeTCPServiceNull (s : Scanner) (tcpResp : Option TCPResponse)
    (matchingClusters : List ClusterInfo) (candidates : List GoString) :
    Bool × List MatchResult :=
  let _ := candidates
  match tcpResp with
  | none => (false, [])
  | some tcpResp =>
    scanner.probeTCPServiceNull s.lib s.ConfidenceConfig tcpResp
      (matchingClusters.map fun info => info.Cluster)

/-- The method `matchTCPOther`. -/
def matchTCPOther (s : Scanner) (t : Target) (port : Nat) (candidates : List GoString) :
    List MatchResult × Bool :=
  let matchingClusters := matchTCPOther.collect s.mapRange s.WebCluster.TCPOther port
  if matchingClusters.length = 0 then ([], false)
  else
    let matchingClusters :=
      s.sliceSort.sortBy (fun (info : ClusterInfo) => info.Rarity) matchingClusters
    let r := s.probeTCPService (t.tcpOther port) matchingClusters candidates
    (r.2, r.1)

/-- The name `TCPNull-i` that `matchTCPNull` gives the cluster of index `i`. -/
def matchTCPNull.name (i : Nat) : GoString := "TCPNull-".toList ++ strconv.Itoa (i : Int)

/-- The method `matchTCPNull`. -/
def matchTCPNull (s : Scanner) (t : Target) (port : Nat) (candidates : List GoString) :
    List MatchResult × Bool :=
  let matchingClusters : List ClusterInfo :=
    s.WebCluster.TCPNull.enum.map fun ic =>
      { Name := matchTCPNull.name ic.1, Cluster := ic.2, Rarity := ic.2.Rarity }
  let matchingClusters :=
    s.sliceSort.sortBy (fun (info : ClusterInfo) => info.Rarity) matchingClusters
  let r := s.probeTCPServiceNull (t.tcpNull port) matchingClusters candidates
  (r.2, r.1)

/-- The method `matchTcpPortFingerprints`. -/
def matchTcpPortFingerprints (s : Scanner) (t : Target) (port : Nat)
    (candidates : List GoString) : List MatchResult × Bool :=
  let other := s.matchTCPOther t port candidates
  if other.2 then (other.1, true)
  else
    let null := s.matchTCPNull t port candidates
    if null.2 then (null.1, true) else ([], false)

/-- The ports that `preciseTCPMatch` probes: `urlPort` is the port text of the
target URL, empty when the URL has none. -/
def preciseTCPMatch.targetPorts (s : Scanner) (urlPort : GoString) : List Nat :=
  if urlPort ≠ [] then
    match strconv.ParseUint16 urlPort with
    | some port => [port]
    | none => []
  else if s.Config.DefaultTCPPorts.length > 0 then s.Config.DefaultTCPPorts
  else [21, 22, 25, 80, 443, 1521, 3306, 5432, 6379, 8080, 8443, 9200, 27017]

/-- The method `preciseTCPMatch`. -/
def preciseTCPMatch (s : Scanner) (t : Target) (urlPort : GoString)
    (candidates : List GoString) : List MatchResult :=
  let results := (preciseTCPMatch.targetPorts s urlPort).foldl
    (fun results port =>
      let r := s.matchTcpPortFingerprints t port candidates
      if r.2 then results ++ r.1 else results) []
  if results.length > 0 then UniqueResults results else results

end Scanner

/-- A scanner with the rule `nginx` in its `WebDefault` cluster and the rule
`openssh` in the `TCPOther` cluster of port 22. -/
def sampleScanner : Scanner :=
  { WebCluster :=
      { WebDefault := [{ Path := "/".toList, Method := "GET".toList, Operators := [nginxRule] }]
        TCPOther := [("OpenSSH".toList, { Port := "22".toList, Operators := [sshWithExtractor] })] }
    ConfidenceConfig := cappedWeights
    lib := asciiLib
    mapRange := insertionMapRange
    sliceSort := insertionSliceSort }

/-- A target that answers the nginx welcome page on port 80 and the OpenSSH
banner on port 22. -/
def sampleTarget : Target :=
  { httpDefault := fun port => if port = 80 then [some nginxReply] else []
    httpOther := fun _ => []
    faviconHash := fun _ => []
    tcpOther := fun port => if port = 22 then some sshBanner else none
    tcpNull := fun _ => none }

end scanner

namespace cmd

/-- The function `appendUnique` of `cmd/feature_builder.go`. -/
def appendUnique (slice : List GoString) (item : GoString) : List GoString :=
  if item ∈ slice then slice else slice ++ [item]

/-- The statement `featureMap[key] = appendUnique(featureMap[key], id)`; the
map is the list of its keys with their ID lists, in the order in which the
keys were first written. -/
def addFeature : List (GoString × List GoString) → GoString → GoString →
    List (GoString × List GoString)
  | [], key, id => [(key, appendUnique [] id)]
  | (k, ids) :: rest, key, id =>
    if k = key then (k, appendUnique ids id) :: rest else (k, ids) :: addFeature rest key id

/-- The loop body of `buildFeatureFingerprintMap` for one path of an HTTP
probe: the keys it writes. -/
def buildFeatureFingerprintMap.pathKeys (L : Lib) (path : GoString) : List GoString :=
  let normalizedPath := L.ToLower (strings.TrimSpace path)
  let normalizedPath :=
    if normalizedPath = "\x7b\x7bbaseurl\x7d\x7d/".toList then "/".toList else normalizedPath
  if normalizedPath ≠ [] ∧ strings.HasPrefix normalizedPath "\x7b\x7b".toList = false then
    ["path:".toList ++ normalizedPath]
  else []

/-- The loop body of `buildFeatureFingerprintMap` for one word of a `word`
matcher of an HTTP probe. -/
def buildFeatureFingerprintMap.webWordKeys (L : Lib) (part word : GoString) : List GoString :=
  let normalizedWord := L.ToLower (strings.TrimSpace word)
  if normalizedWord ≠ [] then
    if part = "header".toList ∧
        (strings.Contains normalizedWord "server:".toList
          || strings.Contains normalizedWord "x-powered-by:".toList
          || strings.Contains normalizedWord "set-cookie:".toList) = true then
      ["header_word:".toList ++ part ++ ":".toList ++ normalizedWord]
    else if part = "body".toList ∧
        (strings.Contains normalizedWord "<title".toList
          || strings.Contains normalizedWord "<h1".toList
          || strings.Contains normalizedWord "welcome".toList
          || strings.Contains normalizedWord "test page".toList) = true then
      ["body_word:".toList ++ normalizedWord]
    else if part = "all".toList then ["word_all:".toList ++ normalizedWord]
    else []
  else []

/-- The loop body of `buildFeatureFingerprintMap` for one pattern of a `regex`
matcher of an HTTP probe. -/
def buildFeatureFingerprintMap.webRegexKeys (L : Lib) (part regex : GoString) : List GoString :=
  let normalizedRegex := L.ToLower (strings.TrimSpace regex)
  if normalizedRegex ≠ [] then
    if part = "header".toList ∧
        (strings.Contains normalizedRegex "server:".toList
          || strings.Contains normalizedRegex "x-powered-by:".toList
          || strings.Contains normalizedRegex "set-cookie:".toList) = true then
      ["header_regex:".toList ++ part ++ ":".toList ++ normalizedRegex]
    else if part = "body".toList ∧
        (strings.Contains normalizedRegex "<title".toList
          || strings.Contains normalizedRegex "<h1".toList) = true then
      ["body_regex:".toList ++ normalizedRegex]
    else if part = "all".toList then ["regex_all:".toList ++ normalizedRegex]
    else []
  else []

/-- The loop body of `buildFeatureFingerprintMap` for one matcher of an HTTP
probe: the `switch` on the matcher type. -/
def buildFeatureFingerprintMap.webMatcherKeys (L : Lib) (matcher : internal.Matchers) :
    List GoString :=
  let part := L.ToLower (strings.TrimSpace matcher.Part)
  let matcherType := L.ToLower (strings.TrimSpace matcher.Type_)
  if matcherType = "status".toList then
    if part = "status".toList ∨ part = "all".toList ∨ part = [] then
      matcher.Status.map fun status => "status:".toList ++ strconv.Itoa status
    else []
  else if matcherType = "word".toList then
    if part = "header".toList ∨ part = "body".toList ∨ part = "all".toList ∨ part = [] then
      matcher.Words.flatMap (buildFeatureFingerprintMap.webWordKeys L part)
    else []
  else if matcherType = "regex".toList then
    if part = "header".toList ∨ part = "body".toList ∨ part = "all".toList ∨ part = [] then
      matcher.Regex.flatMap (buildFeatureFingerprintMap.webRegexKeys L part)
    else []
  else if matcherType = "favicon".toList then
    if part = "favicon".toList ∨ part = "all".toList ∨ part = [] then
      matcher.Favicon_hash.flatMap fun hash =>
        let normalizedHash := L.ToLower (strings.TrimSpace hash)
        if normalizedHash ≠ [] then ["favicon:".toList ++ normalizedHash] else []
    else []
  else []

/-- The loop body of `buildFeatureFingerprintMap` for one HTTP probe. -/
def buildFeatureFingerprintMap.httpKeys (L : Lib) (req : internal.HTTPRequest) : List GoString :=
  req.Path.flatMap (buildFeatureFingerprintMap.pathKeys L)
    ++ req.Matchers.flatMap (buildFeatureFingerprintMap.webMatcherKeys L)

/-- The loop body of `buildFeatureFingerprintMap` for one word of a `word`
matcher of a TCP probe. -/
def buildFeatureFingerprintMap.bannerWordKeys (L : Lib) (port word : GoString) : List GoString :=
  let normalizedWord := L.ToLower (strings.TrimSpace word)
  if normalizedWord ≠ [] then
    if (strings.Contains normalizedWord "openssh".toList
        || strings.Contains normalizedWord "vsftpd".toList
        || strings.Contains normalizedWord "ftp".toList
        || strings.Contains normalizedWord "ssh".toList
        || strings.Contains normalizedWord "server".toList
        || strings.Contains normalizedWord "protocol".toList) = true then
      ["service_banner_word:".toList ++ port ++ ":".toList ++ normalizedWord]
    else []
  else []

/-- The loop body of `buildFeatureFingerprintMap` for one pattern of a `regex`
matcher of a TCP probe. -/
def buildFeatureFingerprintMap.bannerRegexKeys (L : Lib) (port regex : GoString) :
    List GoString :=
  let normalizedRegex := L.ToLower (strings.TrimSpace regex)
  if normalizedRegex ≠ [] then
    if (strings.Contains normalizedRegex "version".toList
        || strings.Contains normalizedRegex "protocol".toList
        || strings.Contains normalizedRegex "service".toList) = true then
      ["service_banner_regex:".toList ++ port ++ ":".toList ++ normalizedRegex]
    else []
  else []

/-- The loop body of `buildFeatureFingerprintMap` for one matcher of a TCP
probe. -/
def buildFeatureFingerprintMap.serviceMatcherKeys (L : Lib) (port : GoString)
    (matcher : internal.Matchers) : List GoString :=
  let part := L.ToLower (strings.TrimSpace matcher.Part)
  let matcherType := L.ToLower (strings.TrimSpace matcher.Type_)
  let part := if part = [] then "response".toList else part
  if matcherType = "word".toList then
    if part = "response".toList ∨ part = "all".toList then
      matcher.Words.flatMap (buildFeatureFingerprintMap.bannerWordKeys L port)
    else []
  else if matcherType = "regex".toList then
    if part = "response".toList ∨ part = "all".toList then
      matcher.Regex.flatMap (buildFeatureFingerprintMap.bannerRegexKeys L port)
    else []
  else []

/-- The loop body of `buildFeatureFingerprintMap` for one extractor of a TCP
probe: the pattern goes into the key as it is written in the rule. -/
def buildFeatureFingerprintMap.extractorKeys (L : Lib) (port : GoString)
    (extractor : internal.Extractors) : List GoString :=
  let extractorType := L.ToLower (strings.TrimSpace extractor.Type_)
  if extractorType = "regex".toList then
    extractor.Regex.flatMap fun regex =>
      if regex ≠ [] then ["service_extractor_regex:".toList ++ port ++ ":".toList ++ regex]
      else []
  else []

/-- The loop body of `buildFeatureFingerprintMap` for one TCP probe. -/
def buildFeatureFingerprintMap.tcpKeys (L : Lib) (req : internal.TCPRequest) : List GoString :=
  let port := strings.TrimSpace req.Port
  (if port ≠ [] then ["port:".toList ++ port] else [])
    ++ req.Matchers.flatMap (buildFeatureFingerprintMap.serviceMatcherKeys L port)
    ++ req.Extractors.flatMap (buildFeatureFingerprintMap.extractorKeys L port)

/-- The writes of `buildFeatureFingerprintMap` to `featureMap`, in program
order: each is a key with the ID of the fingerprint at hand. -/
def buildFeatureFingerprintMap.writes (L : Lib)
    (webFingerprints serviceFingerprints : List internal.Fingerprint) :
    List (GoString × GoString) :=
  (webFingerprints.flatMap fun fp =>
      (fp.HTTP.flatMap (buildFeatureFingerprintMap.httpKeys L)).map fun key => (key, fp.ID))
    ++ serviceFingerprints.flatMap fun fp =>
      if fp.TCP.length = 0 then []
      else (fp.TCP.flatMap (buildFeatureFingerprintMap.tcpKeys L)).map fun key => (key, fp.ID)

/-- The function `buildFeatureFingerprintMap` of `cmd/feature_builder.go`
(`pre_generate.go` holds a copy): the map after all its writes. -/
def buildFeatureFingerprintMap (L : Lib)
    (webFingerprints serviceFingerprints : List internal.Fingerprint) :
    List (GoString × List GoString) :=
  (buildFeatureFingerprintMap.writes L webFingerprints serviceFingerprints).foldl
    (fun featureMap kv => addFeature featureMap kv.1 kv.2) []

/-- The payload of a key: the text after the tag and its colon. -/
def keyPayload (key : GoString) : GoString := (strings.SplitN2 key ':').getD 1 []

/-- The shapes of the keys of the feature map. A rule text (path, word,
pattern, hash) enters a key lower-cased and trimmed; a status code as a
decimal number; a port expression trimmed only; nothing is said of the
pattern of a key of a regex extractor. -/
inductive FeatureKeyShape (L : Lib) : GoString → Prop
  | rootPath : FeatureKeyShape L "path:/".toList
  | path (x : GoString) : FeatureKeyShape L ("path:".toList ++ L.ToLower (strings.TrimSpace x))
  | status (n : Int) : FeatureKeyShape L ("status:".toList ++ strconv.Itoa n)
  | headerWord (x : GoString) :
    FeatureKeyShape L ("header_word:header:".toList ++ L.ToLower (strings.TrimSpace x))
  | bodyWord (x : GoString) :
    FeatureKeyShape L ("body_word:".toList ++ L.ToLower (strings.TrimSpace x))
  | wordAll (x : GoString) :
    FeatureKeyShape L ("word_all:".toList ++ L.ToLower (strings.TrimSpace x))
  | headerRegex (x : GoString) :
    FeatureKeyShape L ("header_regex:header:".toList ++ L.ToLower (strings.TrimSpace x))
  | bodyRegex (x : GoString) :
    FeatureKeyShape L ("body_regex:".toList ++ L.ToLower (strings.TrimSpace x))
  | regexAll (x : GoString) :
    FeatureKeyShape L ("regex_all:".toList ++ L.ToLower (strings.TrimSpace x))
  | favicon (x : GoString) :
    FeatureKeyShape L ("favicon:".toList ++ L.ToLower (strings.TrimSpace x))
  | port (p : GoString) : FeatureKeyShape L ("port:".toList ++ strings.TrimSpace p)
  | bannerWord (p x : GoString) :
    FeatureKeyShape L ("service_banner_word:".toList ++ strings.TrimSpace p ++ ":".toList
      ++ L.ToLower (strings.TrimSpace x))
  | bannerRegex (p x : GoString) :
    FeatureKeyShape L ("service_banner_regex:".toList ++ strings.TrimSpace p ++ ":".toList
      ++ L.ToLower (strings.TrimSpace x))
  | extractorRegex (p r : GoString) :
    FeatureKeyShape L ("service_extractor_regex:".toList ++ strings.TrimSpace p ++ ":".toList ++ r)

/-- A service corpus of one rule on port 22 with a regex extractor for the
version of OpenSSH. -/
def extractorCorpus : List internal.Fingerprint :=
  [{ ID := "openssh".toList
     TCP := [{ Name := "ssh".toList, Port := "22".toList
               Extractors := [{ Name := "version".toList, Type_ := "regex".toList,
                                Regex := ["OpenSSH_([0-9.]+)".toList] }] }] }]

/-- A service corpus of one rule whose port expression is written in
capitals. -/
def namedPortCorpus : List internal.Fingerprint :=
  [{ ID := "svc".toList, TCP := [{ Name := "svc".toList, Port := " SSH ".toList }] }]

/-- A web corpus of one rule with a path, a status matcher and a title word
in capitals between blanks. -/
def titleCorpus : List internal.Fingerprint :=
  [{ ID := "nginx".toList
     HTTP := [{ Method := "GET".toList, Path := ["\x7b\x7bBaseURL\x7d\x7d/".toList],
                Matchers := [{ Type_ := "status".toList, Status := [200] },
                             { Type_ := "word".toList, Part := "body".toList,
                               Words := ["  <TITLE>Welcome to nginx!  ".toList] }] }] }]

end cmd

namespace matcher

/-- A word matcher on the word `nginx`, with the default part, condition and
flags. -/
def nginxWord : internal.Matchers := { Type_ := "word".toList, Words := ["nginx".toList] }

/-- A word matcher on a word that the nginx page does not hold. -/
def apacheWord : internal.Matchers := { Type_ := "word".toList, Words := ["apache".toList] }

/-- A word matcher on the word `SSH-`, for a banner. -/
def sshWord : internal.Matchers := { Type_ := "word".toList, Words := ["SSH-".toList] }

/-- A word matcher on two words, of which the nginx page holds the first
only. -/
def twoWords : internal.Matchers :=
  { Type_ := "word".toList, Words := ["nginx".toList, "apache".toList] }

/-- A word matcher on two words, of which an OpenSSH banner holds the first
only. -/
def twoBannerWords : internal.Matchers :=
  { Type_ := "word".toList, Words := ["SSH-".toList, "dropbear".toList] }

/-- The nginx welcome page, answered with status 200. -/
def welcomePage : HTTPResponse :=
  { StatusCode := 200, Body := "<html><title>welcome to nginx!</title></html>".toList }

/-- The banner of an OpenSSH server. -/
def opensshBanner : TCPResponse := { Response := "SSH-2.0-OpenSSH_8.9\r\n".toList }

/-- A reply with status 200, no header and an empty body. -/
def bareReply : HTTPResponse := { StatusCode := 200 }

/-- A word matcher with part `all` on the decimal text of a status code. -/
def statusTextWord (n : Int) : internal.Matchers :=
  { Type_ := "word".toList, Part := "all".toList, Words := [strconv.Itoa n] }

/-- A reply by nginx: the header map of Go's HTTP client holds the name
`Server` in its canonical spelling. -/
def serverReply : HTTPResponse :=
  { StatusCode := 200, Headers := [("Server".toList, ["nginx/1.18.0".toList])] }

/-- A word matcher whose part is the header name `Server`. -/
def serverHeaderWord : internal.Matchers :=
  { Type_ := "word".toList, Part := "Server".toList, Words := ["nginx".toList] }

/-- A matcher with the word `nginx` and the status code 404 under the condition
`and`. -/
def wordAndStatus : internal.Matchers :=
  { Type_ := "word".toList, Words := ["nginx".toList], Status := [404],
    Condition := "and".toList }

end matcher

namespace cluster

/-- The port set made of the one range `65535-65535`, the top port alone. -/
def topPort : PortRange := { Single := [], Range := [{ Start := 65535, End := 65535 }] }

end cluster

namespace internal

/-- The loop of `CalculateMatcherConfidence` over the patterns of a `regex`
matcher: the first pattern that holds `server:` or `title` sets the
confidence and ends the loop. -/
def CalculateMatcherConfidence.regexLoop (L : Lib) (weights : GoString → ℚ) (confidence : ℚ) :
    List GoString → ℚ
  | [] => confidence
  | regex :: rest =>
    if strings.Contains (L.ToLower regex) "server:".toList then weights "server".toList
    else if strings.Contains (L.ToLower regex) "title".toList then weights "title".toList
    else CalculateMatcherConfidence.regexLoop L weights confidence rest

/-- The loop of `CalculateMatcherConfidence` over the words of a `word`
matcher. -/
def CalculateMatcherConfidence.wordLoop (L : Lib) (weights : GoString → ℚ) (confidence : ℚ) :
    List GoString → ℚ
  | [] => confidence
  | word :: rest =>
    if strings.Contains (L.ToLower word) "server:".toList then weights "server".toList
    else if strings.Contains (L.ToLower word) "title".toList
        || strings.Contains (L.ToLower word) "<title".toList then weights "title".toList
    else CalculateMatcherConfidence.wordLoop L weights confidence rest

/-- The function `CalculateMatcherConfidence` of `internal/type.go`; its
parameters `content` and `headers` are not read. -/
def CalculateMatcherConfidence (L : Lib) (matcher : Matchers) (content : GoString)
    (headers : List (GoString × List GoString)) (config : ConfidenceConfig) : ℚ :=
  let _ := content
  let _ := headers
  let confidence : ℚ :=
    if L.ToLower matcher.Type_ = "favicon".toList then config.MatcherWeights.Favicon
    else if L.ToLower matcher.Type_ = "regex".toList then
      CalculateMatcherConfidence.regexLoop L config.MatcherWeights.Regex
        (config.MatcherWeights.Regex "default".toList) matcher.Regex
    else if L.ToLower matcher.Type_ = "word".toList then
      CalculateMatcherConfidence.wordLoop L config.MatcherWeights.Word
        (config.MatcherWeights.Word "default".toList) matcher.Words
    else config.MinConfidence
  if confidence < config.MinConfidence then config.MinConfidence
  else if confidence > config.MaxConfidence then config.MaxConfidence
  else confidence

/-- The weight that the first marked pattern of a list selects: of the first
pattern, in list order, whose lower-cased text holds `server:` or a title
marker, the weight `server` if it holds `server:` and the weight `title`
otherwise; the weight `default` when no pattern holds a marker. -/
def firstMarkedWeight (L : Lib) (titleMarker : GoString → Bool) (weights : GoString → ℚ)
    (patterns : List GoString) : ℚ :=
  match patterns.find? fun p =>
      strings.Contains (L.ToLower p) "server:".toList || titleMarker (L.ToLower p) with
  | none => weights "default".toList
  | some p =>
    if strings.Contains (L.ToLower p) "server:".toList then weights "server".toList
    else weights "title".toList

/-- The title marker of `CalculateMatcherConfidence` for patterns: the text
`title`. -/
def titleAnywhere (p : GoString) : Bool := strings.Contains p "title".toList

/-- The title marker of the scanner: the text `<title` or `title>`. -/
def titleTag (p : GoString) : Bool :=
  strings.Contains p "<title".toList || strings.Contains p "title>".toList

/-- The weights `server`, `title` and `default` of the table for patterns lie
between `min_confidence` and `max_confidence`. -/
def regexWeightsInRange (config : ConfidenceConfig) : Prop :=
  ∀ k ∈ ["server".toList, "title".toList, "default".toList],
    config.MinConfidence ≤ config.MatcherWeights.Regex k
      ∧ config.MatcherWeights.Regex k ≤ config.MaxConfidence

/-- The default weight table of `NewScanner`: favicon 0.9, patterns 0.8
(server), 0.7 (title), 0.6 (default), words 0.65, 0.55, 0.4, between the
confidences 0.1 and 1. -/
def standardWeights : ConfidenceConfig :=
  { MatcherWeights :=
      { Favicon := 9 / 10
        Regex := fun k =>
          if k = "default".toList then 6 / 10 else if k = "server".toList then 8 / 10
          else if k = "title".toList then 7 / 10 else 0
        Word := fun k =>
          if k = "default".toList then 4 / 10 else if k = "server".toList then 65 / 100
          else if k = "title".toList then 55 / 100 else 0 }
    MinConfidence := 1 / 10
    MaxConfidence := 1 }

/-- A regex matcher whose first pattern holds a title tag and whose second
pattern holds `server:`. -/
def titleThenServer : Matchers :=
  { Type_ := "regex".toList
    Regex := ["<title>nginx</title>".toList, "server: nginx".toList] }

/-- The same matcher with its patterns in the other order. -/
def serverThenTitle : Matchers :=
  { Type_ := "regex".toList
    Regex := ["server: nginx".toList, "<title>nginx</title>".toList] }

/-- A regex matcher whose pattern holds the text `title` and no title tag. -/
def subtitlePattern : Matchers :=
  { Type_ := "regex".toList, Regex := ["class=.subtitle.".toList] }

end internal

namespace scanner

/-- The item stands for the port `p`: a single port for itself, a range `a-b`
for the ports from `a` to `b`. -/
def PortItem.holds : PortItem → Nat → Bool
  | .single n, p => decide (p = n)
  | .range a b, p => decide (a ≤ p) && decide (p ≤ b)

/-- The numbers of the item are within the range of a Go `int`. -/
def PortItem.FitsInt : PortItem → Prop
  | .single n => n < 2 ^ 63
  | .range a b => a < 2 ^ 63 ∧ b < 2 ^ 63

end scanner

namespace cluster

open scanner

/-- The reading of one item of a port expression: decimal digits are a single
port, two runs of decimal digits around a hyphen are an inclusive range, and
anything else is no item. -/
def parsePortItem (part : GoString) : Option PortItem :=
  if '-' ∈ part then
    if strconv.isDigits (part.takeWhile fun c => c != '-')
        && strconv.isDigits ((part.dropWhile fun c => c != '-').drop 1) then
      some (.range (strconv.digitsValue (part.takeWhile fun c => c != '-'))
        (strconv.digitsValue ((part.dropWhile fun c => c != '-').drop 1)))
    else none
  else if strconv.isDigits part then some (.single (strconv.digitsValue part))
  else none

/-- The reading of a port expression: its comma-separated items. -/
def parsePortExpr (expr : GoString) : List PortItem :=
  (expr.splitOn ',').filterMap parsePortItem

/-- The port expression denotes the port `p`. -/
def denotes (expr : GoString) (p : Nat) : Bool :=
  (parsePortExpr expr).any fun item => item.holds p

end cluster

namespace cluster

open scanner

/-- The single ports written in a port expression, in its order. -/
def itemSingles : List PortItem → List Int
  | [] => []
  | .single n :: rest => (n : Int) :: itemSingles rest
  | .range _ _ :: rest => itemSingles rest

/-- The ranges written in a port expression, in its order. -/
def itemRanges : List PortItem → List (Int × Int)
  | [] => []
  | .single _ :: rest => itemRanges rest
  | .range a b :: rest => ((a : Int), (b : Int)) :: itemRanges rest

end cluster

namespace detector

/-- An element of the slice `fpList` of `GetTopFingerprints`: a fingerprint ID
with its count. -/
structure GetTopFingerprints.Entry where
  ID : GoString
  Count : Int
deriving DecidableEq

/-- The first loop of `GetTopFingerprints`: the entries of the map `counts`
whose count reaches the threshold, in the order in which the map is
iterated. -/
def GetTopFingerprints.collect (R : MapRange) (counts : List (GoString × Int))
    (threshold : Int) : List GetTopFingerprints.Entry :=
  ((R.order counts).filter fun kv => decide (kv.2 ≥ threshold)).map fun kv =>
    { ID := kv.1, Count := kv.2 }

/-- The body of the inner loop of the bubble sort: `fpList[j]` and
`fpList[j+1]` are exchanged when the count of the first is smaller. -/
def GetTopFingerprints.swapStep (fpList : List GetTopFingerprints.Entry) (j : Nat) :
    List GetTopFingerprints.Entry :=
  match fpList[j]?, fpList[j + 1]? with
  | some a, some b => if a.Count < b.Count then (fpList.set j b).set (j + 1) a else fpList
  | _, _ => fpList

/-- The inner loop `for j := 0; j < len(fpList)-i-1; j++` of the bubble
sort. -/
def GetTopFingerprints.innerLoop (fpList : List GetTopFingerprints.Entry) (i : Nat) :
    List GetTopFingerprints.Entry :=
  (List.range (fpList.length - i - 1)).foldl GetTopFingerprints.swapStep fpList

/-- The outer loop `for i := 0; i < len(fpList)-1; i++` of the bubble sort. -/
def GetTopFingerprints.sortLoop (fpList : List GetTopFingerprints.Entry) :
    List GetTopFingerprints.Entry :=
  (List.range (fpList.length - 1)).foldl GetTopFingerprints.innerLoop fpList

/-- The slice `fpList` of `GetTopFingerprints` after the sort and the cut at
`limit`. -/
def GetTopFingerprints.fpList (R : MapRange) (counts : List (GoString × Int))
    (limit threshold : Int) : List GetTopFingerprints.Entry :=
  let fpList := GetTopFingerprints.sortLoop (GetTopFingerprints.collect R counts threshold)
  if limit > 0 ∧ (fpList.length : Int) > limit then fpList.take limit.toNat else fpList

/-- The method `GetTopFingerprints` of `internal/detector/feature_detector.go`;
the map `counts` is the list of its keys with their counts. -/
def GetTopFingerprints (R : MapRange) (counts : List (GoString × Int)) (limit threshold : Int) :
    List GoString :=
  (GetTopFingerprints.fpList R counts limit threshold).map fun item => item.ID

end detector

/-! ## Theorems -/

namespace scanner

open matcher

theorem uniqueStep_of_mem (st : List GoString × List MatchResult) (r : MatchResult)
    (h : r.ID ∈ st.1) : UniqueResults.step st r = st := by
  simp [UniqueResults.step, h]

theorem uniqueStep_of_not_mem (st : List GoString × List MatchResult) (r : MatchResult)
    (h : r.ID ∉ st.1) : UniqueResults.step st r = (r.ID :: st.1, st.2 ++ [r]) := by
  simp [UniqueResults.step, h]

theorem uniqueStep_foldl_fixed (ys : List MatchResult) (st : List GoString × List MatchResult)
    (h : ∀ y ∈ ys, y.ID ∈ st.1) : ys.foldl UniqueResults.step st = st := by
  induction ys with
  | nil => rfl
  | cons y ys ih =>
    rw [List.foldl_cons, uniqueStep_of_mem st y (h y (List.mem_cons_self _ _))]
    exact ih fun z hz => h z (List.mem_cons_of_mem _ hz)

theorem uniqueStep_seen (xs : List MatchResult) (st : List GoString × List MatchResult)
    (id : GoString) :
    id ∈ (xs.foldl UniqueResults.step st).1 ↔ id ∈ st.1 ∨ id ∈ xs.map (·.ID) := by
  induction xs generalizing st with
  | nil => simp
  | cons x xs ih =>
    rw [List.foldl_cons, ih]
    by_cases hx : x.ID ∈ st.1
    · rw [uniqueStep_of_mem st x hx]
      simp only [List.map_cons, List.mem_cons]
      constructor
      · rintro (h | h)
        · exact Or.inl h
        · exact Or.inr (Or.inr h)
      · rintro (h | h | h)
        · exact Or.inl h
        · exact Or.inl (h ▸ hx)
        · exact Or.inr h
    · rw [uniqueStep_of_not_mem st x hx]
      simp only [List.map_cons, List.mem_cons]
      tauto

theorem uniqueResults_snoc (xs : List MatchResult) (x : MatchResult) :
    UniqueResults (xs ++ [x])
      = UniqueResults xs ++ (if x.ID ∈ xs.map (·.ID) then [] else [x]) := by
  unfold UniqueResults
  rw [List.foldl_append, List.foldl_cons, List.foldl_nil]
  have hseen := uniqueStep_seen xs ([], []) x.ID
  by_cases hx : x.ID ∈ xs.map (·.ID)
  · rw [uniqueStep_of_mem _ x (hseen.2 (Or.inr hx)), if_pos hx, List.append_nil]
  · have h1 : x.ID ∉ (xs.foldl UniqueResults.step ([], [])).1 := by
      intro hc
      rcases hseen.1 hc with h | h
      · simp at h
      · exact hx h
    rw [uniqueStep_of_not_mem _ x h1, if_neg hx]

/-- C2: `UniqueResults (xs ++ xs) = UniqueResults xs` for every result list. -/
theorem uniqueResults_append_self (xs : List MatchResult) :
    UniqueResults (xs ++ xs) = UniqueResults xs := by
  unfold UniqueResults
  rw [List.foldl_append]
  rw [uniqueStep_foldl_fixed xs]
  intro y hy
  exact (uniqueStep_seen xs ([], []) y.ID).2 (Or.inr (List.mem_map_of_mem _ hy))

/-- C1: on the results `[http-status-code, nginx, http-status-code, wordpress]`
both `deletehttpstatuscode` alone and `UniqueResults` after it return
`[nginx, http-status-code, wordpress]`: only the first pseudo-result is cut
out, the second one stays next to the real matches. Results with these IDs are
what `matchHttpPortFingerprints` returns for a site that answers 403 on the
first path and matches one rule of each cluster on a later path. -/
theorem deletehttpstatuscode_leaves_second_status :
    deletehttpstatuscode twoStatusResults
        = [sampleResult "nginx", sampleResult "http-status-code", sampleResult "wordpress"]
      ∧ UniqueResults (deletehttpstatuscode twoStatusResults)
        = [sampleResult "nginx", sampleResult "http-status-code", sampleResult "wordpress"]
      ∧ (sampleResult "http-status-code").ID = statusID
      ∧ (sampleResult "nginx").ID ≠ statusID
      ∧ (matchHttpPortFingerprints asciiLib cappedWeights false false []
          [some forbiddenReply, some loginReply] [some forbiddenReply, some loginReply]
          [{ Operators := [nginxWordRule] }] [{ Operators := [wordpressRule] }] []).1.map (·.ID)
        = twoStatusResults.map (·.ID)
      ∧ (UniqueResults (deletehttpstatuscode
          (matchHttpPortFingerprints asciiLib cappedWeights false false []
            [some forbiddenReply, some loginReply] [some forbiddenReply, some loginReply]
            [{ Operators := [nginxWordRule] }] [{ Operators := [wordpressRule] }] []).1)).map
          (·.ID)
        = ["nginx".toList, statusID, "wordpress".toList] := by
  refine ⟨by rfl, by rfl, by rfl, by decide, by rfl, by rfl⟩

theorem firstOccurrences_snoc (xs : List MatchResult) (x : MatchResult) :
    firstOccurrences (xs ++ [x])
      = firstOccurrences xs ++ (if x.ID ∈ xs.map (·.ID) then [] else [x]) := by
  unfold firstOccurrences
  rw [List.enum_append, List.filter_append, List.map_append]
  congr 1
  · congr 1
    apply List.filter_congr
    intro p hp
    have hlt : p.1 < xs.length := by
      have := List.mem_enum_iff_getElem?.1 hp
      exact (List.getElem?_eq_some_iff.1 this).1
    rw [List.take_append_of_le_length (Nat.le_of_lt hlt)]
  · simp only [List.enumFrom_singleton, List.filter_cons, List.filter_nil]
    rw [List.take_left]
    by_cases hx : x.ID ∈ xs.map (·.ID)
    · have : (xs.all fun y => decide (y.ID ≠ x.ID)) = false := by
        rw [List.all_eq_false]
        obtain ⟨y, hy, hyx⟩ := List.mem_map.1 hx
        exact ⟨y, hy, by simp [hyx]⟩
      rw [this, if_pos hx]
      rfl
    · have : (xs.all fun y => decide (y.ID ≠ x.ID)) = true := by
        rw [List.all_eq_true]
        intro y hy
        have : y.ID ≠ x.ID := fun h => hx (List.mem_map.2 ⟨y, hy, h⟩)
        simpa using this
      rw [this, if_neg hx]
      rfl

theorem uniqueResults_eq_firstOccurrences (xs : List MatchResult) :
    UniqueResults xs = firstOccurrences xs := by
  induction xs using List.reverseRecOn with
  | nil => rfl
  | append_singleton xs x ih => rw [uniqueResults_snoc, firstOccurrences_snoc, ih]

theorem uniqueResults_ids_mem (xs : List MatchResult) (id : GoString) :
    id ∈ (UniqueResults xs).map (·.ID) ↔ id ∈ xs.map (·.ID) := by
  induction xs using List.reverseRecOn with
  | nil => simp [UniqueResults]
  | append_singleton xs x ih =>
    rw [uniqueResults_snoc]
    by_cases hx : x.ID ∈ xs.map (·.ID)
    · simp only [hx, if_true, List.append_nil, ih, List.map_append, List.mem_append,
        List.map_cons, List.map_nil, List.mem_singleton]
      constructor
      · exact Or.inl
      · rintro (h | h)
        · exact h
        · exact h ▸ hx
    · simp only [hx, if_false, List.map_append, List.mem_append, ih]

theorem uniqueResults_ids_nodup (xs : List MatchResult) :
    ((UniqueResults xs).map (·.ID)).Nodup := by
  induction xs using List.reverseRecOn with
  | nil => simp [UniqueResults]
  | append_singleton xs x ih =>
    rw [uniqueResults_snoc]
    by_cases hx : x.ID ∈ xs.map (·.ID)
    · simpa [hx] using ih
    · simp only [hx, if_false, List.map_append, List.map_cons, List.map_nil]
      rw [List.nodup_append]
      refine ⟨ih, List.nodup_singleton _, ?_⟩
      intro a ha hb
      rw [List.mem_singleton] at hb
      exact hx ((uniqueResults_ids_mem xs a).1 ha |> fun h => hb ▸ h)

theorem length_filter_id_of_nodup (l : List MatchResult) (id : GoString)
    (hn : (l.map (·.ID)).Nodup) (hm : id ∈ l.map (·.ID)) :
    (l.filter fun r => decide (r.ID = id)).length = 1 := by
  induction l with
  | nil => simp at hm
  | cons a l ih =>
    rw [List.map_cons, List.nodup_cons] at hn
    by_cases ha : a.ID = id
    · have hnone : l.filter (fun r => decide (r.ID = id)) = [] := by
        rw [List.filter_eq_nil_iff]
        intro r hr
        have : r.ID ≠ id := fun h => hn.1 (ha ▸ h ▸ List.mem_map_of_mem _ hr)
        simpa using this
      rw [List.filter_cons_of_pos (by simpa using ha), hnone]
      rfl
    · rw [List.filter_cons_of_neg (by simpa using ha)]
      apply ih hn.2
      rw [List.map_cons, List.mem_cons] at hm
      rcases hm with h | h
      · exact absurd h.symm ha
      · exact h

/-- C3: `UniqueResults xs` is the list of the elements of `xs` that are the
first with their ID, in their order in `xs`: it equals `firstOccurrences xs`,
is a sublist of `xs`, its IDs are pairwise distinct, and every ID of `xs`
occurs in it exactly once. -/
theorem uniqueResults_first_occurrences (xs : List MatchResult) :
    UniqueResults xs = firstOccurrences xs
      ∧ (UniqueResults xs).Sublist xs
      ∧ ((UniqueResults xs).map (·.ID)).Nodup
      ∧ ∀ id ∈ xs.map (·.ID),
          ((UniqueResults xs).filter fun r => decide (r.ID = id)).length = 1 := by
  refine ⟨uniqueResults_eq_firstOccurrences xs, ?_, uniqueResults_ids_nodup xs, ?_⟩
  · rw [uniqueResults_eq_firstOccurrences]
    unfold firstOccurrences
    have h := (List.filter_sublist (p := fun p : Nat × MatchResult =>
      (xs.take p.1).all fun y => decide (y.ID ≠ p.2.ID)) xs.enum).map Prod.snd
    rwa [List.enum_map_snd] at h
  · intro id hid
    exact length_filter_id_of_nodup _ id (uniqueResults_ids_nodup xs)
      ((uniqueResults_ids_mem xs id).2 hid)

end scanner

namespace strings

theorem contains_iff_sub (s sub : GoString) : Contains s sub = true ↔ sub <:+: s := by
  induction s with
  | nil => simp [Contains, List.isEmpty_iff]
  | cons c cs ih =>
    rw [Contains, Bool.or_eq_true, ih, List.infix_cons_iff, List.isPrefixOf_iff_prefix]

theorem hasPrefix_iff (s pre : GoString) : HasPrefix s pre = true ↔ pre <+: s := by
  rw [HasPrefix, List.isPrefixOf_iff_prefix]

theorem hasSuffix_iff (s suf : GoString) : HasSuffix s suf = true ↔ suf <:+ s := by
  rw [HasSuffix, List.isSuffixOf_iff_suffix]

theorem replaceAll_go_skip (old new : GoString) (k : Nat) (s : GoString) :
    ReplaceAll.go old new k s = ReplaceAll.go old new 0 (s.drop k) := by
  induction k generalizing s with
  | zero => rfl
  | succ k ih =>
    cases s with
    | nil => rfl
    | cons c cs => rw [ReplaceAll.go, ih, List.drop_succ_cons]

theorem replaceAll_nil (old new : GoString) : ReplaceAll [] old new = [] := rfl

theorem replaceAll_cons (old : GoString) (hold : old ≠ []) (c : Char) (cs : GoString) :
    ReplaceAll (c :: cs) old []
      = if old.isPrefixOf (c :: cs) then ReplaceAll ((c :: cs).drop old.length) old []
        else c :: ReplaceAll cs old [] := by
  obtain ⟨n, hn⟩ : ∃ n, old.length = n + 1 :=
    Nat.exists_eq_succ_of_ne_zero (fun h => hold (List.length_eq_zero.1 h))
  unfold ReplaceAll
  rw [ReplaceAll.go]
  split
  · rw [replaceAll_go_skip, hn, List.drop_succ_cons]
    rfl
  · rfl

theorem replaceAll_of_absent (old : GoString) (hold : old ≠ []) (s : GoString)
    (h : ¬ old <:+: s) : ReplaceAll s old [] = s := by
  induction s with
  | nil => rfl
  | cons c cs ih =>
    rw [List.infix_cons_iff, not_or] at h
    have hp : old.isPrefixOf (c :: cs) = false := by
      rw [← Bool.not_eq_true, List.isPrefixOf_iff_prefix]
      exact h.1
    rw [replaceAll_cons old hold, hp]
    simp [ih h.2]

end strings

theorem bracesOpenPlaceholder_iff (p : GoString) :
    bracesOpenPlaceholder p = true ↔ ∀ u, u <:+ p → openBraces <+: u → baseURL <+: u := by
  unfold bracesOpenPlaceholder
  rw [List.all_eq_true]
  constructor
  · intro h u hu hb
    have := h u ((List.mem_tails u p).2 hu)
    rw [Bool.or_eq_true, Bool.not_eq_true', ← Bool.not_eq_true,
      List.isPrefixOf_iff_prefix, List.isPrefixOf_iff_prefix] at this
    rcases this with h1 | h1
    · exact absurd hb h1
    · exact h1
  · intro h u hu
    rw [Bool.or_eq_true, Bool.not_eq_true', ← Bool.not_eq_true,
      List.isPrefixOf_iff_prefix, List.isPrefixOf_iff_prefix]
    by_cases hb : openBraces <+: u
    · exact Or.inr (h u ((List.mem_tails u p).1 hu) hb)
    · exact Or.inl hb

theorem bracesOpenPlaceholder_suffix (p u : GoString) (hu : u <:+ p)
    (h : bracesOpenPlaceholder p = true) : bracesOpenPlaceholder u = true := by
  rw [bracesOpenPlaceholder_iff] at h ⊢
  exact fun w hw hb => h w (hw.trans hu) hb

theorem baseURL_ne_nil : baseURL ≠ [] := by decide

theorem openBraces_prefix_baseURL : openBraces <+: baseURL := by
  rw [← List.isPrefixOf_iff_prefix]; decide

/-- The text left by the erasure starts with an opening brace only if the
input does. -/
theorem replaceAll_head_brace (s : GoString) (r : GoString)
    (h : strings.ReplaceAll s baseURL [] = '\x7b' :: r) : ∃ cs, s = '\x7b' :: cs := by
  cases s with
  | nil => simp [strings.replaceAll_nil] at h
  | cons c cs =>
    rw [strings.replaceAll_cons baseURL baseURL_ne_nil] at h
    split at h
    · rename_i hp
      rw [List.isPrefixOf_iff_prefix] at hp
      obtain ⟨t, ht⟩ := hp
      refine ⟨cs, ?_⟩
      have : c = '\x7b' := by
        have := congrArg List.head? ht
        simpa [baseURL] using this.symm
      rw [this]
    · injection h with h1 _
      exact ⟨cs, by rw [h1]⟩

theorem replaceAll_no_openBraces_aux (n : Nat) : ∀ s : GoString, s.length ≤ n →
    bracesOpenPlaceholder s = true → ¬ openBraces <:+: strings.ReplaceAll s baseURL [] := by
  induction n with
  | zero =>
    intro s hs _
    have : s = [] := List.length_eq_zero.1 (Nat.le_zero.1 hs)
    subst this
    rw [strings.replaceAll_nil, List.infix_nil]
    decide
  | succ n ih =>
    intro s hs hgood
    cases s with
    | nil =>
      rw [strings.replaceAll_nil, List.infix_nil]
      decide
    | cons c cs =>
      rw [strings.replaceAll_cons baseURL baseURL_ne_nil]
      split
      · apply ih
        · rw [List.length_drop]
          have : (c :: cs).length ≤ n + 1 := hs
          have h11 : baseURL.length = 11 := by decide
          omega
        · exact bracesOpenPlaceholder_suffix _ _ (List.drop_suffix _ _) hgood
      · rename_i hp
        have hgood' : bracesOpenPlaceholder cs = true :=
          bracesOpenPlaceholder_suffix _ _ (List.suffix_cons c cs) hgood
        have hrec := ih cs (Nat.le_of_succ_le_succ hs) hgood'
        rw [List.infix_cons_iff, not_or]
        refine ⟨?_, hrec⟩
        rintro ⟨t, ht⟩
        have ht' : '\x7b' :: '\x7b' :: t = c :: strings.ReplaceAll cs baseURL [] := ht
        injection ht' with hc hrest
        obtain ⟨cs', hcs⟩ := replaceAll_head_brace cs t hrest.symm
        have hpre : openBraces <+: c :: cs := ⟨cs', by rw [hcs, ← hc]; rfl⟩
        have := (bracesOpenPlaceholder_iff _).1 hgood (c :: cs) (List.suffix_refl _) hpre
        rw [← List.isPrefixOf_iff_prefix] at this
        exact hp this

theorem replaceAll_no_openBraces (s : GoString) (h : bracesOpenPlaceholder s = true) :
    ¬ openBraces <:+: strings.ReplaceAll s baseURL [] :=
  replaceAll_no_openBraces_aux s.length s (Nat.le_refl _) h

theorem not_baseURL_infix_of_not_openBraces (s : GoString) (h : ¬ openBraces <:+: s) :
    ¬ baseURL <:+: s := fun hb =>
  h ((openBraces_prefix_baseURL.isInfix).trans hb)

theorem cluster_normalizePath_eq (p : GoString) :
    cluster.normalizePath p
      = dropTrailingSlash (ensureLeadingSlash (strings.TrimSpace (strings.ReplaceAll p baseURL []))) :=
  rfl

theorem matcher_normalizePath_eq (p : GoString) :
    matcher.normalizePath p
      = dropTrailingSlash (ensureLeadingSlash (strings.ReplaceAll p baseURL [])) :=
  rfl

/-- The path after `ensureLeadingSlash` is `/` followed by a suffix of the
input. -/
theorem ensureLeadingSlash_eq (u : GoString) :
    ∃ w, ensureLeadingSlash u = '/' :: w ∧ w <:+ u := by
  unfold ensureLeadingSlash
  by_cases h : strings.HasPrefix u "/".toList = true
  · rw [h]
    rw [strings.hasPrefix_iff] at h
    obtain ⟨t, ht⟩ := h
    exact ⟨t, by simpa using ht.symm, ⟨['/'], ht⟩⟩
  · rw [Bool.not_eq_true] at h
    rw [h]
    exact ⟨u, rfl, List.suffix_refl _⟩

theorem singleton_isSuffixOf_concat (a b : Char) (xs : GoString) :
    strings.HasSuffix (xs ++ [b]) [a] = decide (a = b) := by
  rw [Bool.eq_iff_iff, strings.hasSuffix_iff, decide_eq_true_iff]
  constructor
  · rintro ⟨t, ht⟩
    have := List.append_inj_right' ht rfl
    simpa using this
  · rintro rfl
    exact ⟨xs, rfl⟩

theorem dropTrailingSlash_concat (xs : GoString) (a : Char) :
    dropTrailingSlash (xs ++ [a]) = if xs ≠ [] ∧ a = '/' then xs else xs ++ [a] := by
  unfold dropTrailingSlash
  have h1 : "/".toList = ['/'] := rfl
  rw [h1, singleton_isSuffixOf_concat]
  by_cases hx : xs = []
  · subst hx
    simp
  · have hlen : (xs ++ [a]).length > 1 := by
      have := List.length_pos.2 hx
      simp
      omega
    by_cases ha : a = '/'
    · subst ha
      simp [hx, hlen]
    · have : ¬ '/' = a := fun h => ha h.symm
      simp [hx, ha, this]

/-- The result of the last two statements of `normalizePath`, by cases on how
the path `/w` ends. -/
theorem dropTrailingSlash_slash_cons (w : GoString) :
    (w = [] ∧ dropTrailingSlash ('/' :: w) = ['/'])
      ∨ (∃ ys, w = ys ++ ['/'] ∧ dropTrailingSlash ('/' :: w) = '/' :: ys)
      ∨ (∃ ys a, w = ys ++ [a] ∧ a ≠ '/' ∧ dropTrailingSlash ('/' :: w) = '/' :: w) := by
  rcases List.eq_nil_or_concat w with h | ⟨ys, a, h⟩
  · subst h
    exact Or.inl ⟨rfl, by decide⟩
  · rw [List.concat_eq_append] at h
    subst h
    have := dropTrailingSlash_concat ('/' :: ys) a
    rw [List.cons_append] at this
    by_cases ha : a = '/'
    · subst ha
      exact Or.inr (Or.inl ⟨ys, rfl, by rw [this]; simp⟩)
    · exact Or.inr (Or.inr ⟨ys, a, rfl, ha, by rw [this]; simp [ha]⟩)

theorem concat_last_eq (xs ys : GoString) (a b : Char) (h : xs ++ [a] = ys ++ [b]) : a = b := by
  have := List.append_inj_right' h rfl
  simpa using this

/-- The shape of a path after the last two statements of `normalizePath`. -/
theorem normalize_tail_cases (u : GoString) :
    ∃ w, w <:+ u ∧
      ((w = [] ∧ dropTrailingSlash (ensureLeadingSlash u) = ['/'])
        ∨ (∃ ys, w = ys ++ ['/'] ∧ dropTrailingSlash (ensureLeadingSlash u) = '/' :: ys)
        ∨ (∃ ys a, w = ys ++ [a] ∧ a ≠ '/'
            ∧ dropTrailingSlash (ensureLeadingSlash u) = '/' :: w)) := by
  obtain ⟨w, hw, hsuf⟩ := ensureLeadingSlash_eq u
  rw [hw]
  exact ⟨w, hsuf, dropTrailingSlash_slash_cons w⟩

theorem normalize_tail_head (u : GoString) :
    ∃ z, dropTrailingSlash (ensureLeadingSlash u) = '/' :: z ∧ z <:+: u := by
  obtain ⟨w, hsuf, h | ⟨ys, hw, h⟩ | ⟨ys, a, hw, _, h⟩⟩ := normalize_tail_cases u
  · exact ⟨[], h.2, List.nil_infix⟩
  · refine ⟨ys, h, ?_⟩
    exact (List.IsPrefix.isInfix ⟨['/'], hw.symm⟩).trans hsuf.isInfix
  · exact ⟨w, h, hsuf.isInfix⟩

theorem normalize_tail_no_openBraces (u : GoString) (h : ¬ openBraces <:+: u) :
    ¬ openBraces <:+: dropTrailingSlash (ensureLeadingSlash u) := by
  obtain ⟨z, hq, hz⟩ := normalize_tail_head u
  rw [hq, List.infix_cons_iff, not_or]
  refine ⟨?_, fun hb => h (hb.trans hz)⟩
  rintro ⟨t, ht⟩
  have ht' : '\x7b' :: '\x7b' :: t = '/' :: z := ht
  injection ht' with hc _
  exact absurd hc (by decide)

theorem normalize_tail_trailing_slash (u : GoString) (hu : ¬ "//".toList <:+ u)
    (h : ['/'] <:+ dropTrailingSlash (ensureLeadingSlash u)) :
    dropTrailingSlash (ensureLeadingSlash u) = ['/'] := by
  obtain ⟨w, hsuf, h1 | ⟨ys, hw, h1⟩ | ⟨ys, a, hw, ha, h1⟩⟩ := normalize_tail_cases u
  · exact h1.2
  · rw [h1] at h ⊢
    rcases List.eq_nil_or_concat ys with hy | ⟨zs, c, hy⟩
    · rw [hy]
    · exfalso
      rw [List.concat_eq_append] at hy
      subst hy
      obtain ⟨t, ht⟩ := h
      have hc' : c = '/' := (concat_last_eq t ('/' :: zs) '/' c ht).symm
      subst hc'
      apply hu
      refine List.IsSuffix.trans ⟨zs, ?_⟩ hsuf
      rw [hw]
      simp
  · exfalso
    rw [h1, hw] at h
    obtain ⟨t, ht⟩ := h
    exact ha (concat_last_eq t ('/' :: ys) '/' a ht).symm

theorem endsSpaceSlash_false (u zs : GoString) (c : Char) (h : endsSpaceSlash u = false)
    (hu : u = zs ++ [c, '/']) : unicode.IsSpace c = false := by
  subst hu
  unfold endsSpaceSlash at h
  simpa using h

theorem normalize_tail_trimmed (u : GoString)
    (hlast : ∀ ys a, u = ys ++ [a] → unicode.IsSpace a = false)
    (hss : endsSpaceSlash u = false) :
    strings.TrimSpace (dropTrailingSlash (ensureLeadingSlash u))
      = dropTrailingSlash (ensureLeadingSlash u) := by
  have key : ∀ q : GoString, (∃ z, q = '/' :: z) →
      (∀ ys a, q = ys ++ [a] → unicode.IsSpace a = false) → strings.TrimSpace q = q := by
    rintro q ⟨z, rfl⟩ hq
    unfold strings.TrimSpace
    have h1 : List.dropWhile unicode.IsSpace ('/' :: z) = '/' :: z := by
      rw [List.dropWhile_cons]
      have : unicode.IsSpace '/' = false := by decide
      rw [this]
      rfl
    rw [h1, List.rdropWhile_eq_self_iff]
    intro hl
    have := hq _ _ (List.dropLast_append_getLast hl).symm
    rw [this]
    decide
  apply key
  · obtain ⟨z, hz, _⟩ := normalize_tail_head u
    exact ⟨z, hz⟩
  · intro ys a hq
    obtain ⟨w, ⟨pre, hpre⟩, h1 | ⟨zs, hw, h1⟩ | ⟨zs, b, hw, _, h1⟩⟩ := normalize_tail_cases u
    · rw [h1.2] at hq
      have : a = '/' := (concat_last_eq [] ys '/' a hq).symm
      rw [this]
      decide
    · rw [h1] at hq
      rcases List.eq_nil_or_concat zs with hz | ⟨xs, c, hz⟩
      · subst hz
        have : a = '/' := (concat_last_eq [] ys '/' a hq).symm
        rw [this]
        decide
      · rw [List.concat_eq_append] at hz
        subst hz
        have hca : c = a := concat_last_eq ('/' :: xs) ys c a hq
        subst hca
        apply endsSpaceSlash_false u (pre ++ xs) c hss
        rw [← hpre, hw]
        simp
    · rw [h1, hw] at hq
      have hba : b = a := concat_last_eq ('/' :: zs) ys b a hq
      subst hba
      apply hlast (pre ++ zs) b
      rw [← hpre, hw]
      simp

theorem trimSpace_last (t ys : GoString) (a : Char) (h : strings.TrimSpace t = ys ++ [a]) :
    unicode.IsSpace a = false := by
  have hne : (t.dropWhile unicode.IsSpace).rdropWhile unicode.IsSpace ≠ [] := by
    change strings.TrimSpace t ≠ []
    rw [h]
    simp
  have := List.rdropWhile_last_not unicode.IsSpace (t.dropWhile unicode.IsSpace) hne
  have hl : ((t.dropWhile unicode.IsSpace).rdropWhile unicode.IsSpace).getLast hne = a := by
    have h2 : (t.dropWhile unicode.IsSpace).rdropWhile unicode.IsSpace = ys ++ [a] := h
    simp [h2]
  rw [hl] at this
  simpa using this

theorem trimSpace_sub (t : GoString) : strings.TrimSpace t <:+: t :=
  (List.rdropWhile_prefix unicode.IsSpace _).isInfix.trans (List.dropWhile_suffix _).isInfix

theorem dropTrailingSlash_fixed (q : GoString) (h : ['/'] <:+ q → q = ['/']) :
    dropTrailingSlash q = q := by
  unfold dropTrailingSlash
  split
  · rename_i hc
    rw [Bool.and_eq_true, strings.hasSuffix_iff, decide_eq_true_iff] at hc
    have := h hc.2
    rw [this] at hc
    exact absurd hc.1 (by decide)
  · rfl

theorem ensureLeadingSlash_fixed (z : GoString) : ensureLeadingSlash ('/' :: z) = '/' :: z := by
  unfold ensureLeadingSlash
  have : strings.HasPrefix ('/' :: z) "/".toList = true := by
    rw [strings.hasPrefix_iff]
    exact ⟨z, rfl⟩
  rw [this]
  rfl

/-- A path that starts with `/`, holds no placeholder, is trimmed and has no
`/` at its end beyond the root is left as it is by the clusterer. -/
theorem cluster_normalizePath_fixed (q z : GoString) (hq : q = '/' :: z)
    (hP : ¬ baseURL <:+: q) (hT : strings.TrimSpace q = q) (hS : ['/'] <:+ q → q = ['/']) :
    cluster.normalizePath q = q := by
  rw [cluster_normalizePath_eq, strings.replaceAll_of_absent baseURL baseURL_ne_nil q hP, hT,
    hq, ensureLeadingSlash_fixed, ← hq, dropTrailingSlash_fixed q hS]

theorem matcher_normalizePath_fixed (q z : GoString) (hq : q = '/' :: z)
    (hP : ¬ baseURL <:+: q) (hS : ['/'] <:+ q → q = ['/']) :
    matcher.normalizePath q = q := by
  rw [matcher_normalizePath_eq, strings.replaceAll_of_absent baseURL baseURL_ne_nil q hP,
    hq, ensureLeadingSlash_fixed, ← hq, dropTrailingSlash_fixed q hS]

theorem normalize_tail_no_baseURL (u : GoString) (h : ¬ baseURL <:+: u) :
    ¬ baseURL <:+: dropTrailingSlash (ensureLeadingSlash u) := by
  obtain ⟨z, hq, hz⟩ := normalize_tail_head u
  rw [hq, List.infix_cons_iff, not_or]
  refine ⟨?_, fun hb => h (hb.trans hz)⟩
  rintro ⟨t, ht⟩
  have ht' : '\x7b' :: ("\x7bBaseURL\x7d\x7d".toList ++ t) = '/' :: z := ht
  injection ht' with hc _
  exact absurd hc (by decide)

theorem not_contains_iff (s sub : GoString) : strings.Contains s sub = false ↔ ¬ sub <:+: s := by
  rw [← strings.contains_iff_sub, Bool.not_eq_true]

theorem not_hasSuffix_iff (s suf : GoString) : strings.HasSuffix s suf = false ↔ ¬ suf <:+ s := by
  rw [← strings.hasSuffix_iff, Bool.not_eq_true]

/-- C4 (counterexample): on the path `a//` neither `normalizePath` is
idempotent: the first pass gives `/a/`, the second `/a`. -/
theorem normalizePath_not_idempotent :
    cluster.normalizePath "a//".toList = "/a/".toList
      ∧ cluster.normalizePath (cluster.normalizePath "a//".toList) = "/a".toList
      ∧ matcher.normalizePath "a//".toList = "/a/".toList
      ∧ matcher.normalizePath (matcher.normalizePath "a//".toList) = "/a".toList
      ∧ cluster.normalizePath (cluster.normalizePath "a//".toList)
          ≠ cluster.normalizePath "a//".toList
      ∧ matcher.normalizePath (matcher.normalizePath "a//".toList)
          ≠ matcher.normalizePath "a//".toList := by
  decide

/-- C4 (amended): when the single erasing pass over `p` leaves no placeholder,
the clusterer's `normalizePath` is idempotent at `p` if the erased and trimmed
path ends neither with `//` nor with white space followed by `/`, and the
matcher's `normalizePath` is idempotent at `p` if the erased path does not end
with `//`. -/
theorem normalizePath_idempotent_of_single_pass (p : GoString)
    (hP : strings.Contains (strings.ReplaceAll p baseURL []) baseURL = false) :
    (strings.HasSuffix (strings.TrimSpace (strings.ReplaceAll p baseURL [])) "//".toList = false →
      endsSpaceSlash (strings.TrimSpace (strings.ReplaceAll p baseURL [])) = false →
      cluster.normalizePath (cluster.normalizePath p) = cluster.normalizePath p)
    ∧ (strings.HasSuffix (strings.ReplaceAll p baseURL []) "//".toList = false →
      matcher.normalizePath (matcher.normalizePath p) = matcher.normalizePath p) := by
  rw [not_contains_iff] at hP
  constructor
  · intro hB hC
    rw [not_hasSuffix_iff] at hB
    have hPu : ¬ baseURL <:+: strings.TrimSpace (strings.ReplaceAll p baseURL []) :=
      fun h => hP (h.trans (trimSpace_sub _))
    obtain ⟨z, hz, _⟩ :=
      normalize_tail_head (strings.TrimSpace (strings.ReplaceAll p baseURL []))
    rw [cluster_normalizePath_eq p]
    exact cluster_normalizePath_fixed _ z hz (normalize_tail_no_baseURL _ hPu)
      (normalize_tail_trimmed _ (fun ys a h => trimSpace_last _ ys a h) hC)
      (normalize_tail_trailing_slash _ hB)
  · intro hB
    rw [not_hasSuffix_iff] at hB
    obtain ⟨z, hz, _⟩ := normalize_tail_head (strings.ReplaceAll p baseURL [])
    rw [matcher_normalizePath_eq p]
    exact matcher_normalizePath_fixed _ z hz (normalize_tail_no_baseURL _ hP)
      (normalize_tail_trailing_slash _ hB)

/-- C4 (witness): the corpus path `{{BaseURL}}/admin/` meets the provisos; both
functions send it to `/admin` and leave `/admin` unchanged. -/
theorem normalizePath_idempotent_of_single_pass_witness :
    cluster.normalizePath "\x7b\x7bBaseURL\x7d\x7d/admin/".toList = "/admin".toList
      ∧ cluster.normalizePath (cluster.normalizePath "\x7b\x7bBaseURL\x7d\x7d/admin/".toList)
          = cluster.normalizePath "\x7b\x7bBaseURL\x7d\x7d/admin/".toList
      ∧ matcher.normalizePath (matcher.normalizePath "\x7b\x7bBaseURL\x7d\x7d/admin/".toList)
          = matcher.normalizePath "\x7b\x7bBaseURL\x7d\x7d/admin/".toList :=
  ⟨by decide,
    (normalizePath_idempotent_of_single_pass "\x7b\x7bBaseURL\x7d\x7d/admin/".toList
      (by decide)).1 (by decide) (by decide),
    (normalizePath_idempotent_of_single_pass "\x7b\x7bBaseURL\x7d\x7d/admin/".toList
      (by decide)).2 (by decide)⟩

/-- C5 (counterexample): the clusterer sends `a//` to `/a/`, which ends with
`/` without being the root, and sends a placeholder split around another one
to `/{{BaseURL}}`, which still contains the placeholder. -/
theorem cluster_normalizePath_not_clean :
    cluster.normalizePath "a//".toList = "/a/".toList
      ∧ strings.HasSuffix (cluster.normalizePath "a//".toList) "/".toList = true
      ∧ cluster.normalizePath "a//".toList ≠ "/".toList
      ∧ cluster.normalizePath "\x7b\x7bBase\x7b\x7bBaseURL\x7d\x7dURL\x7d\x7d".toList
          = "/\x7b\x7bBaseURL\x7d\x7d".toList
      ∧ strings.Contains
          (cluster.normalizePath "\x7b\x7bBase\x7b\x7bBaseURL\x7d\x7dURL\x7d\x7d".toList)
          baseURL = true := by
  decide

/-- C5 (amended): for every `p` the clusterer's `normalizePath p` starts with
`/`; it ends with `/` only as the root `/` when the erased and trimmed path
does not end with `//`; it contains no placeholder when the single erasing
pass leaves none, which is so when every `{{` of `p` starts a placeholder. -/
theorem cluster_normalizePath_shape (p : GoString) :
    strings.HasPrefix (cluster.normalizePath p) "/".toList = true
      ∧ (strings.HasSuffix (strings.TrimSpace (strings.ReplaceAll p baseURL [])) "//".toList
            = false →
          strings.HasSuffix (cluster.normalizePath p) "/".toList = true →
          cluster.normalizePath p = "/".toList)
      ∧ (strings.Contains (strings.ReplaceAll p baseURL []) baseURL = false →
          strings.Contains (cluster.normalizePath p) baseURL = false)
      ∧ (bracesOpenPlaceholder p = true →
          strings.Contains (cluster.normalizePath p) baseURL = false) := by
  rw [cluster_normalizePath_eq p]
  have h3 : strings.Contains (strings.ReplaceAll p baseURL []) baseURL = false →
      strings.Contains (dropTrailingSlash (ensureLeadingSlash
        (strings.TrimSpace (strings.ReplaceAll p baseURL [])))) baseURL = false := by
    intro hP
    rw [not_contains_iff] at hP ⊢
    exact normalize_tail_no_baseURL _ fun h => hP (h.trans (trimSpace_sub _))
  refine ⟨?_, ?_, h3, ?_⟩
  · obtain ⟨z, hz, _⟩ :=
      normalize_tail_head (strings.TrimSpace (strings.ReplaceAll p baseURL []))
    rw [hz, strings.hasPrefix_iff]
    exact ⟨z, rfl⟩
  · intro hB hS
    rw [not_hasSuffix_iff] at hB
    rw [strings.hasSuffix_iff] at hS
    exact normalize_tail_trailing_slash _ hB hS
  · intro hA
    apply h3
    rw [not_contains_iff]
    exact not_baseURL_infix_of_not_openBraces _ (replaceAll_no_openBraces p hA)

/-- C5 (witness): the corpus path `{{BaseURL}}/admin/`, with white space around
it, meets the provisos and is sent to `/admin`. -/
theorem cluster_normalizePath_shape_witness :
    cluster.normalizePath " \x7b\x7bBaseURL\x7d\x7d/admin/ ".toList = "/admin".toList
      ∧ strings.HasPrefix (cluster.normalizePath " \x7b\x7bBaseURL\x7d\x7d/admin/ ".toList)
          "/".toList = true
      ∧ strings.Contains (cluster.normalizePath " \x7b\x7bBaseURL\x7d\x7d/admin/ ".toList)
          baseURL = false
      ∧ cluster.normalizePath "\x7b\x7bBaseURL\x7d\x7d/".toList = "/".toList :=
  ⟨by decide,
    (cluster_normalizePath_shape " \x7b\x7bBaseURL\x7d\x7d/admin/ ".toList).1,
    (cluster_normalizePath_shape " \x7b\x7bBaseURL\x7d\x7d/admin/ ".toList).2.2.2 (by decide),
    (cluster_normalizePath_shape "\x7b\x7bBaseURL\x7d\x7d/".toList).2.1 (by decide) (by decide)⟩

namespace cluster


/-- With `End = 65535` the condition `p <= r.End` of the loop holds for every
`uint16`, so the loop never ends. -/
theorem rangeLoop_end_max (fuel p : Nat) (result : List Nat) (hp : p < 65536) :
    GetAllPorts.rangeLoop fuel p 65535 result = none := by
  induction fuel generalizing p result with
  | zero => rfl
  | succ fuel ih =>
    rw [GetAllPorts.rangeLoop, if_pos (by omega)]
    exact ih _ _ (Nat.mod_lt _ (by decide))

/-- Below `End = 65535` the loop ends and appends the ports `p, …, e`. -/
theorem rangeLoop_eq (fuel p e : Nat) (result : List Nat) (he : e < 65535)
    (hfuel : e + 1 - p < fuel) :
    GetAllPorts.rangeLoop fuel p e result = some (result ++ List.range' p (e + 1 - p)) := by
  induction fuel generalizing p result with
  | zero => omega
  | succ fuel ih =>
    rw [GetAllPorts.rangeLoop]
    by_cases hpe : p ≤ e
    · rw [if_pos hpe]
      have hmod : (p + 1) % 65536 = p + 1 := Nat.mod_eq_of_lt (by omega)
      rw [hmod, ih (p + 1) _ (by omega)]
      have : e + 1 - p = (e + 1 - (p + 1)) + 1 := by omega
      rw [this, List.range'_succ, List.append_assoc]
      rfl
    · rw [if_neg hpe]
      have : e + 1 - p = 0 := by omega
      rw [this]
      simp

theorem ranges_eq (fuel : Nat) (m : Int) (hm : 65536 ≤ m) (rs : List PortRangeSet)
    (result : List Nat) (hwf : ∀ r ∈ rs, r.Start < 65536 ∧ r.End < 65535)
    (hfuel : 65536 ≤ fuel) :
    GetAllPorts.ranges fuel m rs result
      = some (result ++ rs.flatMap fun r => List.range' r.Start (r.End + 1 - r.Start)) := by
  induction rs generalizing result with
  | nil => simp [GetAllPorts.ranges]
  | cons r rs ih =>
    have hr := hwf r (List.mem_cons_self _ _)
    have hsize : ¬ ((((r.End + 65536 - r.Start + 1) % 65536 : Nat) : Int) > m) := by
      have : (r.End + 65536 - r.Start + 1) % 65536 < 65536 := Nat.mod_lt _ (by decide)
      omega
    rw [GetAllPorts.ranges, GetAllPorts.addRange]
    simp only [hsize, if_false]
    rw [rangeLoop_eq fuel r.Start r.End result hr.2 (by omega)]
    simp only
    rw [ih _ fun x hx => hwf x (List.mem_cons_of_mem _ hx)]
    simp [List.flatMap_cons, List.append_assoc]

/-- For a port set none of whose ranges ends at 65535, `GetAllPorts` with a cap
of at least 65536 returns, and a port is in the returned list exactly when
`Contains` accepts it. -/
theorem getAllPorts_mem_iff_contains (fuel : Nat) (pr : PortRange) (m : Int)
    (hm : 65536 ≤ m) (hwf : pr.WF) (hend : ∀ r ∈ pr.Range, r.End ≠ 65535)
    (hfuel : 65536 ≤ fuel) :
    ∃ ports, pr.GetAllPorts fuel m = some ports
      ∧ ∀ p, pr.Contains p = true ↔ p ∈ ports := by
  have hwf' : ∀ r ∈ pr.Range, r.Start < 65536 ∧ r.End < 65535 := by
    intro r hr
    have h1 := hwf.2 r hr
    have h2 := hend r hr
    omega
  refine ⟨_, ranges_eq fuel m hm pr.Range pr.Single hwf' hfuel, ?_⟩
  intro p
  simp only [PortRange.Contains, Bool.or_eq_true, List.any_eq_true, beq_iff_eq,
    Bool.and_eq_true, decide_eq_true_iff, List.mem_append, List.mem_flatMap, List.mem_range']
  constructor
  · rintro (⟨x, hx, rfl⟩ | ⟨r, hr, h1, h2⟩)
    · exact Or.inl hx
    · exact Or.inr ⟨r, hr, p - r.Start, by omega, by omega⟩
  · rintro (hx | ⟨r, hr, i, hi, rfl⟩)
    · exact Or.inl ⟨p, hx, rfl⟩
    · exact Or.inr ⟨r, hr, by omega, by omega⟩

/-- C6: on the port set `0-65535` and the cap 65536, `Contains` accepts port 80
but `GetAllPorts` produces no enumeration: whatever number of loop steps is
allowed, the loop over the range has not ended. -/
theorem getAllPorts_allPorts_never_returns (fuel : Nat) :
    allPorts.Contains 80 = true ∧ allPorts.GetAllPorts fuel 65536 = none := by
  refine ⟨by decide, ?_⟩
  simp only [PortRange.GetAllPorts, allPorts, GetAllPorts.ranges, GetAllPorts.addRange]
  rw [if_neg (by decide)]
  rw [rangeLoop_end_max fuel 0 [] (by decide)]

end cluster

namespace strconv

theorem digitChar_digit : ∀ k < 10, '0' ≤ Nat.digitChar k ∧ Nat.digitChar k ≤ '9' := by decide

theorem digitChar_value : ∀ k < 10, (Nat.digitChar k).toNat - 48 = k := by decide

theorem natDigits_digit (fuel n : Nat) : ∀ c ∈ natDigits fuel n, '0' ≤ c ∧ c ≤ '9' := by
  induction fuel generalizing n with
  | zero => intro c hc; simp [natDigits] at hc
  | succ fuel ih =>
    intro c hc
    rw [natDigits] at hc
    split at hc
    · rename_i hn
      rw [List.mem_singleton] at hc
      exact hc ▸ digitChar_digit n hn
    · rw [List.mem_append, List.mem_singleton] at hc
      rcases hc with hc | hc
      · exact ih _ c hc
      · exact hc ▸ digitChar_digit _ (Nat.mod_lt _ (by decide))

theorem natDigits_ne_nil (fuel n : Nat) : natDigits (fuel + 1) n ≠ [] := by
  rw [natDigits]
  split <;> simp

theorem natDigits_length (fuel n e : Nat) (hn : n < 10 ^ e) (he : 0 < e) :
    (natDigits fuel n).length ≤ e := by
  induction fuel generalizing n e with
  | zero => simp [natDigits]
  | succ fuel ih =>
    rw [natDigits]
    split
    · simpa using he
    · rename_i h10
      obtain ⟨k, rfl⟩ : ∃ k, e = k + 1 := Nat.exists_eq_succ_of_ne_zero (by omega)
      have hk : 0 < k := by
        rcases Nat.eq_zero_or_pos k with h | h
        · subst h; simp at hn; omega
        · exact h
      have hdiv : n / 10 < 10 ^ k := by
        rw [Nat.div_lt_iff_lt_mul (by decide)]
        rw [Nat.pow_succ] at hn
        exact hn
      have := ih (n / 10) k hdiv hk
      simp only [List.length_append, List.length_singleton]
      omega

theorem digitsValue_concat (ds : GoString) (d : Char) :
    digitsValue (ds ++ [d]) = digitsValue ds * 10 + (d.toNat - 48) := by
  simp [digitsValue, List.foldl_append]

theorem digitsValue_natDigits (fuel n : Nat) (h : n < fuel) :
    digitsValue (natDigits fuel n) = n := by
  induction fuel generalizing n with
  | zero => omega
  | succ fuel ih =>
    rw [natDigits]
    split
    · rename_i hn
      simp only [digitsValue, List.foldl_cons, List.foldl_nil, Nat.zero_mul, Nat.zero_add]
      exact digitChar_value n hn
    · rw [digitsValue_concat, ih (n / 10) (by omega),
        digitChar_value _ (Nat.mod_lt _ (by decide))]
      omega

theorem itoa_natCast (n : Nat) : Itoa (n : Int) = natDigits (n + 1) n := by
  unfold Itoa
  rw [if_neg (by omega)]
  simp

theorem itoa_digit (n : Nat) : ∀ c ∈ Itoa (n : Int), '0' ≤ c ∧ c ≤ '9' := by
  rw [itoa_natCast]
  exact natDigits_digit _ _

theorem isDigits_itoa (n : Nat) : isDigits (Itoa (n : Int)) = true := by
  unfold isDigits
  rw [Bool.and_eq_true, List.all_eq_true]
  constructor
  · rw [itoa_natCast]
    have := natDigits_ne_nil n n
    cases h : natDigits (n + 1) n with
    | nil => exact absurd h this
    | cons c cs => rfl
  · intro c hc
    simpa using itoa_digit n c hc

theorem atoi_itoa (n : Nat) (hn : n < 2 ^ 63) : Atoi (Itoa (n : Int)) = some (n : Int) := by
  have hd := isDigits_itoa n
  have hv : digitsValue (Itoa (n : Int)) = n := by
    rw [itoa_natCast]
    exact digitsValue_natDigits _ _ (by omega)
  have hdig := itoa_digit n
  cases h : Itoa (n : Int) with
  | nil => rw [h] at hd; simp [isDigits] at hd
  | cons c cs =>
    rw [h] at hd hv hdig
    have hc := hdig c (List.mem_cons_self _ _)
    have h1 : c ≠ '-' := by
      rintro rfl
      exact absurd hc.1 (by decide)
    have h2 : c ≠ '+' := by
      rintro rfl
      exact absurd hc.1 (by decide)
    unfold Atoi
    split
    · rename_i heq
      injection heq with ha _
      exact absurd ha h1
    · rename_i heq
      injection heq with ha _
      exact absurd ha h2
    · rw [hd, hv]
      have hn' : n < 9223372036854775808 := by
        have : (2 : Nat) ^ 63 = 9223372036854775808 := by norm_num
        omega
      simp [hn']

end strconv

namespace scanner

theorem contains_singleton_iff (s : GoString) (a : Char) :
    strings.Contains s [a] = true ↔ a ∈ s := by
  rw [strings.contains_iff_sub]
  constructor
  · rintro ⟨u, v, h⟩
    rw [← h]
    simp
  · intro h
    obtain ⟨u, v, h⟩ := List.append_of_mem h
    exact ⟨u, v, by rw [h]; simp⟩

theorem itoa_not_mem (n : Nat) (a : Char) (ha : ¬ ('0' ≤ a ∧ a ≤ '9')) :
    a ∉ strconv.Itoa (n : Int) := fun h => ha (strconv.itoa_digit n a h)

theorem isValidPort_itoa (n : Nat) (hn : n < 100000) :
    isValidPort (strconv.Itoa (n : Int)) = true := by
  have hany : (strconv.Itoa (n : Int)).any
      (fun ch => decide (ch < '0') || decide (ch > '9')) = false := by
    rw [List.any_eq_false]
    intro c hc
    have := strconv.itoa_digit n c hc
    have h1 : ¬ c < '0' := not_lt.2 this.1
    have h2 : ¬ c > '9' := not_lt.2 this.2
    simp [h1, h2]
  have hne : strconv.Itoa (n : Int) ≠ [] := by
    rw [strconv.itoa_natCast]
    exact strconv.natDigits_ne_nil n n
  have hlen : ¬ (strconv.Itoa (n : Int)).length > 5 := by
    rw [strconv.itoa_natCast]
    have := strconv.natDigits_length (n + 1) n 5 (by omega) (by decide)
    omega
  unfold isValidPort
  rw [hany]
  simp only [Bool.false_eq_true, if_false, hne, hlen]

theorem split_range_text (a b : Nat) :
    strings.Split (strconv.Itoa (a : Int) ++ '-' :: strconv.Itoa (b : Int)) '-'
      = [strconv.Itoa (a : Int), strconv.Itoa (b : Int)] := by
  have h := List.splitOn_intercalate [strconv.Itoa (a : Int), strconv.Itoa (b : Int)] '-'
    (by
      intro l hl
      simp only [List.mem_cons, List.mem_singleton, List.not_mem_nil, or_false] at hl
      rcases hl with rfl | rfl
      · exact itoa_not_mem a '-' (by decide)
      · exact itoa_not_mem b '-' (by decide))
    (by simp)
  have hi : ['-'].intercalate [strconv.Itoa (a : Int), strconv.Itoa (b : Int)]
      = strconv.Itoa (a : Int) ++ '-' :: strconv.Itoa (b : Int) := by
    simp [List.intercalate, List.intersperse]
  rw [hi] at h
  exact h

theorem portsBetween_eq (a b : Nat) :
    extractValidPorts.portsBetween (a : Int)
        (if (b : Int) - (a : Int) > 20 then (a : Int) + 20 else (b : Int))
      = (List.range' a (min b (a + 20) + 1 - a)).map portText := by
  unfold extractValidPorts.portsBetween
  have hcount : ((if (b : Int) - (a : Int) > 20 then (a : Int) + 20 else (b : Int)) + 1
      - (a : Int)).toNat = min b (a + 20) + 1 - a := by
    split <;> omega
  rw [hcount, List.range'_eq_map_range, List.map_map]
  apply List.map_congr_left
  intro i _
  simp [portText]

theorem part_text (item : PortItem) (h : item.Short) :
    extractValidPorts.part item.text = item.listed.map portText := by
  cases item with
  | single n =>
    have hc : strings.Contains (strconv.Itoa (n : Int)) "-".toList = false := by
      rw [← Bool.not_eq_true]
      change ¬ strings.Contains (strconv.Itoa (n : Int)) ['-'] = true
      rw [contains_singleton_iff]
      exact itoa_not_mem n '-' (by decide)
    simp only [PortItem.text, PortItem.listed, extractValidPorts.part, hc,
      isValidPort_itoa n h, Bool.false_eq_true, if_false, if_true, List.map_cons, List.map_nil,
      portText]
  | range a b =>
    have hc : strings.Contains (strconv.Itoa (a : Int) ++ '-' :: strconv.Itoa (b : Int))
        "-".toList = true := by
      change strings.Contains _ ['-'] = true
      rw [contains_singleton_iff]
      simp
    simp only [PortItem.text, PortItem.listed, extractValidPorts.part, hc, if_true,
      split_range_text, isValidPort_itoa a h.1, isValidPort_itoa b h.2, Bool.and_self,
      strconv.atoi_itoa a (by have := h.1; omega), strconv.atoi_itoa b (by have := h.2; omega),
      Option.getD_some]
    exact portsBetween_eq a b

theorem text_no_comma (item : PortItem) : ',' ∉ item.text := by
  cases item with
  | single n => exact itoa_not_mem n ',' (by decide)
  | range a b =>
    simp only [PortItem.text, List.mem_append, List.mem_cons, not_or]
    exact ⟨itoa_not_mem a ',' (by decide), by decide, itoa_not_mem b ',' (by decide)⟩

/-- C7 (counterexample): `extractValidPorts` returns the ports of
`22,80,1000-1003,443` in the order of the expression, with 443 last, and not in
ascending order. -/
theorem extractValidPorts_not_ascending :
    extractValidPorts "22,80,1000-1003,443".toList
        = ["22".toList, "80".toList, "1000".toList, "1001".toList, "1002".toList,
            "1003".toList, "443".toList]
      ∧ extractValidPorts "22,80,1000-1003,443".toList
        ≠ ["22".toList, "80".toList, "443".toList, "1000".toList, "1001".toList,
            "1002".toList, "1003".toList] := by
  decide

/-- C7 (amended): for every port expression whose numbers have at most five
digits, `extractValidPorts` returns the ports in the order of the expression,
item by item, a range `a-b` in ascending order and cut after `a + 20`; on
`22,80,1000-1003,443` it returns 22, 80, 1000, 1001, 1002, 1003, 443, with 1002
a member and 999 not a member. -/
theorem extractValidPorts_in_expression_order (items : List PortItem)
    (h : ∀ item ∈ items, item.Short) :
    extractValidPorts (portExprText items)
        = (items.flatMap PortItem.listed).map portText
      ∧ extractValidPorts "22,80,1000-1003,443".toList
        = ["22".toList, "80".toList, "1000".toList, "1001".toList, "1002".toList,
            "1003".toList, "443".toList]
      ∧ "1002".toList ∈ extractValidPorts "22,80,1000-1003,443".toList
      ∧ "999".toList ∉ extractValidPorts "22,80,1000-1003,443".toList := by
  refine ⟨?_, by decide, by decide, by decide⟩
  rcases List.eq_nil_or_concat items with rfl | ⟨items', last, hitems⟩
  · decide
  · have hne : items.map PortItem.text ≠ [] := by
      rw [hitems]
      simp
    unfold extractValidPorts portExprText strings.Split
    rw [List.splitOn_intercalate _ ',' ?_ hne]
    · rw [List.map_flatMap, List.flatMap_map]
      apply List.flatMap_congr
      intro item hitem
      exact part_text item (h item hitem)
    · intro l hl
      obtain ⟨item, _, rfl⟩ := List.mem_map.1 hl
      exact text_no_comma item

/-- C7 (witness): the expression `22,80,1000-1003,443`, and a range longer than
the cut. -/
theorem extractValidPorts_in_expression_order_witness :
    extractValidPorts
        (portExprText [.single 22, .single 80, .range 1000 1003, .single 443])
      = ([22, 80, 1000, 1001, 1002, 1003, 443] : List Nat).map
          portText
    ∧ portExprText [.single 22, .single 80, .range 1000 1003, .single 443]
      = "22,80,1000-1003,443".toList :=
  ⟨(extractValidPorts_in_expression_order
      [.single 22, .single 80, .range 1000 1003, .single 443] (by
        intro item hitem
        simp only [List.mem_cons, List.mem_singleton, List.not_mem_nil, or_false] at hitem
        rcases hitem with rfl | rfl | rfl | rfl <;> simp [PortItem.Short])).1,
    by decide⟩

end scanner

namespace scanner
open matcher

theorem probeHttp_confidence_ge_min (L : Lib) (cfg : internal.ConfidenceConfig)
    (matchers : List internal.Matchers) :
    cfg.MinConfidence ≤ probeHttpService.confidence L cfg matchers := by
  unfold probeHttpService.confidence
  split
  · exact le_refl _
  · rename_i h
    exact not_lt.1 h

theorem nginxRule_confidence :
    probeHttpService.confidence asciiLib cappedWeights nginxRule.Matchers = 55 / 100 := by
  have hs : probeHttpService.confidenceStep asciiLib cappedWeights 0
      { Type_ := "word".toList, Words := ["<title>welcome to nginx!</title>".toList] }
      = 55 / 100 := by
    have h1 : probeHttpService.special asciiLib cappedWeights.MatcherWeights.Word 0
        ["<title>welcome to nginx!</title>".toList] = 55 / 100 := by rfl
    rw [probeHttpService.confidenceStep, if_pos rfl, h1]
    norm_num
  have hf : nginxRule.Matchers.foldl (probeHttpService.confidenceStep asciiLib cappedWeights) 0
      = 55 / 100 := hs
  rw [probeHttpService.confidence, hf]
  norm_num [cappedWeights]

/-- C8: with the default weights and `max_confidence` set to 0.5, the
pseudo-result and the favicon result of `probeHttpService` carry the favicon
weight 0.9, and the result of a rule matched on the page title carries the
word weight 0.55: all above `max_confidence`. -/
theorem probeHttpService_confidence_above_max (L : Lib) :
    (probeHttpService L cappedWeights false true "d41d8cd98f00b204e9800998ecf8427e".toList
        [some nginxReply] [] [{ Operators := [faviconRule] }]).2.map (fun r => (r.ID, r.Confidence))
      = [(statusID, 9 / 10), ("fav".toList, 9 / 10)]
    ∧ (probeHttpService asciiLib cappedWeights false false [] [some nginxReply]
        [{ Operators := [nginxRule] }] []).2.map (fun r => (r.ID, r.Confidence))
      = [("nginx".toList, 55 / 100)]
    ∧ ¬ ((9 : ℚ) / 10 ≤ cappedWeights.MaxConfidence)
    ∧ ¬ ((55 : ℚ) / 100 ≤ cappedWeights.MaxConfidence) := by
  refine ⟨by rfl, ?_, ?_, ?_⟩
  · have h : (probeHttpService asciiLib cappedWeights false false [] [some nginxReply]
        [{ Operators := [nginxRule] }] []).2.map (fun r => (r.ID, r.Confidence))
        = [("nginx".toList, probeHttpService.confidence asciiLib cappedWeights
            nginxRule.Matchers)] := by rfl
    rw [h, nginxRule_confidence]
  · norm_num [cappedWeights]
  · norm_num [cappedWeights]

end scanner

namespace scanner
open matcher

end scanner

namespace scanner
open matcher

/-- C10 (counterexample): two SSH rules with the same (empty) matchers, one
with a word extractor and one without: on the same banner `probeTCPService`
and `probeTCPServiceNull` match the first and not the second. -/
theorem probeTCPService_decides_by_extractors :
    sshWithExtractor.Matchers = sshBare.Matchers
      ∧ (∀ (L : Lib) (cfg : internal.ConfidenceConfig),
          (probeTCPService L cfg sshBanner [{ Operators := [sshWithExtractor] }]).1 = true
          ∧ (probeTCPService L cfg sshBanner [{ Operators := [sshBare] }]).1 = false)
      ∧ (∀ (L : Lib) (cfg : internal.ConfidenceConfig),
          (probeTCPServiceNull L cfg sshBanner [{ Operators := [sshWithExtractor] }]).1 = true
          ∧ (probeTCPServiceNull L cfg sshBanner [{ Operators := [sshBare] }]).1 = false) := by
  refine ⟨rfl, fun L cfg => ⟨by rfl, by rfl⟩, fun L cfg => ⟨by rfl, by rfl⟩⟩

theorem http_operators_congr (L : Lib) (cfg : internal.ConfidenceConfig)
    (fps1 fps2 : List cluster.ClusteredFingerprint)
    (h : List.Forall₂ (fun a b => a.Matchers = b.Matchers) fps1 fps2) :
    ∀ (httpResp : HTTPResponse) (all1 all2 : List MatchResult),
      all1.map (·.Confidence) = all2.map (·.Confidence) →
      (probeHttpService.operators L cfg fps1 httpResp all1).1
          = (probeHttpService.operators L cfg fps2 httpResp all2).1
        ∧ (probeHttpService.operators L cfg fps1 httpResp all1).2.map (·.Confidence)
          = (probeHttpService.operators L cfg fps2 httpResp all2).2.map (·.Confidence) := by
  induction h with
  | nil => intro httpResp all1 all2 hall; exact ⟨rfl, hall⟩
  | cons hab _ ih =>
    intro httpResp all1 all2 hall
    rw [probeHttpService.operators, probeHttpService.operators, hab]
    split
    · apply ih
      simp [hall, probeHttpService.ruleResult, hab]
    · exact ih _ _ _ hall

theorem http_path_congr (L : Lib) (cfg : internal.ConfidenceConfig) (bpStat : Bool)
    (cs1 cs2 : List cluster.ClusterExecute)
    (h : List.Forall₂ (fun a b => a.Matchers = b.Matchers)
      (cs1.flatMap fun c => c.Operators) (cs2.flatMap fun c => c.Operators))
    (all1 all2 : List MatchResult) (hall : all1.map (·.Confidence) = all2.map (·.Confidence))
    (response : Option HTTPResponse) :
    (probeHttpService.path L cfg bpStat cs1 all1 response).map (·.Confidence)
      = (probeHttpService.path L cfg bpStat cs2 all2 response).map (·.Confidence) := by
  cases response with
  | none => exact hall
  | some httpResp =>
    obtain ⟨h1, h2⟩ := http_operators_congr L cfg _ _ h httpResp all1 all2 hall
    have hlen := congrArg List.length h2
    simp only [List.length_map] at hlen
    simp only [probeHttpService.path, h1, hlen]
    split
    · split
      · exact h2
      · simp [h2, probeHttpService.statusResult]
    · exact h2

theorem http_paths_congr (L : Lib) (cfg : internal.ConfidenceConfig) (bpStat : Bool)
    (cs1 cs2 : List cluster.ClusterExecute)
    (h : List.Forall₂ (fun a b => a.Matchers = b.Matchers)
      (cs1.flatMap fun c => c.Operators) (cs2.flatMap fun c => c.Operators))
    (responses : List (Option HTTPResponse)) :
    ∀ all1 all2 : List MatchResult, all1.map (·.Confidence) = all2.map (·.Confidence) →
      (responses.foldl (probeHttpService.path L cfg bpStat cs1) all1).map (·.Confidence)
        = (responses.foldl (probeHttpService.path L cfg bpStat cs2) all2).map (·.Confidence) := by
  induction responses with
  | nil => intro all1 all2 hall; exact hall
  | cons r rest ih =>
    intro all1 all2 hall
    rw [List.foldl_cons, List.foldl_cons]
    exact ih _ _ (http_path_congr L cfg bpStat cs1 cs2 h all1 all2 hall r)

theorem favicon_results_congr (cfg : internal.ConfidenceConfig) (faviconHash : GoString)
    (fps1 fps2 : List cluster.ClusteredFingerprint)
    (h : List.Forall₂ (fun a b => a.Matchers = b.Matchers) fps1 fps2) :
    ((fps1.filter fun fp => probeHttpService.faviconMatched fp faviconHash).map fun fp =>
        probeHttpService.faviconResult cfg fp faviconHash).map (·.Confidence)
      = ((fps2.filter fun fp => probeHttpService.faviconMatched fp faviconHash).map fun fp =>
        probeHttpService.faviconResult cfg fp faviconHash).map (·.Confidence) := by
  induction h with
  | nil => rfl
  | @cons a b l1 l2 hab _ ih =>
    have hm : probeHttpService.faviconMatched a faviconHash
        = probeHttpService.faviconMatched b faviconHash := by
      unfold probeHttpService.faviconMatched
      rw [hab]
    rw [List.filter_cons, List.filter_cons, hm]
    split
    · simp only [List.map_cons, ih]
      rfl
    · exact ih

theorem http_final_congr (all1 all2 : List MatchResult)
    (hall : all1.map (·.Confidence) = all2.map (·.Confidence)) :
    (if all1.length > 0 then (true, all1) else (false, [])).1
        = (if all2.length > 0 then (true, all2) else (false, [])).1
      ∧ (if all1.length > 0 then (true, all1) else (false, [])).2.map (·.Confidence)
        = (if all2.length > 0 then (true, all2) else (false, [])).2.map (·.Confidence) := by
  have hlen := congrArg List.length hall
  simp only [List.length_map] at hlen
  rw [hlen]
  split
  · exact ⟨rfl, hall⟩
  · exact ⟨rfl, rfl⟩

theorem tcp_operators_congr (L : Lib) (cfg : internal.ConfidenceConfig)
    (fps1 fps2 : List cluster.ClusteredFingerprint)
    (h : List.Forall₂ (fun a b => a.Extractors = b.Extractors) fps1 fps2) :
    ∀ tcpResp : TCPResponse,
      (probeTCPService.operators L cfg fps1 tcpResp).1
          = (probeTCPService.operators L cfg fps2 tcpResp).1
        ∧ (probeTCPService.operators L cfg fps1 tcpResp).2.map (·.Confidence)
          = (probeTCPService.operators L cfg fps2 tcpResp).2.map (·.Confidence) := by
  induction h with
  | nil => intro tcpResp; exact ⟨rfl, rfl⟩
  | cons hab _ ih =>
    intro tcpResp
    rw [probeTCPService.operators, probeTCPService.operators, hab]
    split
    · simp [probeTCPService.ruleResult, hab]
    · exact ih _

/-- C10 (amended): in `probeHttpService` the extractors do not influence the
outcome: two lists of clusters whose fingerprints have, one by one, the same
matchers give the same matched flag and the same confidences on every input.
In `probeTCPService` and `probeTCPServiceNull` the outcome is decided by the
extractors: two lists of clusters whose fingerprints have, one by one, the
same extractors give the same matched flag and confidences, whatever their
matchers. -/
theorem probe_outcome_sources (L : Lib) (cfg : internal.ConfidenceConfig) :
    (∀ (bpStat enableFavicon : Bool) (faviconHash : GoString)
        (responses : List (Option HTTPResponse)) (cs1 cs2 fcs1 fcs2 : List cluster.ClusterExecute),
        List.Forall₂ (fun a b => a.Matchers = b.Matchers)
          (cs1.flatMap fun c => c.Operators) (cs2.flatMap fun c => c.Operators) →
        List.Forall₂ (fun a b => a.Matchers = b.Matchers)
          (fcs1.flatMap fun c => c.Operators) (fcs2.flatMap fun c => c.Operators) →
        (probeHttpService L cfg bpStat enableFavicon faviconHash responses cs1 fcs1).1
            = (probeHttpService L cfg bpStat enableFavicon faviconHash responses cs2 fcs2).1
          ∧ (probeHttpService L cfg bpStat enableFavicon faviconHash responses cs1 fcs1).2.map
              (·.Confidence)
            = (probeHttpService L cfg bpStat enableFavicon faviconHash responses cs2 fcs2).2.map
              (·.Confidence))
      ∧ (∀ (tcpResp : TCPResponse) (cs1 cs2 : List cluster.ClusterExecute),
        List.Forall₂ (fun a b => a.Extractors = b.Extractors)
          (cs1.flatMap fun c => c.Operators) (cs2.flatMap fun c => c.Operators) →
        (probeTCPService L cfg tcpResp cs1).1 = (probeTCPService L cfg tcpResp cs2).1
          ∧ (probeTCPServiceNull L cfg tcpResp cs1).1
            = (probeTCPServiceNull L cfg tcpResp cs2).1
          ∧ (probeTCPService L cfg tcpResp cs1).2.map (·.Confidence)
            = (probeTCPService L cfg tcpResp cs2).2.map (·.Confidence)) := by
  constructor
  · intro bpStat enableFavicon faviconHash responses cs1 cs2 fcs1 fcs2 h hf
    have hp := http_paths_congr L cfg bpStat cs1 cs2 h responses [] [] rfl
    have hfav := favicon_results_congr cfg faviconHash _ _ hf
    have hall : (if enableFavicon = true ∧ faviconHash ≠ [] then
          responses.foldl (probeHttpService.path L cfg bpStat cs1) []
            ++ ((fcs1.flatMap fun c => c.Operators).filter fun fp =>
              probeHttpService.faviconMatched fp faviconHash).map fun fp =>
                probeHttpService.faviconResult cfg fp faviconHash
        else responses.foldl (probeHttpService.path L cfg bpStat cs1) []).map (·.Confidence)
        = (if enableFavicon = true ∧ faviconHash ≠ [] then
          responses.foldl (probeHttpService.path L cfg bpStat cs2) []
            ++ ((fcs2.flatMap fun c => c.Operators).filter fun fp =>
              probeHttpService.faviconMatched fp faviconHash).map fun fp =>
                probeHttpService.faviconResult cfg fp faviconHash
        else responses.foldl (probeHttpService.path L cfg bpStat cs2) []).map (·.Confidence) := by
      split
      · rw [List.map_append, List.map_append, hp, hfav]
      · exact hp
    exact http_final_congr _ _ hall
  · intro tcpResp cs1 cs2 h
    obtain ⟨h1, h2⟩ := tcp_operators_congr L cfg _ _ h tcpResp
    exact ⟨h1, h1, h2⟩

/-- C10 (witness): the nginx rule with and without a version extractor is
matched alike by `probeHttpService`; the SSH rule with its extractor is matched
alike by the TCP probes whatever matchers are attached to it. -/
theorem probe_outcome_sources_witness :
    (probeHttpService asciiLib cappedWeights false false [] [some nginxReply]
        [{ Operators := [nginxRule] }] []).1
      = (probeHttpService asciiLib cappedWeights false false [] [some nginxReply]
        [{ Operators := [nginxRuleWithExtractor] }] []).1
    ∧ (probeHttpService asciiLib cappedWeights false false [] [some nginxReply]
        [{ Operators := [nginxRule] }] []).1 = true
    ∧ (probeTCPService asciiLib cappedWeights sshBanner [{ Operators := [sshWithExtractor] }]).1
      = (probeTCPService asciiLib cappedWeights sshBanner
        [{ Operators := [{ sshWithExtractor with Matchers := [statusMatcher] }] }]).1 :=
  ⟨((probe_outcome_sources asciiLib cappedWeights).1 false false [] [some nginxReply]
      [{ Operators := [nginxRule] }] [{ Operators := [nginxRuleWithExtractor] }] [] []
      (List.Forall₂.cons rfl List.Forall₂.nil) List.Forall₂.nil).1,
    by rfl,
    ((probe_outcome_sources asciiLib cappedWeights).2 sshBanner
      [{ Operators := [sshWithExtractor] }]
      [{ Operators := [{ sshWithExtractor with Matchers := [statusMatcher] }] }]
      (List.Forall₂.cons rfl List.Forall₂.nil)).1⟩

end scanner

namespace scanner
open matcher

/-- C11: a matcher whose word, regex, status and favicon-hash lists are all
empty is never hit, whatever its flags and whatever the response:
`isMatcherHit` and `isMatcherHitTCP` return false. -/
theorem isMatcherHit_without_needles (L : Lib) (m : internal.Matchers) (resp : HTTPResponse)
    (tcpResp : TCPResponse) (hw : m.Words = []) (hr : m.Regex = []) (hs : m.Status = [])
    (hf : m.Favicon_hash = []) :
    isMatcherHit L m resp = false ∧ isMatcherHitTCP L m tcpResp = false := by
  constructor
  · simp [isMatcherHit, hw, hr, hs, hf]
  · simp [isMatcherHitTCP, hw, hr]

/-- C11 (witness): the matcher without needles and with `negative`,
`match-all`, `case-insensitive` and condition `and` set, on the nginx reply
and on the SSH banner. -/
theorem isMatcherHit_without_needles_witness :
    isMatcherHit asciiLib emptyMatcher nginxReply = false
      ∧ isMatcherHitTCP asciiLib emptyMatcher sshBanner = false :=
  isMatcherHit_without_needles asciiLib emptyMatcher nginxReply sshBanner rfl rfl rfl rfl

/-- C12: on two pseudo-results and no real result `deletehttpstatuscode`
returns one pseudo-result: the first entry is cut out although every entry
has the ID `http-status-code`. Two pseudo-results are what
`matchHttpPortFingerprints` returns for a site that answers 403 and matches no
rule. -/
theorem deletehttpstatuscode_drops_without_real_result :
    (∀ r ∈ onlyStatusResults, r.ID = statusID)
      ∧ deletehttpstatuscode onlyStatusResults = [sampleResult "http-status-code"]
      ∧ deletehttpstatuscode onlyStatusResults ≠ onlyStatusResults
      ∧ (matchHttpPortFingerprints asciiLib cappedWeights false false []
          [some forbiddenReply] [some forbiddenReply]
          [{ Operators := [nginxWordRule] }] [{ Operators := [wordpressRule] }] []).1.map (·.ID)
        = onlyStatusResults.map (·.ID)
      ∧ (deletehttpstatuscode
          (matchHttpPortFingerprints asciiLib cappedWeights false false []
            [some forbiddenReply] [some forbiddenReply]
            [{ Operators := [nginxWordRule] }] [{ Operators := [wordpressRule] }] []).1).map
          (·.ID)
        = [statusID] := by
  refine ⟨by decide, by rfl, ?_, by rfl, by rfl⟩
  have h : deletehttpstatuscode onlyStatusResults = [sampleResult "http-status-code"] := by rfl
  rw [h]
  intro hc
  have := congrArg List.length hc
  simp [onlyStatusResults] at this

end scanner

namespace cluster

theorem sortBy_pair {α : Type} (S : SliceSort) (key : α → Int) (a b : α)
    (h : key a < key b) : S.sortBy key [a, b] = [a, b] := by
  have hp := S.perm key [a, b]
  have hs := S.sorted key [a, b]
  have hlen := hp.length_eq
  match hl : S.sortBy key [a, b], hlen with
  | [x, y], _ =>
    rw [hl] at hp hs
    have hx : x ∈ [a, b] := hp.subset (by simp)
    have hy : y ∈ [a, b] := hp.subset (by simp)
    have ha : a ∈ [x, y] := hp.symm.subset (by simp)
    have hb : b ∈ [x, y] := hp.symm.subset (by simp)
    have hxy : key x ≤ key y := by
      rw [List.pairwise_cons] at hs
      exact hs.1 y (by simp)
    simp only [List.mem_cons, List.mem_singleton, List.not_mem_nil, or_false] at hx hy ha hb
    rcases hx with rfl | rfl <;> rcases hy with rfl | rfl
    · rcases hb with rfl | rfl <;> exact absurd h (lt_irrefl _)
    · rfl
    · exact absurd (lt_of_lt_of_le h hxy) (lt_irrefl _)
    · rcases ha with rfl | rfl <;> exact absurd h (lt_irrefl _)

theorem uniqueLoop_increasing (l : List Int) (hl : l.Pairwise fun a b => a ≤ b) :
    ∀ prev : Option Int, (∀ p, prev = some p → ∀ x ∈ l, p ≤ x) →
      (mergePorts.uniqueLoop prev l).Pairwise (fun a b => a < b)
        ∧ ∀ x ∈ mergePorts.uniqueLoop prev l, x ∈ l ∧ ∀ p, prev = some p → p < x := by
  induction l with
  | nil => intro prev _; simp [mergePorts.uniqueLoop]
  | cons a rest ih =>
    intro prev hprev
    rw [List.pairwise_cons] at hl
    have hrec := ih hl.2 (some a) (by
      intro p hp x hx
      injection hp with hp
      exact hp ▸ hl.1 x hx)
    rw [mergePorts.uniqueLoop]
    split
    · rename_i heq
      refine ⟨hrec.1, ?_⟩
      intro x hx
      refine ⟨List.mem_cons_of_mem _ (hrec.2 x hx).1, ?_⟩
      intro p hp
      rw [hp] at heq
      injection heq with heq
      rw [heq]
      exact (hrec.2 x hx).2 a rfl
    · rename_i hne
      refine ⟨?_, ?_⟩
      · rw [List.pairwise_cons]
        exact ⟨fun x hx => (hrec.2 x hx).2 a rfl, hrec.1⟩
      · intro x hx
        rw [List.mem_cons] at hx
        rcases hx with rfl | hx
        · refine ⟨List.mem_cons_self _ _, ?_⟩
          intro p hp
          have hle := hprev p hp x (List.mem_cons_self _ _)
          rcases lt_or_eq_of_le hle with h | h
          · exact h
          · exact absurd (by rw [hp, h]) hne
        · refine ⟨List.mem_cons_of_mem _ (hrec.2 x hx).1, ?_⟩
          intro p hp
          exact lt_of_le_of_lt (hprev p hp a (List.mem_cons_self _ _)) ((hrec.2 x hx).2 a rfl)

theorem mergePorts_singles_increasing (ports : List GoString) :
    (mergePorts.singles ports).Pairwise fun a b => a < b := by
  unfold mergePorts.singles
  have hs : ((mergePorts.collect ports).1.insertionSort fun a b => a ≤ b).Pairwise
      fun a b => a ≤ b :=
    List.sorted_insertionSort (fun a b : Int => a ≤ b) _
  exact (uniqueLoop_increasing _ hs none (by intro p hp; cases hp)).1

theorem mergePorts_ranges_sorted (S : SliceSort) (ports : List GoString) :
    (mergePorts.ranges S ports).Pairwise fun a b => a.1 ≤ b.1 := by
  unfold mergePorts.ranges
  split
  · exact S.sorted _ _
  · rename_i h
    have : (mergePorts.collect ports).2 = [] := by
      cases hc : (mergePorts.collect ports).2 with
      | nil => rfl
      | cons a l => rw [hc] at h; simp at h
    rw [this]
    exact List.Pairwise.nil

/-- C13 (counterexample): the port strings `1-10` and `5-20` are written as
`1-10,5-20`, two ranges that overlap; and the single port string `80,22,80` is
written back as it is, neither sorted nor without duplicates. -/
theorem mergePorts_keeps_overlap :
    (∀ S : SliceSort, mergePorts S ["1-10".toList, "5-20".toList] = "1-10,5-20".toList)
      ∧ (∀ S : SliceSort,
          mergePorts.ranges S ["1-10".toList, "5-20".toList] = [(1, 10), (5, 20)])
      ∧ (∀ S : SliceSort, mergePorts S ["80,22,80".toList] = "80,22,80".toList) := by
  have hc : mergePorts.collect ["1-10".toList, "5-20".toList] = ([], [(1, 10), (5, 20)]) := by
    decide
  have hr : ∀ S : SliceSort,
      mergePorts.ranges S ["1-10".toList, "5-20".toList] = [(1, 10), (5, 20)] := by
    intro S
    unfold mergePorts.ranges
    rw [hc]
    simp only [List.length_cons, List.length_nil, gt_iff_lt, Nat.zero_lt_succ, if_true]
    exact sortBy_pair S (fun r : Int × Int => r.1) (1, 10) (5, 20) (by decide)
  refine ⟨?_, hr, fun S => rfl⟩
  intro S
  have hs : mergePorts.singles ["1-10".toList, "5-20".toList] = [] := by decide
  unfold mergePorts
  simp only [hs, hr S]
  decide

/-- C13 (amended): for every list of at least two port strings, `mergePorts`
writes the single ports in strictly ascending order (sorted, no duplicates)
followed by the ranges in the order of their starts; the ranges are joined by
commas as they are. A list of one port string is written back unchanged, an
empty list gives the empty string. -/
theorem mergePorts_sorted_output (S : SliceSort) (ports : List GoString)
    (h : 2 ≤ ports.length) :
    mergePorts S ports
        = strings.Join ((mergePorts.singles ports).map strconv.Itoa
            ++ (mergePorts.ranges S ports).map mergePorts.rangeText) ",".toList
      ∧ (mergePorts.singles ports).Pairwise (fun a b => a < b)
      ∧ (mergePorts.ranges S ports).Pairwise (fun a b => a.1 ≤ b.1)
      ∧ (∀ port : GoString, mergePorts S [port] = port)
      ∧ mergePorts S [] = [] := by
  refine ⟨?_, mergePorts_singles_increasing ports, mergePorts_ranges_sorted S ports,
    fun _ => rfl, rfl⟩
  match ports, h with
  | _ :: _ :: _, _ => rfl

/-- C13 (witness): two port strings with a repeated port, unsorted ports and
two ranges. -/
theorem mergePorts_sorted_output_witness :
    mergePorts insertionSliceSort ["80, 22,1000-2000".toList, "22,443,5-20".toList]
        = "22,80,443,5-20,1000-2000".toList
      ∧ mergePorts.singles ["80, 22,1000-2000".toList, "22,443,5-20".toList] = [22, 80, 443]
      ∧ (mergePorts.singles ["80, 22,1000-2000".toList, "22,443,5-20".toList]).Pairwise
          (fun a b => a < b) :=
  ⟨by decide, by decide,
    (mergePorts_sorted_output insertionSliceSort
      ["80, 22,1000-2000".toList, "22,443,5-20".toList] (by decide)).2.1⟩

end cluster

/-! ### Go maps of slices -/

theorem MapRange.order_singleton (R : MapRange) {α : Type} (a : α) : R.order [a] = [a] :=
  List.perm_singleton.1 (R.perm [a])

theorem groupOf_appendGroup {K V : Type} [DecidableEq K] (G : List (K × List V)) (k : K) (v : V)
    (k' : K) :
    groupOf (appendGroup G k v) k' = if k = k' then groupOf G k' ++ [v] else groupOf G k' := by
  induction G with
  | nil =>
    by_cases h : k = k' <;> simp [appendGroup, groupOf, h]
  | cons kv rest ih =>
    obtain ⟨k0, vs⟩ := kv
    by_cases h0 : k0 = k
    · subst h0
      by_cases h : k0 = k' <;> simp [appendGroup, groupOf, h]
    · by_cases h1 : k0 = k'
      · subst h1
        have : ¬ k = k0 := fun h => h0 h.symm
        simp [appendGroup, groupOf, h0, this]
      · simp [appendGroup, groupOf, h0, h1, ih]

theorem mem_keys_appendGroup {K V : Type} [DecidableEq K] (G : List (K × List V)) (k : K) (v : V)
    (k' : K) :
    k' ∈ (appendGroup G k v).map Prod.fst ↔ k' = k ∨ k' ∈ G.map Prod.fst := by
  induction G with
  | nil => simp [appendGroup]
  | cons kv rest ih =>
    obtain ⟨k0, vs⟩ := kv
    by_cases h0 : k0 = k
    · subst h0
      simp [appendGroup]
    · simp only [appendGroup, h0, if_false, List.map_cons, List.mem_cons, ih]
      tauto

theorem appendGroup_nodup {K V : Type} [DecidableEq K] (G : List (K × List V)) (k : K) (v : V)
    (h : (G.map Prod.fst).Nodup) : ((appendGroup G k v).map Prod.fst).Nodup := by
  induction G with
  | nil => simp [appendGroup]
  | cons kv rest ih =>
    obtain ⟨k0, vs⟩ := kv
    simp only [List.map_cons, List.nodup_cons] at h
    by_cases h0 : k0 = k
    · subst h0
      simpa [appendGroup] using h
    · simp only [appendGroup, h0, if_false, List.map_cons, List.nodup_cons]
      refine ⟨?_, ih h.2⟩
      rw [mem_keys_appendGroup]
      rintro (h1 | h1)
      · exact h0 h1
      · exact h.1 h1

theorem appendGroup_nonempty {K V : Type} [DecidableEq K] (G : List (K × List V)) (k : K) (v : V)
    (h : ∀ kv ∈ G, kv.2 ≠ []) : ∀ kv ∈ appendGroup G k v, kv.2 ≠ [] := by
  induction G with
  | nil => simp [appendGroup]
  | cons kv rest ih =>
    obtain ⟨k0, vs⟩ := kv
    by_cases h0 : k0 = k
    · subst h0
      intro kv hkv
      simp only [appendGroup, if_true, List.mem_cons] at hkv
      rcases hkv with rfl | hkv
      · simp
      · exact h kv (List.mem_cons_of_mem _ hkv)
    · intro kv hkv
      simp only [appendGroup, h0, if_false, List.mem_cons] at hkv
      rcases hkv with rfl | hkv
      · exact h _ (List.mem_cons_self _ _)
      · exact ih (fun kv hkv => h kv (List.mem_cons_of_mem _ hkv)) kv hkv

theorem groupOf_of_mem {K V : Type} [DecidableEq K] (G : List (K × List V))
    (h : (G.map Prod.fst).Nodup) (kv : K × List V) (hkv : kv ∈ G) : groupOf G kv.1 = kv.2 := by
  induction G with
  | nil => simp at hkv
  | cons kv0 rest ih =>
    obtain ⟨k0, vs⟩ := kv0
    simp only [List.map_cons, List.nodup_cons] at h
    rcases List.mem_cons.1 hkv with rfl | hmem
    · simp [groupOf]
    · have : k0 ≠ kv.1 := by
        rintro rfl
        exact h.1 (List.mem_map_of_mem Prod.fst hmem)
      simp [groupOf, this, ih h.2 hmem]

theorem appendGroup_flatten_perm {K V : Type} [DecidableEq K] (G : List (K × List V)) (k : K)
    (v : V) :
    ((appendGroup G k v).flatMap Prod.snd).Perm (G.flatMap Prod.snd ++ [v]) := by
  induction G with
  | nil => simp [appendGroup]
  | cons kv rest ih =>
    obtain ⟨k0, vs⟩ := kv
    by_cases h0 : k0 = k
    · subst h0
      simp only [appendGroup, if_true, List.flatMap_cons, List.append_assoc]
      exact List.Perm.append_left _ List.perm_append_comm
    · simp only [appendGroup, h0, if_false, List.flatMap_cons, List.append_assoc]
      exact List.Perm.append_left _ ih

theorem groupOf_buildGroups {K V : Type} [DecidableEq K] (items : List (K × V))
    (G : List (K × List V)) (k : K) :
    groupOf (buildGroups G items) k
      = groupOf G k ++ (items.filter fun kv => decide (kv.1 = k)).map Prod.snd := by
  induction items generalizing G with
  | nil => simp [buildGroups]
  | cons kv rest ih =>
    have ih' := ih (appendGroup G kv.1 kv.2)
    simp only [buildGroups, List.foldl_cons] at ih' ⊢
    rw [ih', groupOf_appendGroup]
    by_cases h : kv.1 = k <;> simp [h, List.filter_cons]

theorem buildGroups_nodup {K V : Type} [DecidableEq K] (items : List (K × V))
    (G : List (K × List V)) (h : (G.map Prod.fst).Nodup) :
    ((buildGroups G items).map Prod.fst).Nodup := by
  induction items generalizing G with
  | nil => simpa [buildGroups] using h
  | cons kv rest ih =>
    simp only [buildGroups, List.foldl_cons]
    exact ih _ (appendGroup_nodup G kv.1 kv.2 h)

theorem buildGroups_nonempty {K V : Type} [DecidableEq K] (items : List (K × V))
    (G : List (K × List V)) (h : ∀ kv ∈ G, kv.2 ≠ []) :
    ∀ kv ∈ buildGroups G items, kv.2 ≠ [] := by
  induction items generalizing G with
  | nil => simpa [buildGroups] using h
  | cons kv rest ih =>
    simp only [buildGroups, List.foldl_cons]
    exact ih _ (appendGroup_nonempty G kv.1 kv.2 h)

theorem mem_keys_buildGroups {K V : Type} [DecidableEq K] (items : List (K × V))
    (G : List (K × List V)) (k : K) :
    k ∈ (buildGroups G items).map Prod.fst ↔ k ∈ G.map Prod.fst ∨ k ∈ items.map Prod.fst := by
  induction items generalizing G with
  | nil => simp [buildGroups]
  | cons kv rest ih =>
    have ih' := ih (appendGroup G kv.1 kv.2)
    simp only [buildGroups, List.foldl_cons] at ih' ⊢
    rw [ih', mem_keys_appendGroup]
    simp only [List.map_cons, List.mem_cons]
    tauto

theorem buildGroups_flatten_perm {K V : Type} [DecidableEq K] (items : List (K × V))
    (G : List (K × List V)) :
    ((buildGroups G items).flatMap Prod.snd).Perm (G.flatMap Prod.snd ++ items.map Prod.snd) := by
  induction items generalizing G with
  | nil => simp [buildGroups]
  | cons kv rest ih =>
    have ih' := ih (appendGroup G kv.1 kv.2)
    simp only [buildGroups, List.foldl_cons] at ih' ⊢
    refine ih'.trans ?_
    have := (appendGroup_flatten_perm G kv.1 kv.2).append_right (rest.map Prod.snd)
    simpa using this

namespace strings

theorem takeWhile_ne_append (m p : GoString) (sep : Char) (h : sep ∉ m) :
    (m ++ sep :: p).takeWhile (fun c => c != sep) = m := by
  induction m with
  | nil => simp
  | cons a m ih =>
    simp only [List.mem_cons, not_or] at h
    have ha : (a != sep) = true := by simpa using fun e => h.1 e.symm
    simp [List.takeWhile_cons, ha, ih h.2]

theorem dropWhile_ne_append (m p : GoString) (sep : Char) (h : sep ∉ m) :
    (m ++ sep :: p).dropWhile (fun c => c != sep) = sep :: p := by
  induction m with
  | nil => simp
  | cons a m ih =>
    simp only [List.mem_cons, not_or] at h
    have ha : (a != sep) = true := by simpa using fun e => h.1 e.symm
    simp [List.dropWhile_cons, ha, ih h.2]

theorem splitN2_append (m p : GoString) (sep : Char) (h : sep ∉ m) :
    SplitN2 (m ++ sep :: p) sep = [m, p] := by
  have hmem : sep ∈ m ++ sep :: p := by simp
  simp only [SplitN2, hmem, if_true, takeWhile_ne_append m p sep h,
    dropWhile_ne_append m p sep h, List.drop_succ_cons, List.drop_zero]

end strings

namespace cluster

theorem mem_httpEntries (fps : List internal.Fingerprint)
    (e : internal.Fingerprint × internal.HTTPRequest × GoString) :
    e ∈ httpEntries fps ↔ e.1 ∈ fps ∧ e.2.1 ∈ e.1.HTTP ∧ e.2.2 ∈ e.2.1.Path := by
  obtain ⟨fp, http, path⟩ := e
  simp only [httpEntries, List.mem_flatMap, List.mem_map, Prod.mk.injEq]
  constructor
  · rintro ⟨fp', hfp, http', hhttp, path', hpath, rfl, rfl, rfl⟩
    exact ⟨hfp, hhttp, hpath⟩
  · rintro ⟨hfp, hhttp, hpath⟩
    exact ⟨fp, hfp, http, hhttp, path, hpath, rfl, rfl, rfl⟩

theorem groups_eq_foldl_entries (fps : List internal.Fingerprint)
    (g : createHTTPClusters.Groups) :
    fps.foldl
      (fun g fp => fp.HTTP.foldl
        (fun g http => http.Path.foldl (createHTTPClusters.pathStep fp http) g) g) g
      = (httpEntries fps).foldl (fun g e => createHTTPClusters.pathStep e.1 e.2.1 g e.2.2) g := by
  induction fps generalizing g with
  | nil => rfl
  | cons fp rest ih =>
    simp only [List.foldl_cons, httpEntries, List.flatMap_cons, List.foldl_append]
    rw [ih]
    congr 1
    generalize fp.HTTP = hs
    induction hs generalizing g with
    | nil => rfl
    | cons http hs ihh =>
      simp only [List.foldl_cons, List.flatMap_cons, List.foldl_append, List.foldl_map]
      rw [ihh]

theorem pathStep_default (fp : internal.Fingerprint) (http : internal.HTTPRequest)
    (g : createHTTPClusters.Groups) (path : GoString) :
    (createHTTPClusters.pathStep fp http g path).defaultPathGroups
      = if httpEntryDefault (fp, http, path) = true then
          appendGroup g.defaultPathGroups (httpEntryKey (fp, http, path))
            (httpEntryClustered (fp, http, path))
        else g.defaultPathGroups := by
  simp only [createHTTPClusters.pathStep, httpEntryDefault, httpEntryKey, httpEntryClustered]
  split_ifs <;> rfl

theorem pathStep_other (fp : internal.Fingerprint) (http : internal.HTTPRequest)
    (g : createHTTPClusters.Groups) (path : GoString) :
    (createHTTPClusters.pathStep fp http g path).otherPathGroups
      = if (!httpEntryDefault (fp, http, path)) = true then
          appendGroup g.otherPathGroups (httpEntryKey (fp, http, path))
            (httpEntryClustered (fp, http, path))
        else g.otherPathGroups := by
  simp only [createHTTPClusters.pathStep, httpEntryDefault, httpEntryKey, httpEntryClustered]
  split_ifs <;> simp_all

theorem pathStep_favicon (fp : internal.Fingerprint) (http : internal.HTTPRequest)
    (g : createHTTPClusters.Groups) (path : GoString) :
    (createHTTPClusters.pathStep fp http g path).faviconPathGroups
      = if httpEntryFavicon (fp, http, path) = true then
          appendGroup g.faviconPathGroups (httpEntryKey (fp, http, path))
            (httpEntryClustered (fp, http, path))
        else g.faviconPathGroups := by
  simp only [createHTTPClusters.pathStep, httpEntryFavicon, httpEntryKey, httpEntryClustered,
    Bool.or_eq_true, decide_eq_true_eq]
  split_ifs <;> rfl

/-- A projection of the fold of `createHTTPClusters` is the map built from the
entries that pass the test of the bucket. -/
theorem foldl_bucket (proj : createHTTPClusters.Groups → List (GoString × List ClusteredFingerprint))
    (inBucket : internal.Fingerprint × internal.HTTPRequest × GoString → Bool)
    (hstep : ∀ fp http g path, proj (createHTTPClusters.pathStep fp http g path)
      = if inBucket (fp, http, path) = true then
          appendGroup (proj g) (httpEntryKey (fp, http, path)) (httpEntryClustered (fp, http, path))
        else proj g)
    (es : List (internal.Fingerprint × internal.HTTPRequest × GoString))
    (g : createHTTPClusters.Groups) :
    proj (es.foldl (fun g e => createHTTPClusters.pathStep e.1 e.2.1 g e.2.2) g)
      = buildGroups (proj g)
          ((es.filter inBucket).map fun e => (httpEntryKey e, httpEntryClustered e)) := by
  induction es generalizing g with
  | nil => rfl
  | cons e rest ih =>
    obtain ⟨fp, http, path⟩ := e
    simp only [List.foldl_cons]
    rw [ih, hstep]
    by_cases hb : inBucket (fp, http, path) = true
    · simp [hb, List.filter_cons, buildGroups]
    · simp [hb, List.filter_cons]

theorem groups_default (fps : List internal.Fingerprint) :
    (createHTTPClusters.groups fps).defaultPathGroups
      = buildGroups [] (((httpEntries fps).filter httpEntryDefault).map
          fun e => (httpEntryKey e, httpEntryClustered e)) := by
  unfold createHTTPClusters.groups
  rw [groups_eq_foldl_entries]
  exact foldl_bucket (fun g => g.defaultPathGroups) httpEntryDefault pathStep_default _ _

theorem groups_favicon (fps : List internal.Fingerprint) :
    (createHTTPClusters.groups fps).faviconPathGroups
      = buildGroups [] (((httpEntries fps).filter httpEntryFavicon).map
          fun e => (httpEntryKey e, httpEntryClustered e)) := by
  unfold createHTTPClusters.groups
  rw [groups_eq_foldl_entries]
  exact foldl_bucket (fun g => g.faviconPathGroups) httpEntryFavicon pathStep_favicon _ _

theorem groups_other (fps : List internal.Fingerprint) :
    (createHTTPClusters.groups fps).otherPathGroups
      = buildGroups [] (((httpEntries fps).filter fun e => !httpEntryDefault e).map
          fun e => (httpEntryKey e, httpEntryClustered e)) := by
  unfold createHTTPClusters.groups
  rw [groups_eq_foldl_entries]
  exact foldl_bucket (fun g => g.otherPathGroups) (fun e => !httpEntryDefault e) pathStep_other _ _

theorem toClusters_flatten (R : MapRange) (G : List (GoString × List ClusteredFingerprint)) :
    ((createHTTPClusters.toClusters R G).flatMap (fun c => c.Operators)).Perm
      (G.flatMap Prod.snd) := by
  have h : (createHTTPClusters.toClusters R G).flatMap (fun c => c.Operators)
      = (R.order G).flatMap Prod.snd := by
    unfold createHTTPClusters.toClusters
    rw [List.flatMap_map]
  rw [h]
  exact (R.perm G).flatMap_right _

/-- The operators of a bucket, over all its clusters, are the entries that
pass the test of the bucket, up to the order of the clusters. -/
theorem bucket_flatten_perm (R : MapRange)
    (inBucket : internal.Fingerprint × internal.HTTPRequest × GoString → Bool)
    (es : List (internal.Fingerprint × internal.HTTPRequest × GoString)) :
    ((createHTTPClusters.toClusters R (buildGroups []
        ((es.filter inBucket).map fun e => (httpEntryKey e, httpEntryClustered e)))).flatMap
      fun c => c.Operators).Perm ((es.filter inBucket).map httpEntryClustered) := by
  refine (toClusters_flatten R _).trans ?_
  have := buildGroups_flatten_perm
    ((es.filter inBucket).map fun e => (httpEntryKey e, httpEntryClustered e)) []
  simpa [Function.comp] using this

theorem httpEntryKey_decode (e : internal.Fingerprint × internal.HTTPRequest × GoString)
    (h : ':' ∉ e.2.1.Method) :
    strings.SplitN2 (httpEntryKey e) ':' = [e.2.1.Method, normalizePath e.2.2] := by
  have : httpEntryKey e = e.2.1.Method ++ ':' :: normalizePath e.2.2 := by
    simp [httpEntryKey, createHTTPClusters.key]
  rw [this, strings.splitN2_append _ _ _ h]

theorem httpEntryKey_eq_iff (e e' : internal.Fingerprint × internal.HTTPRequest × GoString)
    (h : ':' ∉ e.2.1.Method) (h' : ':' ∉ e'.2.1.Method) :
    httpEntryKey e' = httpEntryKey e
      ↔ e'.2.1.Method = e.2.1.Method ∧ normalizePath e'.2.2 = normalizePath e.2.2 := by
  constructor
  · intro hk
    have h1 := httpEntryKey_decode e h
    have h2 := httpEntryKey_decode e' h'
    rw [hk, h1] at h2
    simp only [List.cons.injEq, and_true] at h2
    exact ⟨h2.1.symm, h2.2.symm⟩
  · rintro ⟨hm, hp⟩
    simp [httpEntryKey, createHTTPClusters.key, hm, hp]

/-- The clusters of a bucket, when no method holds a colon: each cluster holds
the expected operators, and each entry of the bucket has its cluster. -/
theorem bucket_clusters (R : MapRange)
    (inBucket : internal.Fingerprint × internal.HTTPRequest × GoString → Bool)
    (fps : List internal.Fingerprint)
    (h : ∀ fp ∈ fps, ∀ http ∈ fp.HTTP, ':' ∉ http.Method) :
    (∀ c ∈ createHTTPClusters.toClusters R (buildGroups []
        (((httpEntries fps).filter inBucket).map fun e => (httpEntryKey e, httpEntryClustered e))),
      c.Operators = expectedOperators inBucket fps c ∧ c.Operators ≠ []) ∧
    (∀ e ∈ httpEntries fps, inBucket e = true →
      ∃ c ∈ createHTTPClusters.toClusters R (buildGroups []
        (((httpEntries fps).filter inBucket).map fun e => (httpEntryKey e, httpEntryClustered e))),
      c.Method = e.2.1.Method ∧ c.Path = normalizePath e.2.2) := by
  have hcolon : ∀ e ∈ httpEntries fps, ':' ∉ e.2.1.Method := fun e he =>
    h e.1 ((mem_httpEntries fps e).1 he).1 e.2.1 ((mem_httpEntries fps e).1 he).2.1
  set items := ((httpEntries fps).filter inBucket).map
    fun e => (httpEntryKey e, httpEntryClustered e) with hitems
  have hnodup : ((buildGroups [] items).map Prod.fst).Nodup :=
    buildGroups_nodup items [] (by simp)
  constructor
  · intro c hc
    simp only [createHTTPClusters.toClusters, List.mem_map] at hc
    obtain ⟨kv, hkv, rfl⟩ := hc
    replace hkv : kv ∈ buildGroups [] items := (R.perm _).mem_iff.1 hkv
    have hkey : kv.1 ∈ (buildGroups [] items).map Prod.fst := List.mem_map_of_mem Prod.fst hkv
    rw [mem_keys_buildGroups] at hkey
    simp only [List.map_nil, List.not_mem_nil, false_or, hitems, List.map_map, List.mem_map,
      List.mem_filter, Function.comp] at hkey
    obtain ⟨e, ⟨he, _⟩, hek⟩ := hkey
    have hdec := httpEntryKey_decode e (hcolon e he)
    have hops := groupOf_of_mem _ hnodup kv hkv
    rw [groupOf_buildGroups] at hops
    refine ⟨?_, buildGroups_nonempty items [] (by simp) kv hkv⟩
    simp only [expectedOperators, ← hek, hdec, List.getD_cons_zero, List.getD_cons_succ]
    rw [← hops]
    simp only [groupOf, List.nil_append, hitems, List.filter_map, List.map_map, List.filter_filter,
      Function.comp]
    congr 1
    apply List.filter_congr
    intro e' he'
    have := httpEntryKey_eq_iff e e' (hcolon e he) (hcolon e' he')
    by_cases hb : inBucket e' = true
    · by_cases hk : httpEntryKey e' = httpEntryKey e
      · have hk' := this.1 hk
        simp [hb, ← hek, hk, hk'.1, hk'.2]
      · have hk' : ¬ (e'.2.1.Method = e.2.1.Method ∧ normalizePath e'.2.2 = normalizePath e.2.2) :=
          fun hh => hk (this.2 hh)
        have hk2 : ¬ httpEntryKey e' = kv.1 := by rw [← hek]; exact hk
        simp only [hb, hk2, decide_False, Bool.true_and, Bool.and_true, Bool.false_and]
        by_cases hm : e'.2.1.Method = e.2.1.Method
        · have : ¬ normalizePath e'.2.2 = normalizePath e.2.2 := fun hp => hk' ⟨hm, hp⟩
          simp [hm, this]
        · simp [hm]
    · simp [hb]
  · intro e he hb
    have hkey : httpEntryKey e ∈ (buildGroups [] items).map Prod.fst := by
      rw [mem_keys_buildGroups]
      right
      simp only [hitems, List.map_map, List.mem_map, List.mem_filter, Function.comp]
      exact ⟨e, ⟨he, hb⟩, rfl⟩
    obtain ⟨kv, hkv, hk⟩ := List.mem_map.1 hkey
    refine ⟨_, List.mem_map_of_mem _ ((R.perm _).mem_iff.2 hkv), ?_, ?_⟩
    · simp only [hk, httpEntryKey_decode e (hcolon e he), List.getD_cons_zero]
    · simp only [hk, httpEntryKey_decode e (hcolon e he), List.getD_cons_succ,
        List.getD_cons_zero]

end cluster

namespace cluster

/-- Counterexample to C14: a probe with method `A:B` and path `/x` is filed
under the key `A:B:/x`, which is read back as method `A` and path `B:/x`; the
cluster holds the rule although no probe path of the corpus has that method
and that normalized path. -/
theorem createHTTPClusters_colon_method :
    (∀ R : MapRange,
      (createHTTPClusters R colonMethodCorpus).2.2.map
          (fun c => (c.Method, c.Path, c.Operators.map (fun f => f.ID),
            (expectedOperators (fun e => !httpEntryDefault e) colonMethodCorpus c).map
              (fun f => f.ID)))
        = [("A".toList, "B:/x".toList, ["odd".toList], [])]) ∧
    (httpEntries colonMethodCorpus).map (fun e => (e.2.1.Method, normalizePath e.2.2))
      = [("A:B".toList, "/x".toList)] := by
  refine ⟨fun R => ?_, by decide⟩
  have hg : (createHTTPClusters.groups colonMethodCorpus).otherPathGroups
      = [("A:B:/x".toList, [{ ID := "odd".toList }])] := rfl
  simp only [createHTTPClusters, createHTTPClusters.toClusters, hg, MapRange.order_singleton,
    List.map_cons, List.map_nil]
  decide

/-- C14 (amended): when no method of the corpus holds a colon, the operators
of every cluster of WebDefault, WebFavicon and WebOther are exactly the
entries, in corpus order (fingerprint, then probe, then path), of the probe
paths assigned to that bucket whose method and normalized path are the
cluster's `Method` and `Path`; and every probe path assigned to a bucket has a
cluster of that bucket with its method and normalized path. -/
theorem createHTTPClusters_operators_in_corpus_order (R : MapRange)
    (fps : List internal.Fingerprint)
    (h : ∀ fp ∈ fps, ∀ http ∈ fp.HTTP, ':' ∉ http.Method) :
    (∀ c ∈ (createHTTPClusters R fps).1,
      c.Operators = expectedOperators httpEntryDefault fps c) ∧
    (∀ c ∈ (createHTTPClusters R fps).2.1,
      c.Operators = expectedOperators httpEntryFavicon fps c) ∧
    (∀ c ∈ (createHTTPClusters R fps).2.2,
      c.Operators = expectedOperators (fun e => !httpEntryDefault e) fps c) ∧
    (∀ e ∈ httpEntries fps, httpEntryDefault e = true →
      ∃ c ∈ (createHTTPClusters R fps).1,
        c.Method = e.2.1.Method ∧ c.Path = normalizePath e.2.2) ∧
    (∀ e ∈ httpEntries fps, httpEntryFavicon e = true →
      ∃ c ∈ (createHTTPClusters R fps).2.1,
        c.Method = e.2.1.Method ∧ c.Path = normalizePath e.2.2) ∧
    (∀ e ∈ httpEntries fps, httpEntryDefault e = false →
      ∃ c ∈ (createHTTPClusters R fps).2.2,
        c.Method = e.2.1.Method ∧ c.Path = normalizePath e.2.2) := by
  have hd := bucket_clusters R httpEntryDefault fps h
  have hf := bucket_clusters R httpEntryFavicon fps h
  have ho := bucket_clusters R (fun e => !httpEntryDefault e) fps h
  simp only [createHTTPClusters, groups_default, groups_favicon, groups_other]
  refine ⟨fun c hc => (hd.1 c hc).1, fun c hc => (hf.1 c hc).1, fun c hc => (ho.1 c hc).1,
    hd.2, hf.2, fun e he hb => ho.2 e he (by simp [hb])⟩

/-- Witness of C14 on the corpus of three rules, none of whose methods holds a
colon. -/
theorem createHTTPClusters_operators_in_corpus_order_witness :
    (∀ fp ∈ sampleWebCorpus, ∀ http ∈ fp.HTTP, ':' ∉ http.Method) ∧
    (∀ c ∈ (createHTTPClusters insertionMapRange sampleWebCorpus).2.2,
      c.Operators = expectedOperators (fun e => !httpEntryDefault e) sampleWebCorpus c) ∧
    (createHTTPClusters insertionMapRange sampleWebCorpus).2.2.map
        (fun c => (c.Method, c.Path, c.Operators.map (fun f => f.ID)))
      = [("POST".toList, "/wp-login.php".toList, ["wordpress".toList]),
         ("POST".toList, "/".toList, ["wordpress".toList]),
         ("GET".toList, "/favicon.ico".toList, ["fav".toList])] :=
  ⟨by decide,
    (createHTTPClusters_operators_in_corpus_order insertionMapRange sampleWebCorpus
      (by decide)).2.2.1,
    by decide⟩

/-- C15: over all its clusters, WebDefault holds exactly the entries of the
probe paths whose normalized path is `/` and whose method is GET or HEAD, and
WebOther holds exactly the entries of all other probe paths (both up to the
order of the clusters); so every probe path is appended to exactly one of the
two. -/
theorem createHTTPClusters_default_or_other (R : MapRange) (fps : List internal.Fingerprint) :
    (((createHTTPClusters R fps).1.flatMap fun c => c.Operators).Perm
      (((httpEntries fps).filter httpEntryDefault).map httpEntryClustered)) ∧
    (((createHTTPClusters R fps).2.2.flatMap fun c => c.Operators).Perm
      (((httpEntries fps).filter fun e => !httpEntryDefault e).map httpEntryClustered)) ∧
    (∀ e : internal.Fingerprint × internal.HTTPRequest × GoString,
      httpEntryDefault e = true ↔
        normalizePath e.2.2 = "/".toList ∧
          (e.2.1.Method = "GET".toList ∨ e.2.1.Method = "HEAD".toList)) := by
  simp only [createHTTPClusters, groups_default, groups_other]
  refine ⟨bucket_flatten_perm R _ _, bucket_flatten_perm R _ _, fun e => ?_⟩
  simp [httpEntryDefault, isDefaultRootPath, isGetOrHeadMethod]

/-- Counterexample to C16: a GET probe of `/` whose only matcher has type
`word` and a non-empty hash list is appended to a WebFavicon cluster, though
its path is not `/favicon.ico` and none of its matchers has type `favicon`. -/
theorem createHTTPClusters_favicon_by_hash_list :
    (∀ R : MapRange,
      (createHTTPClusters R hashOnlyCorpus).2.1.map
          (fun c => (c.Method, c.Path, c.Operators.map (fun f => f.ID)))
        = [("GET".toList, "/".toList, ["app".toList])]) ∧
    (httpEntries hashOnlyCorpus).map
        (fun e => (normalizePath e.2.2, e.2.1.Matchers.map (fun m => m.Type_)))
      = [("/".toList, ["word".toList])] := by
  refine ⟨fun R => ?_, by decide⟩
  have hg : ∃ ops, (createHTTPClusters.groups hashOnlyCorpus).faviconPathGroups
      = [("GET:/".toList, ops)] ∧ ops.map (fun f => f.ID) = ["app".toList] :=
    ⟨_, rfl, rfl⟩
  obtain ⟨ops, hg, hops⟩ := hg
  simp only [createHTTPClusters, createHTTPClusters.toClusters, hg, MapRange.order_singleton,
    List.map_cons, List.map_nil, hops]
  decide

/-- C16 (amended): over all its clusters, WebFavicon holds exactly the entries
of the probe paths whose normalized path is `/favicon.ico` or one of whose
matchers has type `favicon` or a non-empty list of favicon hashes (up to the
order of the clusters). -/
theorem createHTTPClusters_favicon_bucket (R : MapRange) (fps : List internal.Fingerprint) :
    (((createHTTPClusters R fps).2.1.flatMap fun c => c.Operators).Perm
      (((httpEntries fps).filter httpEntryFavicon).map httpEntryClustered)) ∧
    (∀ e : internal.Fingerprint × internal.HTTPRequest × GoString,
      httpEntryFavicon e = true ↔
        normalizePath e.2.2 = "/favicon.ico".toList ∨
          ∃ m ∈ e.2.1.Matchers, m.Type_ = "favicon".toList ∨ m.Favicon_hash ≠ []) := by
  simp only [createHTTPClusters, groups_favicon]
  refine ⟨bucket_flatten_perm R _ _, fun e => ?_⟩
  simp only [httpEntryFavicon, hasFaviconMatcher, Bool.or_eq_true, decide_eq_true_eq,
    List.any_eq_true, gt_iff_lt, List.length_pos]

end cluster

theorem appendGroup_filter_flatten_perm {K V : Type} [DecidableEq K] (p : K → Bool)
    (G : List (K × List V)) (k : K) (v : V) :
    (((appendGroup G k v).filter fun kv => p kv.1).flatMap Prod.snd).Perm
      ((G.filter fun kv => p kv.1).flatMap Prod.snd ++ if p k = true then [v] else []) := by
  induction G with
  | nil => by_cases hp : p k = true <;> simp [appendGroup, List.filter_cons, hp]
  | cons kv rest ih =>
    obtain ⟨k0, vs⟩ := kv
    by_cases h0 : k0 = k
    · subst h0
      by_cases hp : p k0 = true
      · simp only [appendGroup, if_true, List.filter_cons, hp, List.flatMap_cons,
          List.append_assoc]
        exact List.Perm.append_left _ List.perm_append_comm
      · simp [appendGroup, List.filter_cons, hp]
    · by_cases hp0 : p k0 = true
      · simp only [appendGroup, h0, if_false, List.filter_cons, hp0, if_true, List.flatMap_cons,
          List.append_assoc]
        exact List.Perm.append_left _ ih
      · simp only [appendGroup, h0, if_false, List.filter_cons, hp0]
        exact ih

theorem buildGroups_filter_flatten_perm {K V : Type} [DecidableEq K] (p : K → Bool)
    (items : List (K × V)) (G : List (K × List V)) :
    (((buildGroups G items).filter fun kv => p kv.1).flatMap Prod.snd).Perm
      ((G.filter fun kv => p kv.1).flatMap Prod.snd
        ++ (items.filter fun kv => p kv.1).map Prod.snd) := by
  induction items generalizing G with
  | nil => simp [buildGroups]
  | cons kv rest ih =>
    have ih' := ih (appendGroup G kv.1 kv.2)
    simp only [buildGroups, List.foldl_cons] at ih' ⊢
    refine ih'.trans ?_
    have := (appendGroup_filter_flatten_perm p G kv.1 kv.2).append_right
      ((rest.filter fun kv => p kv.1).map Prod.snd)
    refine this.trans ?_
    by_cases hp : p kv.1 = true <;> simp [List.filter_cons, hp]

namespace cluster

theorem groupOfService_addService
    (G : List (GoString × List ClusteredFingerprint × List GoString)) (n : GoString)
    (f : List ClusteredFingerprint) (p : GoString) (k : GoString) :
    createTCPClusters.groupOfService (createTCPClusters.addService G n f p) k
      = if n = k then
          ((createTCPClusters.groupOfService G k).1 ++ f,
            (createTCPClusters.groupOfService G k).2 ++ [p])
        else createTCPClusters.groupOfService G k := by
  induction G with
  | nil =>
    by_cases h : n = k <;>
      simp [createTCPClusters.addService, createTCPClusters.groupOfService, h]
  | cons ng rest ih =>
    obtain ⟨n0, g⟩ := ng
    by_cases h0 : n0 = n
    · subst h0
      by_cases h : n0 = k <;>
        simp [createTCPClusters.addService, createTCPClusters.groupOfService, h]
    · by_cases h1 : n0 = k
      · subst h1
        have : ¬ n = n0 := fun h => h0 h.symm
        simp [createTCPClusters.addService, createTCPClusters.groupOfService, h0, this]
      · simp [createTCPClusters.addService, createTCPClusters.groupOfService, h0, h1, ih]

theorem mem_keys_addService
    (G : List (GoString × List ClusteredFingerprint × List GoString)) (n : GoString)
    (f : List ClusteredFingerprint) (p : GoString) (k : GoString) :
    k ∈ (createTCPClusters.addService G n f p).map Prod.fst ↔ k = n ∨ k ∈ G.map Prod.fst := by
  induction G with
  | nil => simp [createTCPClusters.addService]
  | cons ng rest ih =>
    obtain ⟨n0, g⟩ := ng
    by_cases h0 : n0 = n
    · subst h0
      simp [createTCPClusters.addService]
    · simp only [createTCPClusters.addService, h0, if_false, List.map_cons, List.mem_cons, ih]
      tauto

theorem addService_nodup
    (G : List (GoString × List ClusteredFingerprint × List GoString)) (n : GoString)
    (f : List ClusteredFingerprint) (p : GoString) (h : (G.map Prod.fst).Nodup) :
    ((createTCPClusters.addService G n f p).map Prod.fst).Nodup := by
  induction G with
  | nil => simp [createTCPClusters.addService]
  | cons ng rest ih =>
    obtain ⟨n0, g⟩ := ng
    simp only [List.map_cons, List.nodup_cons] at h
    by_cases h0 : n0 = n
    · subst h0
      simpa [createTCPClusters.addService] using h
    · simp only [createTCPClusters.addService, h0, if_false, List.map_cons, List.nodup_cons]
      refine ⟨?_, ih h.2⟩
      rw [mem_keys_addService]
      rintro (h1 | h1)
      · exact h0 h1
      · exact h.1 h1

theorem groupOfService_of_mem
    (G : List (GoString × List ClusteredFingerprint × List GoString))
    (h : (G.map Prod.fst).Nodup) (ng : GoString × List ClusteredFingerprint × List GoString)
    (hng : ng ∈ G) : createTCPClusters.groupOfService G ng.1 = ng.2 := by
  induction G with
  | nil => simp at hng
  | cons ng0 rest ih =>
    obtain ⟨n0, g⟩ := ng0
    simp only [List.map_cons, List.nodup_cons] at h
    rcases List.mem_cons.1 hng with rfl | hmem
    · simp [createTCPClusters.groupOfService]
    · have : n0 ≠ ng.1 := by
        rintro rfl
        exact h.1 (List.mem_map_of_mem Prod.fst hmem)
      simp [createTCPClusters.groupOfService, this, ih h.2 hmem]

theorem serviceFold_group
    (L : List ((GoString × GoString) × List ClusteredFingerprint))
    (G : List (GoString × List ClusteredFingerprint × List GoString)) (k : GoString) :
    (createTCPClusters.groupOfService
        (L.foldl (fun g kv => createTCPClusters.addService g kv.1.1 kv.2 kv.1.2) G) k).1
      = (createTCPClusters.groupOfService G k).1
          ++ (L.filter fun kv => decide (kv.1.1 = k)).flatMap Prod.snd := by
  induction L generalizing G with
  | nil => simp
  | cons kv rest ih =>
    simp only [List.foldl_cons]
    rw [ih, groupOfService_addService]
    by_cases h : kv.1.1 = k <;> simp [h, List.filter_cons]

theorem serviceFold_nodup
    (L : List ((GoString × GoString) × List ClusteredFingerprint))
    (G : List (GoString × List ClusteredFingerprint × List GoString))
    (h : (G.map Prod.fst).Nodup) :
    ((L.foldl (fun g kv => createTCPClusters.addService g kv.1.1 kv.2 kv.1.2) G).map
      Prod.fst).Nodup := by
  induction L generalizing G with
  | nil => simpa using h
  | cons kv rest ih =>
    simp only [List.foldl_cons]
    exact ih _ (addService_nodup G _ _ _ h)

theorem mem_keys_serviceFold
    (L : List ((GoString × GoString) × List ClusteredFingerprint))
    (G : List (GoString × List ClusteredFingerprint × List GoString)) (k : GoString) :
    k ∈ (L.foldl (fun g kv => createTCPClusters.addService g kv.1.1 kv.2 kv.1.2) G).map Prod.fst
      ↔ k ∈ G.map Prod.fst ∨ k ∈ L.map fun kv => kv.1.1 := by
  induction L generalizing G with
  | nil => simp
  | cons kv rest ih =>
    simp only [List.foldl_cons]
    rw [ih, mem_keys_addService]
    simp only [List.map_cons, List.mem_cons]
    tauto

theorem mem_tcpEntries (fps : List internal.Fingerprint)
    (e : internal.Fingerprint × internal.TCPRequest) :
    e ∈ tcpEntries fps ↔ e.1 ∈ fps ∧ e.2 ∈ e.1.TCP := by
  obtain ⟨fp, tcp⟩ := e
  simp only [tcpEntries, List.mem_flatMap, List.mem_map, Prod.mk.injEq]
  constructor
  · rintro ⟨fp', hfp, tcp', htcp, rfl, rfl⟩
    exact ⟨hfp, htcp⟩
  · rintro ⟨hfp, htcp⟩
    exact ⟨fp, hfp, tcp, htcp, rfl, rfl⟩

theorem stage1_eq_foldl_entries (fps : List internal.Fingerprint)
    (s : createTCPClusters.Stage1) :
    fps.foldl (fun s fp => fp.TCP.foldl (createTCPClusters.probeStep fp) s) s
      = (tcpEntries fps).foldl (fun s e => createTCPClusters.probeStep e.1 s e.2) s := by
  induction fps generalizing s with
  | nil => rfl
  | cons fp rest ih =>
    simp only [List.foldl_cons, tcpEntries, List.flatMap_cons, List.foldl_append, List.foldl_map]
    rw [ih]
    rfl

theorem stage1_fold (es : List (internal.Fingerprint × internal.TCPRequest))
    (s : createTCPClusters.Stage1) :
    (es.foldl (fun s e => createTCPClusters.probeStep e.1 s e.2) s).servicePortGroups
        = buildGroups s.servicePortGroups
            ((es.filter fun e => !tcpEntryNull e).map
              fun e => ((e.1.Info.Name, e.2.Port), tcpEntryClustered e)) ∧
    (es.foldl (fun s e => createTCPClusters.probeStep e.1 s e.2) s).nullNameFingerprints
        = s.nullNameFingerprints
            ++ (es.filter tcpEntryNull).map fun e => (tcpEntryClustered e, e.2.Port) := by
  induction es generalizing s with
  | nil => simp [buildGroups]
  | cons e rest ih =>
    simp only [List.foldl_cons]
    rw [(ih _).1, (ih _).2]
    by_cases hn : e.2.Name = "null".toList
    · have h2 : tcpEntryNull e = true := decide_eq_true hn
      unfold createTCPClusters.probeStep
      rw [if_pos hn]
      simp [List.filter_cons, h2, tcpEntryClustered]
    · have h2 : tcpEntryNull e = false := decide_eq_false hn
      unfold createTCPClusters.probeStep
      rw [if_neg hn]
      simp [List.filter_cons, h2, tcpEntryClustered, buildGroups]

theorem stage1_servicePortGroups (fps : List internal.Fingerprint) :
    (createTCPClusters.stage1 fps).servicePortGroups
      = buildGroups [] (((tcpEntries fps).filter fun e => !tcpEntryNull e).map
          fun e => ((e.1.Info.Name, e.2.Port), tcpEntryClustered e)) := by
  unfold createTCPClusters.stage1
  rw [stage1_eq_foldl_entries]
  exact (stage1_fold _ _).1

theorem stage1_nullNameFingerprints (fps : List internal.Fingerprint) :
    (createTCPClusters.stage1 fps).nullNameFingerprints
      = ((tcpEntries fps).filter tcpEntryNull).map fun e => (tcpEntryClustered e, e.2.Port) := by
  unfold createTCPClusters.stage1
  rw [stage1_eq_foldl_entries]
  simpa using (stage1_fold (tcpEntries fps) {}).2

end cluster

namespace cluster

/-- Counterexample to C17: the probe is named `ssh`, but its entry is filed in
TCPOther under `OpenSSH`, the name in the info block of its fingerprint,
whatever the iteration order of the maps. -/
theorem createTCPClusters_not_keyed_by_probe_name :
    (∀ (R : MapRange) (S : SliceSort),
      (createTCPClusters R S sshCorpus).1.map
          (fun nc => (nc.1, nc.2.Operators.map (fun f => f.ID)))
        = [("OpenSSH".toList, ["openssh".toList])]) ∧
    (tcpEntries sshCorpus).map (fun e => (e.1.ID, e.2.Name))
      = [("openssh".toList, "ssh".toList)] := by
  refine ⟨fun R S => ?_, by decide⟩
  have hs : ∃ a, (createTCPClusters.stage1 sshCorpus).servicePortGroups = [a]
      ∧ a.1.1 = "OpenSSH".toList ∧ a.2.map (fun f => f.ID) = ["openssh".toList] :=
    ⟨_, rfl, rfl, rfl⟩
  obtain ⟨a, ha, ha1, ha2⟩ := hs
  simp only [createTCPClusters, createTCPClusters.serviceGroups, ha, MapRange.order_singleton,
    List.foldl_cons, List.foldl_nil, createTCPClusters.addService, List.map_cons, List.map_nil,
    ha1, ha2]

/-- C17 (amended): TCPOther is keyed by the name in the info block of the
fingerprint. Its keys are distinct; the cluster under a name holds exactly the
entries of the probes not named `null` of the fingerprints with that name (up
to order, which follows the iteration of a map); every such probe has its
cluster. A TCPNull cluster holds exactly the entries of the probes named
`null` with the cluster's port expression, in corpus order; the ports of the
TCPNull clusters are distinct and every probe named `null` has its cluster. -/
theorem createTCPClusters_keyed_by_info_name (R : MapRange) (S : SliceSort)
    (fps : List internal.Fingerprint) :
    ((createTCPClusters R S fps).1.map Prod.fst).Nodup ∧
    (∀ nc ∈ (createTCPClusters R S fps).1,
      nc.2.Operators.Perm
        (((tcpEntries fps).filter fun e => !tcpEntryNull e && decide (e.1.Info.Name = nc.1)).map
          tcpEntryClustered)) ∧
    (∀ e ∈ tcpEntries fps, tcpEntryNull e = false →
      e.1.Info.Name ∈ (createTCPClusters R S fps).1.map Prod.fst) ∧
    ((createTCPClusters R S fps).2.map fun c => c.Port).Nodup ∧
    (∀ c ∈ (createTCPClusters R S fps).2,
      c.Operators
        = ((tcpEntries fps).filter fun e => tcpEntryNull e && decide (e.2.Port = c.Port)).map
            tcpEntryClustered) ∧
    (∀ e ∈ tcpEntries fps, tcpEntryNull e = true →
      e.2.Port ∈ (createTCPClusters R S fps).2.map fun c => c.Port) := by
  set spg := (createTCPClusters.stage1 fps).servicePortGroups with hspg
  set sg := createTCPClusters.serviceGroups R spg with hsg
  set items := ((tcpEntries fps).filter tcpEntryNull).map
    fun e => (e.2.Port, tcpEntryClustered e) with hitems
  have hnull : (createTCPClusters.stage1 fps).nullNameFingerprints.map
      (fun item => (item.2, item.1)) = items := by
    rw [stage1_nullNameFingerprints, hitems, List.map_map]
    rfl
  have hsgnodup : (sg.map Prod.fst).Nodup := serviceFold_nodup _ [] (by simp)
  have hnpgnodup : ((buildGroups [] items).map Prod.fst).Nodup :=
    buildGroups_nodup items [] (by simp)
  have hother : (createTCPClusters R S fps).1 = (R.order sg).map fun ng =>
      (ng.1, ({ Port := mergePorts S ng.2.2, Rarity := createTCPClusters.rarity ng.2.1,
                Operators := ng.2.1 } : ClusterExecute)) := rfl
  have hnullc : (createTCPClusters R S fps).2 = (R.order (buildGroups [] items)).map fun kv =>
      ({ Port := kv.1, Rarity := createTCPClusters.rarity kv.2, Operators := kv.2 } :
        ClusterExecute) := by
    simp only [createTCPClusters, hnull]
  have hkeys : (createTCPClusters R S fps).1.map Prod.fst = (R.order sg).map Prod.fst := by
    rw [hother, List.map_map]
    rfl
  have hports : (createTCPClusters R S fps).2.map (fun c => c.Port)
      = (R.order (buildGroups [] items)).map Prod.fst := by
    rw [hnullc, List.map_map]
    rfl
  refine ⟨?_, ?_, ?_, ?_, ?_, ?_⟩
  · rw [hkeys]
    exact (((R.perm sg).map Prod.fst).nodup_iff).2 hsgnodup
  · intro nc hnc
    rw [hother] at hnc
    obtain ⟨ng, hng, rfl⟩ := List.mem_map.1 hnc
    have hng' : ng ∈ sg := (R.perm sg).mem_iff.1 hng
    have hgrp := groupOfService_of_mem sg hsgnodup ng hng'
    have hfold := serviceFold_group (R.order spg) [] ng.1
    simp only [createTCPClusters.groupOfService, List.nil_append] at hfold
    have hops : ng.2.1 = ((R.order spg).filter fun kv => decide (kv.1.1 = ng.1)).flatMap
        Prod.snd := by
      rw [← hfold, ← hgrp]
      rfl
    show ng.2.1.Perm _
    rw [hops]
    have h1 : (((R.order spg).filter fun kv => decide (kv.1.1 = ng.1)).flatMap Prod.snd).Perm
        ((spg.filter fun kv => decide (kv.1.1 = ng.1)).flatMap Prod.snd) :=
      ((R.perm spg).filter _).flatMap_right _
    refine h1.trans ?_
    rw [hspg, stage1_servicePortGroups]
    have h2 := buildGroups_filter_flatten_perm (fun k : GoString × GoString => decide (k.1 = ng.1))
      (((tcpEntries fps).filter fun e => !tcpEntryNull e).map
        fun e => ((e.1.Info.Name, e.2.Port), tcpEntryClustered e)) []
    refine h2.trans ?_
    simp only [List.filter_nil, List.flatMap_nil, List.nil_append, List.filter_map, List.map_map,
      List.filter_filter, Function.comp]
    apply List.Perm.of_eq
    congr 1
    apply List.filter_congr
    intro e _
    exact Bool.and_comm _ _
  · intro e he hn
    rw [hkeys]
    refine ((R.perm sg).map Prod.fst).mem_iff.2 ?_
    rw [hsg, createTCPClusters.serviceGroups, mem_keys_serviceFold]
    right
    have hk : (e.1.Info.Name, e.2.Port) ∈ spg.map Prod.fst := by
      rw [hspg, stage1_servicePortGroups, mem_keys_buildGroups]
      right
      simp only [List.map_map, List.mem_map, List.mem_filter, Function.comp]
      exact ⟨e, ⟨he, by simp [hn]⟩, rfl⟩
    obtain ⟨kv, hkv, hkv1⟩ := List.mem_map.1 hk
    refine List.mem_map.2 ⟨kv, (R.perm spg).mem_iff.2 hkv, ?_⟩
    rw [hkv1]
  · rw [hports]
    exact (((R.perm _).map Prod.fst).nodup_iff).2 hnpgnodup
  · intro c hc
    rw [hnullc] at hc
    obtain ⟨kv, hkv, rfl⟩ := List.mem_map.1 hc
    have hkv' : kv ∈ buildGroups [] items := (R.perm _).mem_iff.1 hkv
    have hops := groupOf_of_mem _ hnpgnodup kv hkv'
    rw [groupOf_buildGroups] at hops
    show kv.2 = _
    rw [← hops]
    simp only [groupOf, List.nil_append, hitems, List.filter_map, List.map_map,
      List.filter_filter, Function.comp]
    congr 1
    apply List.filter_congr
    intro e _
    exact Bool.and_comm _ _
  · intro e he hn
    rw [hports]
    refine ((R.perm _).map Prod.fst).mem_iff.2 ?_
    rw [mem_keys_buildGroups]
    right
    simp only [hitems, List.map_map, List.mem_map, List.mem_filter, Function.comp]
    exact ⟨e, ⟨he, hn⟩, rfl⟩

end cluster

namespace scanner

theorem portText_injective (a b : Nat) (h : portText a = portText b) : a = b := by
  have ha : strconv.digitsValue (portText a) = a := by
    rw [portText, strconv.itoa_natCast]
    exact strconv.digitsValue_natDigits _ _ (by omega)
  have hb : strconv.digitsValue (portText b) = b := by
    rw [portText, strconv.itoa_natCast]
    exact strconv.digitsValue_natDigits _ _ (by omega)
  rw [← ha, ← hb, h]

theorem extractValidPorts_portExprText (items : List PortItem) (h : ∀ item ∈ items, item.Short) :
    extractValidPorts (portExprText items) = (items.flatMap PortItem.listed).map portText := by
  rcases List.eq_nil_or_concat items with rfl | ⟨items', last, hitems⟩
  · decide
  · have hne : items.map PortItem.text ≠ [] := by
      rw [hitems]
      simp
    unfold extractValidPorts portExprText strings.Split
    rw [List.splitOn_intercalate _ ',' ?_ hne]
    · rw [List.map_flatMap, List.flatMap_map]
      apply List.flatMap_congr
      intro item hitem
      exact part_text item (h item hitem)
    · intro l hl
      obtain ⟨item, _, rfl⟩ := List.mem_map.1 hl
      exact text_no_comma item

theorem mem_listed (item : PortItem) (p : Nat) :
    p ∈ item.listed ↔
      match item with
      | .single n => p = n
      | .range a b => a ≤ p ∧ p ≤ b ∧ p ≤ a + 20 := by
  cases item with
  | single n => simp [PortItem.listed]
  | range a b =>
    simp only [PortItem.listed, List.mem_range'_1]
    omega

theorem extractValidPorts_nil : extractValidPorts [] = [] := by decide

theorem clusterStep_ne_nil_iff (port : Nat) (nc : GoString × cluster.ClusterExecute) :
    matchTCPOther.clusterStep port nc ≠ [] ↔ portText port ∈ extractValidPorts nc.2.Port := by
  unfold matchTCPOther.clusterStep
  by_cases hp : nc.2.Port = []
  · rw [hp, extractValidPorts_nil]
    simp
  · rw [if_pos hp, ne_eq, ← ne_eq, ← List.length_pos, List.length_pos_iff_exists_mem]
    constructor
    · rintro ⟨info, hinfo⟩
      obtain ⟨p, hp1, hp2⟩ := List.mem_flatMap.1 hinfo
      by_cases hpp : p = strconv.Itoa (port : Int)
      · rw [portText, ← hpp]
        exact hp1
      · simp [hpp] at hp2
    · intro h
      refine ⟨{ Name := nc.1, Cluster := nc.2, Rarity := nc.2.Rarity },
        List.mem_flatMap.2 ⟨portText port, h, ?_⟩⟩
      simp [portText]

/-- C18: port 1500 lies inside the range `1000-2000`, the port expression of
the cluster, but `matchTCPOther` does not select the cluster: it compares
the port with the output of `extractValidPorts`, which lists a range up to
its start plus 20 only. Port 1020 selects the cluster and port 1021 does not.
With this cluster alone in `TCPOther` the method returns no result and
`false`, whatever the target answers. Besides, the cluster on `22,20-25`,
which is what `mergePorts` writes for the expressions `22` and `20-25`, is
selected twice for port 22. -/
theorem matchTCPOther_misses_port_in_range :
    wideRangeCluster.2.Port = "1000-2000".toList ∧
    cluster.denotes wideRangeCluster.2.Port 1500 = true ∧
    (∀ R : MapRange, matchTCPOther.collect R [wideRangeCluster] 1500 = []) ∧
    (∀ (s : Scanner) (t : Target) (candidates : List GoString),
      s.WebCluster.TCPOther = [wideRangeCluster] →
        s.matchTCPOther t 1500 candidates = ([], false)) ∧
    (matchTCPOther.clusterStep 1020 wideRangeCluster).length = 1 ∧
    (matchTCPOther.clusterStep 1021 wideRangeCluster).length = 0 ∧
    (matchTCPOther.clusterStep 22 overlapCluster).length = 2 ∧
    cluster.mergePorts insertionSliceSort ["22".toList, "20-25".toList]
      = overlapCluster.2.Port := by
  have hstep : matchTCPOther.clusterStep 1500 wideRangeCluster = [] :=
    List.length_eq_zero.1 (by decide)
  have hcollect : ∀ R : MapRange, matchTCPOther.collect R [wideRangeCluster] 1500 = [] := by
    intro R
    simp only [matchTCPOther.collect, MapRange.order_singleton, List.flatMap_cons,
      List.flatMap_nil, hstep, List.append_nil]
  refine ⟨rfl, by decide, hcollect, ?_, by decide, by decide, by decide, by decide⟩
  intro s t candidates hs
  unfold Scanner.matchTCPOther
  simp only [hs, hcollect, List.length_nil, if_true]

end scanner

namespace scanner

/-- C19: precise HTTP matching and precise TCP matching return the same
results for every two candidate lists, on every scanner and every target: the
list is handed down to the probe functions and read by none of them. So a
rule that is not in the list still matches: with the list `thinkphp` alone,
the rule `nginx` matches the welcome page and the rule `ssh` the banner. -/
theorem preciseMatch_ignores_candidates (s : Scanner) (t : Target) (urlPort scheme : GoString)
    (c1 c2 : List GoString) :
    s.preciseHTTPMatch t urlPort scheme c1 = s.preciseHTTPMatch t urlPort scheme c2 ∧
    s.preciseTCPMatch t urlPort c1 = s.preciseTCPMatch t urlPort c2 ∧
    (sampleScanner.preciseHTTPMatch sampleTarget [] "http".toList ["thinkphp".toList]).map
        (fun r => r.ID) = ["nginx".toList] ∧
    (sampleScanner.preciseTCPMatch sampleTarget "22".toList ["thinkphp".toList]).map
        (fun r => r.ID) = ["ssh".toList] :=
  ⟨rfl, rfl, rfl, rfl⟩

end scanner

namespace cmd

theorem mem_keys_addFeature (G : List (GoString × List GoString)) (key id k : GoString) :
    k ∈ (addFeature G key id).map Prod.fst ↔ k = key ∨ k ∈ G.map Prod.fst := by
  induction G with
  | nil => simp [addFeature]
  | cons kv rest ih =>
    obtain ⟨k0, ids⟩ := kv
    by_cases h0 : k0 = key
    · subst h0
      simp [addFeature]
    · simp only [addFeature, h0, if_false, List.map_cons, List.mem_cons, ih]
      tauto

theorem addFeature_nodup (G : List (GoString × List GoString)) (key id : GoString)
    (h : (G.map Prod.fst).Nodup) : ((addFeature G key id).map Prod.fst).Nodup := by
  induction G with
  | nil => simp [addFeature]
  | cons kv rest ih =>
    obtain ⟨k0, ids⟩ := kv
    simp only [List.map_cons, List.nodup_cons] at h
    by_cases h0 : k0 = key
    · subst h0
      simpa [addFeature] using h
    · simp only [addFeature, h0, if_false, List.map_cons, List.nodup_cons]
      refine ⟨?_, ih h.2⟩
      rw [mem_keys_addFeature]
      rintro (h1 | h1)
      · exact h0 h1
      · exact h.1 h1

theorem mem_keys_writes (ws : List (GoString × GoString)) (G : List (GoString × List GoString))
    (k : GoString) :
    k ∈ (ws.foldl (fun featureMap kv => addFeature featureMap kv.1 kv.2) G).map Prod.fst
      ↔ k ∈ G.map Prod.fst ∨ k ∈ ws.map Prod.fst := by
  induction ws generalizing G with
  | nil => simp
  | cons kv rest ih =>
    simp only [List.foldl_cons]
    rw [ih, mem_keys_addFeature]
    simp only [List.map_cons, List.mem_cons]
    tauto

theorem writes_nodup (ws : List (GoString × GoString)) (G : List (GoString × List GoString))
    (h : (G.map Prod.fst).Nodup) :
    ((ws.foldl (fun featureMap kv => addFeature featureMap kv.1 kv.2) G).map Prod.fst).Nodup := by
  induction ws generalizing G with
  | nil => simpa using h
  | cons kv rest ih =>
    simp only [List.foldl_cons]
    exact ih _ (addFeature_nodup G _ _ h)

theorem pathKeys_shape (L : Lib) (path key : GoString)
    (h : key ∈ buildFeatureFingerprintMap.pathKeys L path) : FeatureKeyShape L key := by
  unfold buildFeatureFingerprintMap.pathKeys at h
  dsimp only at h
  split_ifs at h with h1 h2
  · rw [List.mem_singleton] at h
    subst h
    exact FeatureKeyShape.rootPath
  · exact absurd h (List.not_mem_nil _)
  · rw [List.mem_singleton] at h
    subst h
    exact FeatureKeyShape.path path
  · exact absurd h (List.not_mem_nil _)

theorem webWordKeys_shape (L : Lib) (part word key : GoString)
    (h : key ∈ buildFeatureFingerprintMap.webWordKeys L part word) : FeatureKeyShape L key := by
  unfold buildFeatureFingerprintMap.webWordKeys at h
  dsimp only at h
  split_ifs at h with h1 h2 h3 h4
  · rw [List.mem_singleton] at h
    subst h
    rw [h2.1]
    exact FeatureKeyShape.headerWord word
  · rw [List.mem_singleton] at h
    subst h
    exact FeatureKeyShape.bodyWord word
  · rw [List.mem_singleton] at h
    subst h
    exact FeatureKeyShape.wordAll word
  · exact absurd h (List.not_mem_nil _)
  · exact absurd h (List.not_mem_nil _)

theorem webRegexKeys_shape (L : Lib) (part regex key : GoString)
    (h : key ∈ buildFeatureFingerprintMap.webRegexKeys L part regex) : FeatureKeyShape L key := by
  unfold buildFeatureFingerprintMap.webRegexKeys at h
  dsimp only at h
  split_ifs at h with h1 h2 h3 h4
  · rw [List.mem_singleton] at h
    subst h
    rw [h2.1]
    exact FeatureKeyShape.headerRegex regex
  · rw [List.mem_singleton] at h
    subst h
    exact FeatureKeyShape.bodyRegex regex
  · rw [List.mem_singleton] at h
    subst h
    exact FeatureKeyShape.regexAll regex
  · exact absurd h (List.not_mem_nil _)
  · exact absurd h (List.not_mem_nil _)

theorem webMatcherKeys_shape (L : Lib) (matcher : internal.Matchers) (key : GoString)
    (h : key ∈ buildFeatureFingerprintMap.webMatcherKeys L matcher) : FeatureKeyShape L key := by
  unfold buildFeatureFingerprintMap.webMatcherKeys at h
  dsimp only at h
  split_ifs at h
  · obtain ⟨n, _, rfl⟩ := List.mem_map.1 h
    exact FeatureKeyShape.status n
  · exact absurd h (List.not_mem_nil _)
  · obtain ⟨word, _, hk⟩ := List.mem_flatMap.1 h
    exact webWordKeys_shape L _ word key hk
  · exact absurd h (List.not_mem_nil _)
  · obtain ⟨regex, _, hk⟩ := List.mem_flatMap.1 h
    exact webRegexKeys_shape L _ regex key hk
  · exact absurd h (List.not_mem_nil _)
  · obtain ⟨hash, _, hk⟩ := List.mem_flatMap.1 h
    split_ifs at hk
    · rw [List.mem_singleton] at hk
      subst hk
      exact FeatureKeyShape.favicon hash
    · exact absurd hk (List.not_mem_nil _)
  · exact absurd h (List.not_mem_nil _)
  · exact absurd h (List.not_mem_nil _)

theorem bannerWordKeys_shape (L : Lib) (p word key : GoString)
    (h : key ∈ buildFeatureFingerprintMap.bannerWordKeys L (strings.TrimSpace p) word) :
    FeatureKeyShape L key := by
  unfold buildFeatureFingerprintMap.bannerWordKeys at h
  dsimp only at h
  split_ifs at h
  · rw [List.mem_singleton] at h
    subst h
    exact FeatureKeyShape.bannerWord p word
  · exact absurd h (List.not_mem_nil _)
  · exact absurd h (List.not_mem_nil _)

theorem bannerRegexKeys_shape (L : Lib) (p regex key : GoString)
    (h : key ∈ buildFeatureFingerprintMap.bannerRegexKeys L (strings.TrimSpace p) regex) :
    FeatureKeyShape L key := by
  unfold buildFeatureFingerprintMap.bannerRegexKeys at h
  dsimp only at h
  split_ifs at h
  · rw [List.mem_singleton] at h
    subst h
    exact FeatureKeyShape.bannerRegex p regex
  · exact absurd h (List.not_mem_nil _)
  · exact absurd h (List.not_mem_nil _)

theorem serviceMatcherKeys_shape (L : Lib) (p : GoString) (matcher : internal.Matchers)
    (key : GoString)
    (h : key ∈ buildFeatureFingerprintMap.serviceMatcherKeys L (strings.TrimSpace p) matcher) :
    FeatureKeyShape L key := by
  unfold buildFeatureFingerprintMap.serviceMatcherKeys at h
  dsimp only at h
  split_ifs at h <;>
    first
    | exact absurd h (List.not_mem_nil _)
    | (obtain ⟨word, _, hk⟩ := List.mem_flatMap.1 h
       first
       | exact bannerWordKeys_shape L p word key hk
       | exact bannerRegexKeys_shape L p word key hk)

theorem extractorKeys_shape (L : Lib) (p : GoString) (extractor : internal.Extractors)
    (key : GoString)
    (h : key ∈ buildFeatureFingerprintMap.extractorKeys L (strings.TrimSpace p) extractor) :
    FeatureKeyShape L key := by
  unfold buildFeatureFingerprintMap.extractorKeys at h
  dsimp only at h
  split_ifs at h
  · obtain ⟨regex, _, hk⟩ := List.mem_flatMap.1 h
    split_ifs at hk
    · rw [List.mem_singleton] at hk
      subst hk
      exact FeatureKeyShape.extractorRegex p regex
    · exact absurd hk (List.not_mem_nil _)
  · exact absurd h (List.not_mem_nil _)

theorem tcpKeys_shape (L : Lib) (req : internal.TCPRequest) (key : GoString)
    (h : key ∈ buildFeatureFingerprintMap.tcpKeys L req) : FeatureKeyShape L key := by
  unfold buildFeatureFingerprintMap.tcpKeys at h
  dsimp only at h
  rcases List.mem_append.1 h with h | h
  · rcases List.mem_append.1 h with h | h
    · split_ifs at h
      · rw [List.mem_singleton] at h
        subst h
        exact FeatureKeyShape.port req.Port
      · exact absurd h (List.not_mem_nil _)
    · obtain ⟨matcher, _, hk⟩ := List.mem_flatMap.1 h
      exact serviceMatcherKeys_shape L req.Port matcher key hk
  · obtain ⟨extractor, _, hk⟩ := List.mem_flatMap.1 h
    exact extractorKeys_shape L req.Port extractor key hk

theorem httpKeys_shape (L : Lib) (req : internal.HTTPRequest) (key : GoString)
    (h : key ∈ buildFeatureFingerprintMap.httpKeys L req) : FeatureKeyShape L key := by
  unfold buildFeatureFingerprintMap.httpKeys at h
  rcases List.mem_append.1 h with h | h
  · obtain ⟨path, _, hk⟩ := List.mem_flatMap.1 h
    exact pathKeys_shape L path key hk
  · obtain ⟨matcher, _, hk⟩ := List.mem_flatMap.1 h
    exact webMatcherKeys_shape L matcher key hk

theorem writes_shape (L : Lib) (web service : List internal.Fingerprint)
    (kv : GoString × GoString) (h : kv ∈ buildFeatureFingerprintMap.writes L web service) :
    FeatureKeyShape L kv.1 := by
  unfold buildFeatureFingerprintMap.writes at h
  rcases List.mem_append.1 h with h | h
  · obtain ⟨fp, _, hk⟩ := List.mem_flatMap.1 h
    obtain ⟨key, hkey, rfl⟩ := List.mem_map.1 hk
    obtain ⟨req, _, hreq⟩ := List.mem_flatMap.1 hkey
    exact httpKeys_shape L req key hreq
  · obtain ⟨fp, _, hk⟩ := List.mem_flatMap.1 h
    split_ifs at hk
    · exact absurd hk (List.not_mem_nil _)
    · obtain ⟨key, hkey, rfl⟩ := List.mem_map.1 hk
      obtain ⟨req, _, hreq⟩ := List.mem_flatMap.1 hkey
      exact tcpKeys_shape L req key hreq

/-- Counterexample to C20: the pattern of a regex extractor goes into the key
as the rule writes it; the payload of the key
`service_extractor_regex:22:OpenSSH_([0-9.]+)` holds capitals and is not its
own lower-cased, trimmed form. The keys of the words of a rule are, and a
port expression is trimmed but keeps its capitals. -/
theorem buildFeatureFingerprintMap_raw_extractor_regex :
    buildFeatureFingerprintMap asciiLib [] extractorCorpus
      = [("port:22".toList, ["openssh".toList]),
         ("service_extractor_regex:22:OpenSSH_([0-9.]+)".toList, ["openssh".toList])] ∧
    (buildFeatureFingerprintMap asciiLib [] extractorCorpus).map
        (fun kv => (keyPayload kv.1,
          decide (asciiLib.ToLower (strings.TrimSpace (keyPayload kv.1)) = keyPayload kv.1)))
      = [("22".toList, true), ("22:OpenSSH_([0-9.]+)".toList, false)] ∧
    buildFeatureFingerprintMap asciiLib titleCorpus []
      = [("path:/".toList, ["nginx".toList]), ("status:200".toList, ["nginx".toList]),
         ("body_word:<title>welcome to nginx!".toList, ["nginx".toList])] ∧
    buildFeatureFingerprintMap asciiLib [] namedPortCorpus
      = [("port:SSH".toList, ["svc".toList])] := by
  decide

/-- C20 (amended): every key of the map returned by
`buildFeatureFingerprintMap` is a tag followed by its payload, where a path, a
word, a pattern of a matcher and a favicon hash enter the payload lower-cased
and trimmed, a status code as a decimal number, and a port expression trimmed
but not lower-cased; the pattern of a `service_extractor_regex` key is not
covered. The keys of the map are distinct. -/
theorem buildFeatureFingerprintMap_key_shapes (L : Lib)
    (webFingerprints serviceFingerprints : List internal.Fingerprint) :
    (∀ kv ∈ buildFeatureFingerprintMap L webFingerprints serviceFingerprints,
      FeatureKeyShape L kv.1) ∧
    ((buildFeatureFingerprintMap L webFingerprints serviceFingerprints).map Prod.fst).Nodup := by
  constructor
  · intro kv hkv
    have hk : kv.1 ∈ (buildFeatureFingerprintMap L webFingerprints serviceFingerprints).map
        Prod.fst := List.mem_map_of_mem Prod.fst hkv
    unfold buildFeatureFingerprintMap at hk
    rw [mem_keys_writes] at hk
    rcases hk with hk | hk
    · simp at hk
    · obtain ⟨w, hw, hw1⟩ := List.mem_map.1 hk
      rw [← hw1]
      exact writes_shape L _ _ w hw
  · exact writes_nodup _ [] (by simp)

end cmd

namespace matcher

theorem matchWords_loop_negative (m : internal.Matchers) (content : GoString)
    (ws : List GoString) (i k : Nat) :
    matchWords.loop { m with Negative := true } content ws i k
      = !matchWords.loop { m with Negative := false } content ws i k := by
  induction ws generalizing i k with
  | nil =>
    unfold matchWords.loop
    by_cases h : (decide (k > 0) && m.Match_all) = true <;> simp [h]
  | cons w rest ih =>
    unfold matchWords.loop
    simp only [ih]
    split_ifs <;> simp

theorem matchWords_negative_aux (L : Lib) (m : internal.Matchers)
    (content : Option GoString) :
    (match content with
      | none => true
      | some content =>
        matchWords.loop { m with Negative := true }
          (if m.CaseInsensitive then L.ToLower content else content) m.Words 0 0)
      = !(match content with
        | none => false
        | some content =>
          matchWords.loop { m with Negative := false }
            (if m.CaseInsensitive then L.ToLower content else content) m.Words 0 0) := by
  cases content with
  | none => rfl
  | some c => exact matchWords_loop_negative m _ _ 0 0

theorem matchWords_negative (L : Lib) (m : internal.Matchers) (resp : HTTPResponse) :
    matchWords L { m with Negative := true } resp
      = !matchWords L { m with Negative := false } resp :=
  matchWords_negative_aux L m _

theorem matchWordsTCP_negative (L : Lib) (m : internal.Matchers) (resp : TCPResponse) :
    matchWordsTCP L { m with Negative := true } resp
      = !matchWordsTCP L { m with Negative := false } resp :=
  matchWords_loop_negative m _ _ 0 0

theorem matchStatus_negative (m : internal.Matchers) (resp : HTTPResponse) :
    matchStatus { m with Negative := true } resp
      = !matchStatus { m with Negative := false } resp := by
  unfold matchStatus
  split_ifs <;> rfl

theorem block_negative (condition : GoString) (hit : Bool) :
    (match isMatcherHit.block condition true (!hit) false with
      | .inl b => b
      | .inr result => result != true)
    = (match isMatcherHit.block condition false hit false with
      | .inl b => b
      | .inr result => result != false) := by
  unfold isMatcherHit.block
  by_cases h1 : condition = "or".toList
  · subst h1
    cases hit <;> rfl
  · by_cases h2 : condition = "and".toList
    · subst h2
      cases hit <;> rfl
    · cases hit <;>
        simp only [h1, h2, if_false, if_true, Bool.not_true, Bool.not_false, Bool.false_eq_true] <;>
        rfl

theorem isMatcherHit_words_only (L : Lib) (m : internal.Matchers) (resp : HTTPResponse)
    (N : Bool) (hf : m.Favicon_hash = []) (hr : m.Regex = []) (hs : m.Status = [])
    (hw : m.Words ≠ []) :
    isMatcherHit L { m with Negative := N } resp
      = (match isMatcherHit.block (if m.Condition = [] then "or".toList else m.Condition) N
          (matchWords L { m with Negative := N } resp) false with
        | .inl b => b
        | .inr result => result != N) := by
  have hw2 : 0 < m.Words.length := List.length_pos.2 hw
  unfold isMatcherHit
  simp only [hf, hr, hs, List.length_nil, gt_iff_lt, lt_self_iff_false, decide_False, hw2,
    decide_True, Bool.false_or, Bool.or_false, Bool.not_true, Bool.false_eq_true, if_false,
    if_true]

theorem isMatcherHit_status_only (L : Lib) (m : internal.Matchers) (resp : HTTPResponse)
    (N : Bool) (hf : m.Favicon_hash = []) (hr : m.Regex = []) (hw : m.Words = [])
    (hs : m.Status ≠ []) :
    isMatcherHit L { m with Negative := N } resp
      = (match isMatcherHit.block (if m.Condition = [] then "or".toList else m.Condition) N
          (matchStatus { m with Negative := N } resp) false with
        | .inl b => b
        | .inr result => result != N) := by
  have hs2 : 0 < m.Status.length := List.length_pos.2 hs
  unfold isMatcherHit
  simp only [hf, hr, hw, List.length_nil, gt_iff_lt, lt_self_iff_false, decide_False, hs2,
    decide_True, Bool.false_or, Bool.or_false, Bool.or_true, Bool.not_true, Bool.false_eq_true,
    if_false, if_true]

theorem isMatcherHitTCP_words_only (L : Lib) (m : internal.Matchers) (resp : TCPResponse)
    (N : Bool) (hr : m.Regex = []) (hw : m.Words ≠ []) :
    isMatcherHitTCP L { m with Negative := N } resp
      = (match isMatcherHit.block (if m.Condition = [] then "or".toList else m.Condition) N
          (matchWordsTCP L { m with Negative := N } resp) false with
        | .inl b => b
        | .inr result => result != N) := by
  have hw2 : 0 < m.Words.length := List.length_pos.2 hw
  unfold isMatcherHitTCP
  simp only [hr, List.length_nil, gt_iff_lt, lt_self_iff_false, decide_False, hw2,
    decide_True, Bool.false_or, Bool.or_false, Bool.not_true, Bool.false_eq_true, if_false,
    if_true]

/-- C21: the flag `negative` is applied twice, once by the sub-clause and once
by the composite, and the two cancel: on the nginx page the word matcher
`nginx` is hit with `negative` unset and with `negative` set, the word matcher
`apache` is hit in neither case, and likewise for a banner. For every matcher
whose only needles are words, or status codes, the result with `negative` set
equals the result with `negative` unset, so it is never its negation. -/
theorem isMatcherHit_negative_cancels :
    isMatcherHit asciiLib nginxWord welcomePage = true ∧
    isMatcherHit asciiLib { nginxWord with Negative := true } welcomePage = true ∧
    isMatcherHit asciiLib apacheWord welcomePage = false ∧
    isMatcherHit asciiLib { apacheWord with Negative := true } welcomePage = false ∧
    isMatcherHitTCP asciiLib sshWord opensshBanner = true ∧
    isMatcherHitTCP asciiLib { sshWord with Negative := true } opensshBanner = true ∧
    (∀ (L : Lib) (m : internal.Matchers) (resp : HTTPResponse),
      m.Favicon_hash = [] → m.Regex = [] → m.Status = [] → m.Words ≠ [] →
        isMatcherHit L { m with Negative := true } resp
          = isMatcherHit L { m with Negative := false } resp) ∧
    (∀ (L : Lib) (m : internal.Matchers) (resp : HTTPResponse),
      m.Favicon_hash = [] → m.Regex = [] → m.Words = [] → m.Status ≠ [] →
        isMatcherHit L { m with Negative := true } resp
          = isMatcherHit L { m with Negative := false } resp) ∧
    (∀ (L : Lib) (m : internal.Matchers) (resp : TCPResponse),
      m.Regex = [] → m.Words ≠ [] →
        isMatcherHitTCP L { m with Negative := true } resp
          = isMatcherHitTCP L { m with Negative := false } resp) := by
  refine ⟨by decide, by decide, by decide, by decide, by decide, by decide, ?_, ?_, ?_⟩
  · intro L m resp hf hr hs hw
    rw [isMatcherHit_words_only L m resp true hf hr hs hw,
      isMatcherHit_words_only L m resp false hf hr hs hw, matchWords_negative]
    exact block_negative _ _
  · intro L m resp hf hr hw hs
    rw [isMatcherHit_status_only L m resp true hf hr hw hs,
      isMatcherHit_status_only L m resp false hf hr hw hs, matchStatus_negative]
    exact block_negative _ _
  · intro L m resp hr hw
    rw [isMatcherHitTCP_words_only L m resp true hr hw,
      isMatcherHitTCP_words_only L m resp false hr hw, matchWordsTCP_negative]
    exact block_negative _ _

theorem matchWords_loop_match_all (m : internal.Matchers) (content : GoString)
    (hneg : m.Negative = false) (hall : m.Match_all = true)
    (hc : m.Condition ≠ "and".toList) (ws : List GoString) (i k : Nat) :
    matchWords.loop m content ws i k
      = (decide (k > 0) || ws.any fun w => strings.Contains content w) := by
  induction ws generalizing i k with
  | nil =>
    unfold matchWords.loop
    rw [hneg, hall]
    by_cases hk : k > 0 <;> simp [hk]
  | cons w rest ih =>
    unfold matchWords.loop
    rw [hall, ih, ih, if_neg hc]
    by_cases hw : strings.Contains content w = true
    · simp [hw]
    · simp [hw]

theorem matchWords_loop_no_condition (m : internal.Matchers) (content : GoString)
    (hneg : m.Negative = false) (hall : m.Match_all = false) (hc : m.Condition = [])
    (ws : List GoString) (i k : Nat) (hi : i + ws.length = m.Words.length) :
    matchWords.loop m content ws i k
      = match ws.getLast? with
        | some w => strings.Contains content w
        | none => false := by
  induction ws generalizing i k with
  | nil =>
    unfold matchWords.loop
    rw [hneg, hall]
    simp
  | cons w rest ih =>
    unfold matchWords.loop
    have hi2 : i + 1 + rest.length = m.Words.length := by
      rw [← hi, List.length_cons]
      omega
    rw [hall, hneg, hc, ih (i + 1) (k + 1) hi2, ih (i + 1) k hi2]
    cases rest with
    | nil =>
      have hlast : i = m.Words.length - 1 := by
        rw [← hi]
        simp
      by_cases hw : strings.Contains content w = true
      · simp [hw, hlast]
      · simp [hw]
    | cons a l =>
      have hlast : ¬ i = m.Words.length - 1 := by
        rw [← hi]
        simp only [List.length_cons]
        omega
      by_cases hw : strings.Contains content w = true
      · simp [hw, hlast, List.getLast?_cons_cons]
      · simp [hw, List.getLast?_cons_cons]

/-- C22: with `match_all` set and the condition `or` or omitted, the word
sub-clause is true as soon as one word occurs: of the words `nginx` and
`apache` the page holds the first only, and `matchWords` returns true; so
does `matchWordsTCP` on a banner that holds `SSH-` and not `dropbear`. Under
the condition `and` both return false. In general, with `negative` unset,
`match_all` set and a condition other than `and`, `matchWordsTCP` is true
exactly when some word of the list occurs in the banner. -/
theorem matchWords_match_all_one_word_suffices :
    strings.Contains welcomePage.Body "nginx".toList = true ∧
    strings.Contains welcomePage.Body "apache".toList = false ∧
    matchWords asciiLib { twoWords with Match_all := true, Condition := "or".toList } welcomePage
      = true ∧
    matchWords asciiLib { twoWords with Match_all := true } welcomePage = true ∧
    matchWords asciiLib { twoWords with Match_all := true, Condition := "and".toList } welcomePage
      = false ∧
    strings.Contains opensshBanner.Response "SSH-".toList = true ∧
    strings.Contains opensshBanner.Response "dropbear".toList = false ∧
    matchWordsTCP asciiLib { twoBannerWords with Match_all := true, Condition := "or".toList }
      opensshBanner = true ∧
    matchWordsTCP asciiLib { twoBannerWords with Match_all := true } opensshBanner = true ∧
    (∀ (L : Lib) (m : internal.Matchers) (resp : TCPResponse),
      m.Negative = false → m.Match_all = true → m.Condition ≠ "and".toList →
        matchWordsTCP L m resp
          = m.Words.any fun w =>
              strings.Contains
                (if m.CaseInsensitive then L.ToLower resp.Response else resp.Response) w) := by
  refine ⟨by decide, by decide, by decide, by decide, by decide, by decide, by decide,
    by decide, by decide, ?_⟩
  intro L m resp hneg hall hc
  unfold matchWordsTCP
  rw [matchWords_loop_match_all m _ hneg hall hc]
  simp

/-- C23: with the condition omitted and `match_all` unset, the word sub-clause
is true only when the last word of the list occurs: of the words `nginx` and
`apache` the page holds the first only, and `matchWords` returns false, while
under the condition `or` it returns true; with the words in the other order
it returns true. The same holds for `matchWordsTCP`: in general, with
`negative` and `match_all` unset and the condition omitted, it is true exactly
when the last word of the list occurs in the banner. -/
theorem matchWords_omitted_condition_differs :
    strings.Contains welcomePage.Body "nginx".toList = true ∧
    matchWords asciiLib twoWords welcomePage = false ∧
    matchWords asciiLib { twoWords with Condition := "or".toList } welcomePage = true ∧
    matchWords asciiLib { twoWords with Words := ["apache".toList, "nginx".toList] } welcomePage
      = true ∧
    strings.Contains opensshBanner.Response "SSH-".toList = true ∧
    matchWordsTCP asciiLib twoBannerWords opensshBanner = false ∧
    matchWordsTCP asciiLib { twoBannerWords with Condition := "or".toList } opensshBanner
      = true ∧
    (∀ (L : Lib) (m : internal.Matchers) (resp : TCPResponse),
      m.Negative = false → m.Match_all = false → m.Condition = [] →
        matchWordsTCP L m resp
          = match m.Words.getLast? with
            | some w =>
              strings.Contains
                (if m.CaseInsensitive then L.ToLower resp.Response else resp.Response) w
            | none => false) := by
  refine ⟨by decide, by decide, by decide, by decide, by decide, by decide, by decide, ?_⟩
  intro L m resp hneg hall hc
  unfold matchWordsTCP
  exact matchWords_loop_no_condition m _ hneg hall hc m.Words 0 0 (by simp)

/-- C26: the status line is written with `string(resp.StatusCode)`, the
character with that code point, and not with the decimal text of the code:
for status 200 with no header and an empty body the text is `HTTP/1.1 `,
the character U+00C8 and two line feeds, and the word matcher with part `all`
on the word `200` does not match. For status 1 the word `1` is found, in the
protocol version. -/
theorem fullResponse_status_is_a_character :
    fullResponse bareReply = "HTTP/1.1 ".toList ++ [Char.ofNat 200] ++ "\n\n".toList ∧
    (statusTextWord 200).Words = ["200".toList] ∧
    matchWords asciiLib (statusTextWord 200) bareReply = false ∧
    matchWords asciiLib { statusTextWord 200 with Part := "response".toList } bareReply = false ∧
    matchWords asciiLib (statusTextWord 1) { StatusCode := 1 } = true := by
  decide

/-- C27: the part is lower-cased before the header map is read, so the header
`Server` of a reply is looked up as `server` and not found: the word matcher
with part `Server` on the word `nginx` does not match the reply whose header
`Server` is `nginx/1.18.0`. It matches when the map holds the name in lower
case. -/
theorem matchWords_header_name_lowercased :
    serverReply.Headers = [("Server".toList, ["nginx/1.18.0".toList])] ∧
    matchWords asciiLib serverHeaderWord serverReply = false ∧
    matchWords asciiLib { serverHeaderWord with Part := "server".toList } serverReply = false ∧
    matchWords asciiLib serverHeaderWord
        { serverReply with Headers := [("server".toList, ["nginx/1.18.0".toList])] } = true := by
  decide

end matcher

namespace matcher

theorem isMatcherHit_and (L : Lib) (m : internal.Matchers) (resp : HTTPResponse)
    (hneg : m.Negative = false) (hc : m.Condition = "and".toList)
    (hneedles : m.Favicon_hash ≠ [] ∨ m.Words ≠ [] ∨ m.Regex ≠ [] ∨ m.Status ≠ []) :
    isMatcherHit L m resp = true ↔
      (m.Favicon_hash ≠ [] → matchFavicon m resp = true) ∧
      (m.Words ≠ [] → matchWords L m resp = true) ∧
      (m.Regex ≠ [] → matchRegex L m resp = true) ∧
      (m.Status ≠ [] → matchStatus m resp = true) := by
  unfold isMatcherHit
  simp only [← List.length_pos] at hneedles ⊢
  generalize matchFavicon m resp = f
  generalize matchWords L m resp = w
  generalize matchRegex L m resp = r
  generalize matchStatus m resp = s
  generalize m.Favicon_hash.length = nf at hneedles ⊢
  generalize m.Words.length = nw at hneedles ⊢
  generalize m.Regex.length = nr at hneedles ⊢
  generalize m.Status.length = ns at hneedles ⊢
  rw [hneg, hc]
  by_cases hf : 0 < nf <;> by_cases hw : 0 < nw <;> by_cases hr : 0 < nr <;>
    by_cases hs : 0 < ns <;> cases f <;> cases w <;> cases r <;> cases s <;>
    simp [isMatcherHit.block, hf, hw, hr, hs] at hneedles ⊢

theorem isMatcherHit_or (L : Lib) (m : internal.Matchers) (resp : HTTPResponse)
    (hneg : m.Negative = false) (hc : m.Condition = "or".toList ∨ m.Condition = []) :
    isMatcherHit L m resp = true ↔
      (m.Favicon_hash ≠ [] ∧ matchFavicon m resp = true) ∨
      (m.Words ≠ [] ∧ matchWords L m resp = true) ∨
      (m.Regex ≠ [] ∧ matchRegex L m resp = true) ∨
      (m.Status ≠ [] ∧ matchStatus m resp = true) := by
  unfold isMatcherHit
  simp only [← List.length_pos]
  generalize matchFavicon m resp = f
  generalize matchWords L m resp = w
  generalize matchRegex L m resp = r
  generalize matchStatus m resp = s
  generalize m.Favicon_hash.length = nf
  generalize m.Words.length = nw
  generalize m.Regex.length = nr
  generalize m.Status.length = ns
  rw [hneg]
  rcases hc with hc | hc <;> rw [hc] <;>
    by_cases hf : 0 < nf <;> by_cases hw : 0 < nw <;> by_cases hr : 0 < nr <;>
    by_cases hs : 0 < ns <;> cases f <;> cases w <;> cases r <;> cases s <;>
    simp [isMatcherHit.block, hf, hw, hr, hs]

theorem isMatcherHitTCP_and (L : Lib) (m : internal.Matchers) (resp : TCPResponse)
    (hneg : m.Negative = false) (hc : m.Condition = "and".toList)
    (hneedles : m.Words ≠ [] ∨ m.Regex ≠ []) :
    isMatcherHitTCP L m resp = true ↔
      (m.Words ≠ [] → matchWordsTCP L m resp = true) ∧
      (m.Regex ≠ [] → matchRegexTCP L m resp = true) := by
  unfold isMatcherHitTCP
  simp only [← List.length_pos] at hneedles ⊢
  generalize matchWordsTCP L m resp = w
  generalize matchRegexTCP L m resp = r
  generalize m.Words.length = nw at hneedles ⊢
  generalize m.Regex.length = nr at hneedles ⊢
  rw [hneg, hc]
  by_cases hw : 0 < nw <;> by_cases hr : 0 < nr <;> cases w <;> cases r <;>
    simp [isMatcherHit.block, hw, hr] at hneedles ⊢

theorem isMatcherHitTCP_or (L : Lib) (m : internal.Matchers) (resp : TCPResponse)
    (hneg : m.Negative = false) (hc : m.Condition = "or".toList ∨ m.Condition = []) :
    isMatcherHitTCP L m resp = true ↔
      (m.Words ≠ [] ∧ matchWordsTCP L m resp = true) ∨
      (m.Regex ≠ [] ∧ matchRegexTCP L m resp = true) := by
  unfold isMatcherHitTCP
  simp only [← List.length_pos]
  generalize matchWordsTCP L m resp = w
  generalize matchRegexTCP L m resp = r
  generalize m.Words.length = nw
  generalize m.Regex.length = nr
  rw [hneg]
  rcases hc with hc | hc <;> rw [hc] <;>
    by_cases hw : 0 < nw <;> by_cases hr : 0 < nr <;> cases w <;> cases r <;>
    simp [isMatcherHit.block, hw, hr]

/-- C24: for a matcher with `negative` unset and at least one non-empty needle
list, `isMatcherHit` returns true under the condition `and` exactly when every
present sub-clause (favicon, word, regex, status) is true, and under the
condition `or` or an omitted condition exactly when at least one present
sub-clause is true. `isMatcherHitTCP` does the same with its two sub-clauses
(word, regex) when one of them is present. -/
theorem isMatcherHit_combines_subclauses (L : Lib) (m : internal.Matchers)
    (resp : HTTPResponse) (tcpResp : TCPResponse) (hneg : m.Negative = false)
    (hneedles : m.Favicon_hash ≠ [] ∨ m.Words ≠ [] ∨ m.Regex ≠ [] ∨ m.Status ≠ []) :
    (m.Condition = "and".toList →
      (isMatcherHit L m resp = true ↔
        (m.Favicon_hash ≠ [] → matchFavicon m resp = true) ∧
        (m.Words ≠ [] → matchWords L m resp = true) ∧
        (m.Regex ≠ [] → matchRegex L m resp = true) ∧
        (m.Status ≠ [] → matchStatus m resp = true))) ∧
    (m.Condition = "or".toList ∨ m.Condition = [] →
      (isMatcherHit L m resp = true ↔
        (m.Favicon_hash ≠ [] ∧ matchFavicon m resp = true) ∨
        (m.Words ≠ [] ∧ matchWords L m resp = true) ∨
        (m.Regex ≠ [] ∧ matchRegex L m resp = true) ∨
        (m.Status ≠ [] ∧ matchStatus m resp = true))) ∧
    (m.Condition = "and".toList → m.Words ≠ [] ∨ m.Regex ≠ [] →
      (isMatcherHitTCP L m tcpResp = true ↔
        (m.Words ≠ [] → matchWordsTCP L m tcpResp = true) ∧
        (m.Regex ≠ [] → matchRegexTCP L m tcpResp = true))) ∧
    (m.Condition = "or".toList ∨ m.Condition = [] →
      (isMatcherHitTCP L m tcpResp = true ↔
        (m.Words ≠ [] ∧ matchWordsTCP L m tcpResp = true) ∨
        (m.Regex ≠ [] ∧ matchRegexTCP L m tcpResp = true))) :=
  ⟨fun hc => isMatcherHit_and L m resp hneg hc hneedles,
    fun hc => isMatcherHit_or L m resp hneg hc,
    fun hc hn => isMatcherHitTCP_and L m tcpResp hneg hc hn,
    fun hc => isMatcherHitTCP_or L m tcpResp hneg hc⟩

/-- Witness of C24: the matcher with the word `nginx` and the status 404 under
the condition `and`, on the nginx page answered with status 200: the word
sub-clause is true, the status sub-clause is false, and the matcher is not
hit. -/
theorem isMatcherHit_combines_subclauses_witness :
    wordAndStatus.Negative = false ∧
    matchWords asciiLib wordAndStatus welcomePage = true ∧
    matchStatus wordAndStatus welcomePage = false ∧
    isMatcherHit asciiLib wordAndStatus welcomePage = false ∧
    (isMatcherHit asciiLib wordAndStatus welcomePage = true ↔
      (wordAndStatus.Favicon_hash ≠ [] → matchFavicon wordAndStatus welcomePage = true) ∧
      (wordAndStatus.Words ≠ [] → matchWords asciiLib wordAndStatus welcomePage = true) ∧
      (wordAndStatus.Regex ≠ [] → matchRegex asciiLib wordAndStatus welcomePage = true) ∧
      (wordAndStatus.Status ≠ [] → matchStatus wordAndStatus welcomePage = true)) :=
  ⟨rfl, by decide, by decide, by decide,
    (isMatcherHit_combines_subclauses asciiLib wordAndStatus welcomePage opensshBanner rfl
      (Or.inr (Or.inl (by decide)))).1 rfl⟩

end matcher

namespace cluster

theorem addRange_returns (fuel : Nat) (m : Int) (result : List Nat) (r : PortRangeSet)
    (hr : r.End < 65535) (hfuel : 65536 ≤ fuel) :
    ∃ ports, GetAllPorts.addRange fuel m result r = some ports := by
  unfold GetAllPorts.addRange
  simp only
  split
  · exact ⟨_, rfl⟩
  · exact ⟨_, rangeLoop_eq fuel r.Start r.End result hr (by omega)⟩

theorem ranges_returns (fuel : Nat) (m : Int) (rs : List PortRangeSet) (result : List Nat)
    (hrs : ∀ r ∈ rs, r.End < 65535) (hfuel : 65536 ≤ fuel) :
    ∃ ports, GetAllPorts.ranges fuel m rs result = some ports := by
  induction rs generalizing result with
  | nil => exact ⟨result, rfl⟩
  | cons r rs ih =>
    obtain ⟨ports, hports⟩ :=
      addRange_returns fuel m result r (hrs r (List.mem_cons_self _ _)) hfuel
    rw [GetAllPorts.ranges, hports]
    exact ih ports fun x hx => hrs x (List.mem_cons_of_mem _ hx)

/-- C28: `GetAllPorts` does not return on a range that ends at 65535 and is
not longer than the cap: on the port set `65535-65535` with the cap 1 the
loop over the range has not ended after any number of steps, and the same
holds for every range `start-65535` whose size, computed in `uint16`, is at
most the cap. For a port set none of whose ranges ends at 65535 the method
returns for every cap. -/
theorem getAllPorts_top_range_never_returns :
    (∀ fuel : Nat, topPort.GetAllPorts fuel 1 = none) ∧
    (∀ (fuel start : Nat) (maxRangeSize : Int), start < 65536 →
      (((65535 + 65536 - start + 1) % 65536 : Nat) : Int) ≤ maxRangeSize →
        PortRange.GetAllPorts fuel { Single := [], Range := [{ Start := start, End := 65535 }] }
          maxRangeSize = none) ∧
    (∀ (pr : PortRange) (maxRangeSize : Int), pr.WF → (∀ r ∈ pr.Range, r.End ≠ 65535) →
      ∃ ports, pr.GetAllPorts 65536 maxRangeSize = some ports) := by
  have h2 : ∀ (fuel start : Nat) (maxRangeSize : Int), start < 65536 →
      (((65535 + 65536 - start + 1) % 65536 : Nat) : Int) ≤ maxRangeSize →
        PortRange.GetAllPorts fuel { Single := [], Range := [{ Start := start, End := 65535 }] }
          maxRangeSize = none := by
    intro fuel start m hstart hsize
    simp only [PortRange.GetAllPorts, GetAllPorts.ranges, GetAllPorts.addRange]
    rw [if_neg (by omega)]
    rw [rangeLoop_end_max fuel start [] hstart]
  refine ⟨fun fuel => h2 fuel 65535 1 (by decide) (by decide), h2, ?_⟩
  intro pr m hwf hend
  refine ranges_returns 65536 m pr.Range pr.Single ?_ (le_refl _)
  intro r hr
  have h1 := hwf.2 r hr
  have h3 := hend r hr
  omega

end cluster

namespace internal

theorem regexLoop_eq_firstMarked (L : Lib) (weights : GoString → ℚ) (ps : List GoString) :
    CalculateMatcherConfidence.regexLoop L weights (weights "default".toList) ps
      = firstMarkedWeight L titleAnywhere weights ps := by
  induction ps with
  | nil => rfl
  | cons p rest ih =>
    unfold CalculateMatcherConfidence.regexLoop firstMarkedWeight
    by_cases h1 : strings.Contains (L.ToLower p) "server:".toList = true
    · simp only [List.find?_cons, h1, Bool.true_or, if_true]
    · by_cases h2 : strings.Contains (L.ToLower p) "title".toList = true
      · simp only [List.find?_cons, h1, h2, titleAnywhere, Bool.or_true, if_true, if_false,
          Bool.false_eq_true]
      · have h3 : (strings.Contains (L.ToLower p) "server:".toList
            || titleAnywhere (L.ToLower p)) = false := by
          simp only [titleAnywhere, Bool.or_eq_false_iff]
          exact ⟨by simpa using h1, by simpa using h2⟩
        rw [if_neg h1, if_neg h2, ih]
        simp only [List.find?_cons, h3]
        rfl

theorem firstMarkedWeight_cases (L : Lib) (titleMarker : GoString → Bool)
    (weights : GoString → ℚ) (ps : List GoString) :
    firstMarkedWeight L titleMarker weights ps = weights "server".toList
      ∨ firstMarkedWeight L titleMarker weights ps = weights "title".toList
      ∨ firstMarkedWeight L titleMarker weights ps = weights "default".toList := by
  unfold firstMarkedWeight
  split
  · exact Or.inr (Or.inr rfl)
  · split
    · exact Or.inl rfl
    · exact Or.inr (Or.inl rfl)

theorem firstMarkedWeight_in_range (L : Lib) (titleMarker : GoString → Bool)
    (config : ConfidenceConfig) (hrange : regexWeightsInRange config) (ps : List GoString) :
    config.MinConfidence ≤ firstMarkedWeight L titleMarker config.MatcherWeights.Regex ps
      ∧ firstMarkedWeight L titleMarker config.MatcherWeights.Regex ps
        ≤ config.MaxConfidence := by
  rcases firstMarkedWeight_cases L titleMarker config.MatcherWeights.Regex ps with h | h | h <;>
    rw [h]
  · exact hrange _ (by simp)
  · exact hrange _ (by simp)
  · exact hrange _ (by simp)

theorem calculateMatcherConfidence_regex (L : Lib) (m : Matchers) (content : GoString)
    (headers : List (GoString × List GoString)) (config : ConfidenceConfig)
    (hrange : regexWeightsInRange config) (ht : L.ToLower m.Type_ = "regex".toList) :
    CalculateMatcherConfidence L m content headers config
      = firstMarkedWeight L titleAnywhere config.MatcherWeights.Regex m.Regex := by
  have hr := firstMarkedWeight_in_range L titleAnywhere config hrange m.Regex
  unfold CalculateMatcherConfidence
  simp only [ht, if_neg (show ¬ ("regex".toList = "favicon".toList) by decide), if_true,
    regexLoop_eq_firstMarked, gt_iff_lt, if_neg (not_lt.2 hr.1), if_neg (not_lt.2 hr.2)]

end internal

namespace scanner

open internal

theorem special_eq_find (L : Lib) (weights : GoString → ℚ) (ps : List GoString) :
    probeHttpService.special L weights 0 ps
      = match ps.find? fun p =>
            strings.Contains (L.ToLower p) "server:".toList || titleTag (L.ToLower p) with
        | none => 0
        | some p =>
          if strings.Contains (L.ToLower p) "server:".toList then weights "server".toList
          else weights "title".toList := by
  induction ps with
  | nil => rfl
  | cons p rest ih =>
    unfold probeHttpService.special
    by_cases h1 : strings.Contains (L.ToLower p) "server:".toList = true
    · simp only [List.find?_cons, h1, Bool.true_or, if_true]
    · by_cases h2 : (strings.Contains (L.ToLower p) "<title".toList
          || strings.Contains (L.ToLower p) "title>".toList) = true
      · simp only [List.find?_cons, h1, h2, titleTag, Bool.or_true, if_true, if_false,
          Bool.false_eq_true]
      · have h3 : (strings.Contains (L.ToLower p) "server:".toList
            || titleTag (L.ToLower p)) = false := by
          simp only [titleTag, Bool.or_eq_false_iff]
          exact ⟨by simpa using h1, by simpa using h2⟩
        rw [if_neg h1, if_neg h2, ih]
        simp only [List.find?_cons, h3]

theorem probeHttp_confidence_regex (L : Lib) (m : Matchers) (config : ConfidenceConfig)
    (hrange : regexWeightsInRange config) (hmin : 0 < config.MinConfidence)
    (ht : m.Type_ = "regex".toList) :
    probeHttpService.confidence L config [m]
      = firstMarkedWeight L titleTag config.MatcherWeights.Regex m.Regex := by
  have hr := firstMarkedWeight_in_range L titleTag config hrange m.Regex
  have hstep : probeHttpService.confidenceStep L config 0 m
      = firstMarkedWeight L titleTag config.MatcherWeights.Regex m.Regex := by
    unfold probeHttpService.confidenceStep
    rw [ht, if_neg (show ¬ ("regex".toList = "word".toList) by decide), if_pos rfl,
      special_eq_find]
    unfold firstMarkedWeight
    cases hfind : m.Regex.find? fun p =>
        strings.Contains (L.ToLower p) "server:".toList || titleTag (L.ToLower p) with
    | none => simp
    | some p =>
      simp only
      have hpos : ∀ k ∈ ["server".toList, "title".toList, "default".toList],
          config.MatcherWeights.Regex k ≠ 0 := by
        intro k hk
        have := (hrange k hk).1
        exact ne_of_gt (lt_of_lt_of_le hmin this)
      by_cases hs : strings.Contains (L.ToLower p) "server:".toList = true
      · simp only [hs, if_true]
        rw [if_neg (hpos _ (by simp))]
      · simp only [hs, if_false, Bool.false_eq_true]
        rw [if_neg (hpos _ (by simp))]
  unfold probeHttpService.confidence
  simp only [List.foldl_cons, List.foldl_nil, hstep]
  rw [if_neg (not_lt.2 hr.1)]

theorem standardWeights_in_range : regexWeightsInRange standardWeights := by
  intro k hk
  simp only [List.mem_cons, List.mem_singleton, List.not_mem_nil, or_false] at hk
  have h1 : standardWeights.MatcherWeights.Regex "server".toList = 8 / 10 := rfl
  have h2 : standardWeights.MatcherWeights.Regex "title".toList = 7 / 10 := rfl
  have h3 : standardWeights.MatcherWeights.Regex "default".toList = 6 / 10 := rfl
  have h4 : standardWeights.MinConfidence = 1 / 10 := rfl
  have h5 : standardWeights.MaxConfidence = 1 := rfl
  rcases hk with rfl | rfl | rfl
  · rw [h1, h4, h5]
    constructor <;> norm_num
  · rw [h2, h4, h5]
    constructor <;> norm_num
  · rw [h3, h4, h5]
    constructor <;> norm_num

/-- Counterexample to C25: with the default weight table, the matcher whose
patterns are a title tag followed by `server: nginx` gets the weight `title`
(0.7), though one of its patterns holds `server:`; with the patterns in the
other order it gets the weight `server` (0.8). The same holds for the
confidence block of `probeHttpService`. In `CalculateMatcherConfidence` a
pattern that holds the text `title` without a title tag gets the weight
`title` too. -/
theorem confidence_depends_on_pattern_order :
    regexWeightsInRange standardWeights ∧
    CalculateMatcherConfidence asciiLib titleThenServer [] [] standardWeights = 7 / 10 ∧
    CalculateMatcherConfidence asciiLib serverThenTitle [] [] standardWeights = 8 / 10 ∧
    probeHttpService.confidence asciiLib standardWeights [titleThenServer] = 7 / 10 ∧
    probeHttpService.confidence asciiLib standardWeights [serverThenTitle] = 8 / 10 ∧
    CalculateMatcherConfidence asciiLib subtitlePattern [] [] standardWeights = 7 / 10 ∧
    probeHttpService.confidence asciiLib standardWeights [subtitlePattern] = 6 / 10 := by
  have hmin : 0 < standardWeights.MinConfidence := by
    have : standardWeights.MinConfidence = 1 / 10 := rfl
    rw [this]
    norm_num
  refine ⟨standardWeights_in_range, ?_, ?_, ?_, ?_, ?_, ?_⟩
  · rw [calculateMatcherConfidence_regex asciiLib titleThenServer [] [] standardWeights
      standardWeights_in_range rfl]
    rfl
  · rw [calculateMatcherConfidence_regex asciiLib serverThenTitle [] [] standardWeights
      standardWeights_in_range rfl]
    rfl
  · rw [probeHttp_confidence_regex asciiLib titleThenServer standardWeights
      standardWeights_in_range hmin rfl]
    rfl
  · rw [probeHttp_confidence_regex asciiLib serverThenTitle standardWeights
      standardWeights_in_range hmin rfl]
    rfl
  · rw [calculateMatcherConfidence_regex asciiLib subtitlePattern [] [] standardWeights
      standardWeights_in_range rfl]
    rfl
  · rw [probeHttp_confidence_regex asciiLib subtitlePattern standardWeights
      standardWeights_in_range hmin rfl]
    rfl

/-- C25 (amended): for every regex matcher and every weight table whose
weights `server`, `title` and `default` for patterns lie between
`min_confidence` and `max_confidence`, the confidence is selected by the
first pattern of the list, in list order, whose lower-cased text holds
`server:` or a title marker: the weight `server` if that pattern holds
`server:`, the weight `title` otherwise, and the weight `default` when no
pattern holds a marker. The title marker is the text `title` in
`CalculateMatcherConfidence`, and `<title` or `title>` in the confidence block
of `probeHttpService` (for a fingerprint with that matcher alone and a
positive `min_confidence`). -/
theorem confidence_of_first_marked_pattern (L : Lib) (m : Matchers) (content : GoString)
    (headers : List (GoString × List GoString)) (config : ConfidenceConfig)
    (hrange : regexWeightsInRange config) :
    (L.ToLower m.Type_ = "regex".toList →
      CalculateMatcherConfidence L m content headers config
        = firstMarkedWeight L titleAnywhere config.MatcherWeights.Regex m.Regex) ∧
    (m.Type_ = "regex".toList → 0 < config.MinConfidence →
      probeHttpService.confidence L config [m]
        = firstMarkedWeight L titleTag config.MatcherWeights.Regex m.Regex) :=
  ⟨fun ht => calculateMatcherConfidence_regex L m content headers config hrange ht,
    fun ht hmin => probeHttp_confidence_regex L m config hrange hmin ht⟩

/-- Witness of C25: the default weight table and the matcher whose first
pattern holds `server:`. -/
theorem confidence_of_first_marked_pattern_witness :
    regexWeightsInRange standardWeights ∧
    CalculateMatcherConfidence asciiLib serverThenTitle [] [] standardWeights
      = firstMarkedWeight asciiLib titleAnywhere standardWeights.MatcherWeights.Regex
          serverThenTitle.Regex ∧
    firstMarkedWeight asciiLib titleAnywhere standardWeights.MatcherWeights.Regex
        serverThenTitle.Regex = 8 / 10 :=
  ⟨standardWeights_in_range,
    (confidence_of_first_marked_pattern asciiLib serverThenTitle [] [] standardWeights
      standardWeights_in_range).1 rfl,
    rfl⟩

end scanner

namespace cluster

open scanner

theorem digitsValue_itoa (n : Nat) : strconv.digitsValue (strconv.Itoa (n : Int)) = n := by
  rw [strconv.itoa_natCast]
  exact strconv.digitsValue_natDigits _ _ (by omega)

theorem parsePortItem_text (item : PortItem) : parsePortItem item.text = some item := by
  cases item with
  | single n =>
    have hno : '-' ∉ strconv.Itoa (n : Int) := itoa_not_mem n '-' (by decide)
    simp only [PortItem.text, parsePortItem, hno, if_false, strconv.isDigits_itoa n, if_true,
      digitsValue_itoa]
  | range a b =>
    have hno : '-' ∉ strconv.Itoa (a : Int) := itoa_not_mem a '-' (by decide)
    have hmem : '-' ∈ strconv.Itoa (a : Int) ++ '-' :: strconv.Itoa (b : Int) := by simp
    simp only [PortItem.text, parsePortItem, hmem, if_true,
      strings.takeWhile_ne_append _ _ _ hno, strings.dropWhile_ne_append _ _ _ hno,
      List.drop_succ_cons, List.drop_zero, strconv.isDigits_itoa, Bool.and_self,
      digitsValue_itoa]

theorem parsePortExpr_text (items : List PortItem) :
    parsePortExpr (portExprText items) = items := by
  rcases List.eq_nil_or_concat items with rfl | ⟨items', last, hitems⟩
  · decide
  · have hne : items.map PortItem.text ≠ [] := by
      rw [hitems]
      simp
    unfold parsePortExpr portExprText
    rw [List.splitOn_intercalate _ ',' ?_ hne]
    · rw [List.filterMap_map]
      have : (parsePortItem ∘ PortItem.text) = some := by
        funext item
        exact parsePortItem_text item
      rw [this, List.filterMap_some]
    · intro l hl
      obtain ⟨item, _, rfl⟩ := List.mem_map.1 hl
      exact text_no_comma item

theorem denotes_text (items : List PortItem) (p : Nat) :
    denotes (portExprText items) p = true ↔ ∃ item ∈ items, item.holds p = true := by
  unfold denotes
  rw [parsePortExpr_text, List.any_eq_true]

end cluster

namespace cluster

open scanner

theorem digitChar_not_space : ∀ k < 10, unicode.IsSpace (Nat.digitChar k) = false := by decide

theorem natDigits_not_space (fuel n : Nat) :
    ∀ c ∈ strconv.natDigits fuel n, unicode.IsSpace c = false := by
  induction fuel generalizing n with
  | zero => intro c hc; simp [strconv.natDigits] at hc
  | succ fuel ih =>
    intro c hc
    rw [strconv.natDigits] at hc
    split at hc
    · rename_i hn
      rw [List.mem_singleton] at hc
      rw [hc]
      exact digitChar_not_space n hn
    · rcases List.mem_append.1 hc with h | h
      · exact ih _ c h
      · rw [List.mem_singleton] at h
        rw [h]
        exact digitChar_not_space _ (Nat.mod_lt _ (by decide))

theorem itoa_not_space (n : Nat) : ∀ c ∈ strconv.Itoa (n : Int), unicode.IsSpace c = false := by
  rw [strconv.itoa_natCast]
  exact natDigits_not_space _ _

theorem trimSpace_of_no_space (s : GoString) (h : ∀ c ∈ s, unicode.IsSpace c = false) :
    strings.TrimSpace s = s := by
  unfold strings.TrimSpace
  have h1 : s.dropWhile unicode.IsSpace = s := by
    rw [List.dropWhile_eq_self_iff]
    intro hl
    have := h _ (List.get_mem s 0 hl)
    simpa using this
  rw [h1, List.rdropWhile_eq_self_iff]
  intro hl
  have := h _ (List.getLast_mem hl)
  simpa using this

theorem text_not_space (item : PortItem) : ∀ c ∈ item.text, unicode.IsSpace c = false := by
  cases item with
  | single n => exact itoa_not_space n
  | range a b =>
    intro c hc
    simp only [PortItem.text, List.mem_append, List.mem_cons] at hc
    rcases hc with h | rfl | h
    · exact itoa_not_space a c h
    · decide
    · exact itoa_not_space b c h

theorem partStep_text (st : List Int × List (Int × Int)) (item : PortItem)
    (h : item.FitsInt) :
    mergePorts.partStep st item.text = (st.1 ++ itemSingles [item], st.2 ++ itemRanges [item]) := by
  unfold mergePorts.partStep
  rw [trimSpace_of_no_space _ (text_not_space item)]
  cases item with
  | single n =>
    have hc : strings.Contains (strconv.Itoa (n : Int)) "-".toList = false := by
      rw [← Bool.not_eq_true]
      change ¬ strings.Contains (strconv.Itoa (n : Int)) ['-'] = true
      rw [contains_singleton_iff]
      exact itoa_not_mem n '-' (by decide)
    simp only [PortItem.text, hc, Bool.false_eq_true, if_false, strconv.atoi_itoa n h,
      itemSingles, itemRanges, List.append_nil]
  | range a b =>
    have hc : strings.Contains (strconv.Itoa (a : Int) ++ '-' :: strconv.Itoa (b : Int))
        "-".toList = true := by
      change strings.Contains _ ['-'] = true
      rw [contains_singleton_iff]
      simp
    simp only [PortItem.text, hc, if_true,
      strings.splitN2_append _ _ '-' (itoa_not_mem a '-' (by decide)),
      strconv.atoi_itoa a h.1, strconv.atoi_itoa b h.2, itemSingles, itemRanges,
      List.append_nil]

theorem itemSingles_append (xs ys : List PortItem) :
    itemSingles (xs ++ ys) = itemSingles xs ++ itemSingles ys := by
  induction xs with
  | nil => rfl
  | cons x xs ih => cases x <;> simp [itemSingles, ih]

theorem itemRanges_append (xs ys : List PortItem) :
    itemRanges (xs ++ ys) = itemRanges xs ++ itemRanges ys := by
  induction xs with
  | nil => rfl
  | cons x xs ih => cases x <;> simp [itemRanges, ih]

theorem foldl_partStep_texts (items : List PortItem) (st : List Int × List (Int × Int))
    (h : ∀ item ∈ items, item.FitsInt) :
    (items.map PortItem.text).foldl mergePorts.partStep st
      = (st.1 ++ itemSingles items, st.2 ++ itemRanges items) := by
  induction items generalizing st with
  | nil => simp [itemSingles, itemRanges]
  | cons item rest ih =>
    simp only [List.map_cons, List.foldl_cons]
    rw [partStep_text st item (h item (List.mem_cons_self _ _)),
      ih _ fun x hx => h x (List.mem_cons_of_mem _ hx)]
    have h1 := itemSingles_append [item] rest
    have h2 := itemRanges_append [item] rest
    simp only [List.singleton_append] at h1 h2
    simp only [h1, h2, List.append_assoc]

theorem foldl_partStep_expr (items : List PortItem) (st : List Int × List (Int × Int))
    (h : ∀ item ∈ items, item.FitsInt) :
    (strings.Split (portExprText items) ',').foldl mergePorts.partStep st
      = (st.1 ++ itemSingles items, st.2 ++ itemRanges items) := by
  rcases List.eq_nil_or_concat items with rfl | ⟨items', last, hitems⟩
  · have : strings.Split (portExprText []) ',' = [[]] := by decide
    rw [this]
    have hstep : mergePorts.partStep st [] = st := by
      have h1 : strings.TrimSpace [] = [] := by decide
      have h2 : strings.Contains [] "-".toList = false := by decide
      have h3 : strconv.Atoi [] = none := by decide
      simp only [mergePorts.partStep, h1, h2, h3, Bool.false_eq_true, if_false]
    simp [hstep, itemSingles, itemRanges]
  · have hne : items.map PortItem.text ≠ [] := by
      rw [hitems]
      simp
    unfold strings.Split portExprText
    rw [List.splitOn_intercalate _ ',' ?_ hne]
    · exact foldl_partStep_texts items st h
    · intro l hl
      obtain ⟨item, _, rfl⟩ := List.mem_map.1 hl
      exact text_no_comma item

theorem collect_texts (exprs : List (List PortItem))
    (h : ∀ items ∈ exprs, ∀ item ∈ items, item.FitsInt) :
    mergePorts.collect (exprs.map portExprText)
      = (exprs.flatMap itemSingles, exprs.flatMap itemRanges) := by
  have key : ∀ (st : List Int × List (Int × Int)),
      (exprs.map portExprText).foldl
          (fun st port => (strings.Split port ',').foldl mergePorts.partStep st) st
        = (st.1 ++ exprs.flatMap itemSingles, st.2 ++ exprs.flatMap itemRanges) := by
    induction exprs with
    | nil => intro st; simp
    | cons items rest ih =>
      intro st
      simp only [List.map_cons, List.foldl_cons]
      rw [foldl_partStep_expr items st (h items (List.mem_cons_self _ _)),
        ih fun x hx => h x (List.mem_cons_of_mem _ hx)]
      simp only [List.flatMap_cons, List.append_assoc]
  have := key ([], [])
  simpa [mergePorts.collect] using this

end cluster

namespace cluster

open scanner

theorem uniqueLoop_subset (l : List Int) (prev : Option Int) :
    ∀ x ∈ mergePorts.uniqueLoop prev l, x ∈ l := by
  induction l generalizing prev with
  | nil => intro x hx; simp [mergePorts.uniqueLoop] at hx
  | cons a rest ih =>
    intro x hx
    rw [mergePorts.uniqueLoop] at hx
    split at hx
    · exact List.mem_cons_of_mem _ (ih _ x hx)
    · rcases List.mem_cons.1 hx with rfl | hx
      · exact List.mem_cons_self _ _
      · exact List.mem_cons_of_mem _ (ih _ x hx)

theorem mem_uniqueLoop_of_mem (l : List Int) (prev : Option Int) (x : Int) (hx : x ∈ l) :
    x ∈ mergePorts.uniqueLoop prev l ∨ prev = some x := by
  induction l generalizing prev with
  | nil => simp at hx
  | cons a rest ih =>
    rw [mergePorts.uniqueLoop]
    rcases List.mem_cons.1 hx with rfl | hrest
    · by_cases hp : prev = some x
      · exact Or.inr hp
      · rw [if_neg hp]
        exact Or.inl (List.mem_cons_self _ _)
    · rcases ih (some a) hrest with h | h
      · left
        split
        · exact h
        · exact List.mem_cons_of_mem _ h
      · have hax : a = x := Option.some.inj h
        subst hax
        by_cases hp : prev = some a
        · exact Or.inr hp
        · rw [if_neg hp]
          exact Or.inl (List.mem_cons_self _ _)

theorem mem_singles (ports : List GoString) (x : Int) :
    x ∈ mergePorts.singles ports ↔ x ∈ (mergePorts.collect ports).1 := by
  unfold mergePorts.singles
  constructor
  · intro hx
    exact (List.perm_insertionSort (fun a b : Int => a ≤ b) _).mem_iff.1
      (uniqueLoop_subset _ _ x hx)
  · intro hx
    have := mem_uniqueLoop_of_mem _ none x
      ((List.perm_insertionSort (fun a b : Int => a ≤ b) _).mem_iff.2 hx)
    rcases this with h | h
    · exact h
    · cases h

theorem mem_ranges (S : SliceSort) (ports : List GoString) (r : Int × Int) :
    r ∈ mergePorts.ranges S ports ↔ r ∈ (mergePorts.collect ports).2 := by
  unfold mergePorts.ranges
  split
  · exact (S.perm _ _).mem_iff
  · exact Iff.rfl

theorem mem_itemSingles (items : List PortItem) (x : Int) :
    x ∈ itemSingles items ↔ ∃ n : Nat, PortItem.single n ∈ items ∧ x = (n : Int) := by
  induction items with
  | nil => simp [itemSingles]
  | cons item rest ih =>
    cases item with
    | single m =>
      simp only [itemSingles, List.mem_cons, ih]
      constructor
      · rintro (rfl | ⟨n, hn, rfl⟩)
        · exact ⟨m, Or.inl rfl, rfl⟩
        · exact ⟨n, Or.inr hn, rfl⟩
      · rintro ⟨n, hn | hn, rfl⟩
        · cases hn
          exact Or.inl rfl
        · exact Or.inr ⟨n, hn, rfl⟩
    | range a b =>
      simp only [itemSingles, List.mem_cons, ih]
      constructor
      · rintro ⟨n, hn, rfl⟩
        exact ⟨n, Or.inr hn, rfl⟩
      · rintro ⟨n, hn | hn, rfl⟩
        · cases hn
        · exact ⟨n, hn, rfl⟩

theorem mem_itemRanges (items : List PortItem) (r : Int × Int) :
    r ∈ itemRanges items ↔ ∃ a b : Nat, PortItem.range a b ∈ items ∧ r = ((a : Int), (b : Int)) := by
  induction items with
  | nil => simp [itemRanges]
  | cons item rest ih =>
    cases item with
    | single m =>
      simp only [itemRanges, List.mem_cons, ih]
      constructor
      · rintro ⟨a, b, hab, rfl⟩
        exact ⟨a, b, Or.inr hab, rfl⟩
      · rintro ⟨a, b, hab | hab, rfl⟩
        · cases hab
        · exact ⟨a, b, hab, rfl⟩
    | range c d =>
      simp only [itemRanges, List.mem_cons, ih]
      constructor
      · rintro (rfl | ⟨a, b, hab, rfl⟩)
        · exact ⟨c, d, Or.inl rfl, rfl⟩
        · exact ⟨a, b, Or.inr hab, rfl⟩
      · rintro ⟨a, b, hab | hab, rfl⟩
        · cases hab
          exact Or.inl rfl
        · exact Or.inr ⟨a, b, hab, rfl⟩

/-- The text that `mergePorts` joins is the text of the items it has kept. -/
theorem merged_text (singles : List Int) (ranges : List (Int × Int))
    (hs : ∀ x ∈ singles, 0 ≤ x) (hr : ∀ r ∈ ranges, 0 ≤ r.1 ∧ 0 ≤ r.2) :
    strings.Join (singles.map strconv.Itoa ++ ranges.map mergePorts.rangeText) ",".toList
      = portExprText ((singles.map fun x => PortItem.single x.toNat)
          ++ ranges.map fun r => PortItem.range r.1.toNat r.2.toNat) := by
  unfold strings.Join portExprText
  have h1 : singles.map strconv.Itoa
      = (singles.map fun x => PortItem.single x.toNat).map PortItem.text := by
    rw [List.map_map]
    apply List.map_congr_left
    intro x hx
    simp only [Function.comp, PortItem.text, Int.toNat_of_nonneg (hs x hx)]
  have h2 : ranges.map mergePorts.rangeText
      = (ranges.map fun r => PortItem.range r.1.toNat r.2.toNat).map PortItem.text := by
    rw [List.map_map]
    apply List.map_congr_left
    intro r hr'
    simp only [Function.comp, PortItem.text, mergePorts.rangeText,
      Int.toNat_of_nonneg (hr r hr').1, Int.toNat_of_nonneg (hr r hr').2]
  rw [h1, h2, List.map_append]
  rfl

theorem mergePorts_denotes (S : SliceSort) (a b : List PortItem) (rest : List (List PortItem))
    (h : ∀ items ∈ a :: b :: rest, ∀ item ∈ items, item.FitsInt) (p : Nat) :
    denotes (mergePorts S ((a :: b :: rest).map portExprText)) p = true
      ↔ ∃ items ∈ a :: b :: rest, ∃ item ∈ items, item.holds p = true := by
  have hcollect := collect_texts (a :: b :: rest) h
  have hs : ∀ x ∈ mergePorts.singles ((a :: b :: rest).map portExprText), 0 ≤ x := by
    intro x hx
    rw [mem_singles, hcollect] at hx
    obtain ⟨items, _, hx⟩ := List.mem_flatMap.1 hx
    obtain ⟨n, _, rfl⟩ := (mem_itemSingles items x).1 hx
    exact Int.natCast_nonneg n
  have hr : ∀ r ∈ mergePorts.ranges S ((a :: b :: rest).map portExprText),
      0 ≤ r.1 ∧ 0 ≤ r.2 := by
    intro r hr
    rw [mem_ranges, hcollect] at hr
    obtain ⟨items, _, hr⟩ := List.mem_flatMap.1 hr
    obtain ⟨c, d, _, rfl⟩ := (mem_itemRanges items r).1 hr
    exact ⟨Int.natCast_nonneg c, Int.natCast_nonneg d⟩
  have hout : mergePorts S ((a :: b :: rest).map portExprText)
      = strings.Join
          ((mergePorts.singles ((a :: b :: rest).map portExprText)).map strconv.Itoa
            ++ (mergePorts.ranges S ((a :: b :: rest).map portExprText)).map
              mergePorts.rangeText) ",".toList := rfl
  rw [hout, merged_text _ _ hs hr, denotes_text]
  constructor
  · rintro ⟨item, hitem, hp⟩
    rcases List.mem_append.1 hitem with hi | hi
    · obtain ⟨x, hx, rfl⟩ := List.mem_map.1 hi
      rw [mem_singles, hcollect] at hx
      obtain ⟨items, hitems, hx⟩ := List.mem_flatMap.1 hx
      obtain ⟨n, hn, rfl⟩ := (mem_itemSingles items x).1 hx
      exact ⟨items, hitems, .single n, hn, by simpa using hp⟩
    · obtain ⟨r, hr', rfl⟩ := List.mem_map.1 hi
      rw [mem_ranges, hcollect] at hr'
      obtain ⟨items, hitems, hr'⟩ := List.mem_flatMap.1 hr'
      obtain ⟨c, d, hcd, rfl⟩ := (mem_itemRanges items r).1 hr'
      exact ⟨items, hitems, .range c d, hcd, by simpa using hp⟩
  · rintro ⟨items, hitems, item, hitem, hp⟩
    cases item with
    | single n =>
      refine ⟨.single n, List.mem_append_left _ ?_, hp⟩
      refine List.mem_map.2 ⟨(n : Int), ?_, by simp⟩
      rw [mem_singles, hcollect]
      exact List.mem_flatMap.2 ⟨items, hitems, (mem_itemSingles items _).2 ⟨n, hitem, rfl⟩⟩
    | range c d =>
      refine ⟨.range c d, List.mem_append_right _ ?_, hp⟩
      refine List.mem_map.2 ⟨((c : Int), (d : Int)), ?_, by simp⟩
      rw [mem_ranges, hcollect]
      exact List.mem_flatMap.2 ⟨items, hitems, (mem_itemRanges items _).2 ⟨c, d, hitem, rfl⟩⟩

end cluster

namespace cluster

open scanner

theorem exists_denotes_texts (exprs : List (List PortItem)) (p : Nat) :
    (∃ expr ∈ exprs.map portExprText, denotes expr p = true)
      ↔ ∃ items ∈ exprs, ∃ item ∈ items, item.holds p = true := by
  constructor
  · rintro ⟨expr, hexpr, hp⟩
    obtain ⟨items, hitems, rfl⟩ := List.mem_map.1 hexpr
    exact ⟨items, hitems, (denotes_text items p).1 hp⟩
  · rintro ⟨items, hitems, hp⟩
    exact ⟨_, List.mem_map_of_mem _ hitems, (denotes_text items p).2 hp⟩

/-- C29: for every list of well-formed port expressions (comma-separated
decimal integers and ranges `a-b`, with numbers in the range of a Go `int`)
and every port `p`, the expression written by `mergePorts` denotes `p` exactly
when one of the given expressions denotes `p`; a well-formed expression is
read back as its items. -/
theorem mergePorts_denotes_union (S : SliceSort) (exprs : List (List PortItem))
    (h : ∀ items ∈ exprs, ∀ item ∈ items, item.FitsInt) (p : Nat) :
    (denotes (mergePorts S (exprs.map portExprText)) p = true
      ↔ ∃ expr ∈ exprs.map portExprText, denotes expr p = true) ∧
    (∀ items : List PortItem, parsePortExpr (portExprText items) = items) := by
  refine ⟨?_, parsePortExpr_text⟩
  rw [exists_denotes_texts]
  match exprs, h with
  | [], _ =>
    have : denotes (mergePorts S ([].map portExprText)) p = false := rfl
    rw [this]
    simp
  | [items], _ =>
    have : mergePorts S ([items].map portExprText) = portExprText items := rfl
    rw [this, denotes_text]
    simp
  | a :: b :: rest, h => exact mergePorts_denotes S a b rest h p

/-- Witness of C29: the expressions `80,22` and `22,5-20` are merged into
`22,80,5-20`, which denotes port 7 as the second expression does. -/
theorem mergePorts_denotes_union_witness :
    [[PortItem.single 80, .single 22], [.single 22, .range 5 20]].map portExprText
      = ["80,22".toList, "22,5-20".toList] ∧
    mergePorts insertionSliceSort ["80,22".toList, "22,5-20".toList] = "22,80,5-20".toList ∧
    (denotes (mergePorts insertionSliceSort
        ([[PortItem.single 80, .single 22], [.single 22, .range 5 20]].map portExprText)) 7 = true
      ↔ ∃ expr ∈ [[PortItem.single 80, .single 22], [.single 22, .range 5 20]].map portExprText,
          denotes expr 7 = true) ∧
    denotes "22,5-20".toList 7 = true :=
  ⟨by decide, by decide,
    (mergePorts_denotes_union insertionSliceSort
      [[.single 80, .single 22], [.single 22, .range 5 20]]
      (by
        intro items hitems item hitem
        simp only [List.mem_cons, List.mem_singleton, List.not_mem_nil, or_false] at hitems
        rcases hitems with rfl | rfl <;>
          simp only [List.mem_cons, List.mem_singleton, List.not_mem_nil, or_false] at hitem <;>
          rcases hitem with rfl | rfl <;> simp [PortItem.FitsInt])
      7).1,
    by decide⟩

end cluster

namespace detector

open GetTopFingerprints

end detector

namespace detector

open GetTopFingerprints

end detector

namespace detector

open GetTopFingerprints

end detector
